import Mathlib

/-!
# Verification of `concurrency-exercises/prod.go`

A shallow embedding of the concurrent task-processing service
(`Analytics`, `Cache`, `TaskProcessor`, `RateLimiter`, `Server.handleProcess`,
`Server.handleCachedData`) and theorems about it, followed by the retry loop of
`concurrency-interview/worker-queue-impl.go` (namespace `WorkerQueue`), `aggregate` of
`concurrency-interview/fanin-fanout.go` (namespace `FanInFanOut`), `GenerateLogFile` of
`parsing/generator-semistructured.go` (namespace `LogGenerator`), the token bucket and the
retry backoff of `concurrency-interview/notiifcation.go` (namespace `Notif`) and
`processLogEntry` of `parsing/server-logs-parsing.go` (namespace `LogParsing`).

Conventions of the embedding

* A Go `map[string]T` is a function `String → Option T`; `none` is an absent key.
  Reading an absent key yields the zero value, as in Go.
* `time.Time` and `time.Duration` are integers counting nanoseconds on the
  monotonic clock that `time.Now` carries.
* `int64` counters are mathematical integers: a counter moves by one per call,
  so wrapping needs `2^63` calls.
* A `float64` is the rational that is its value, and every `float64` operation is
  rounded to 53 significant bits, to nearest and to even on a tie (`round64`); overflow,
  subnormal numbers, infinities and NaN are left out, the values met lying far from them.
* A buffered channel is its buffer, its capacity (at least 1) and its closed flag; a
  blocking operation returns `none` (or a `blocked` outcome) when it cannot
  proceed in the given state. The hand-over of an unbuffered channel is not modelled.
* Mutexes are not modelled: every method body below runs under its lock, so a
  call is one atomic step. `LimiterSys` is the exception: it splits `Acquire` and
  `Release`, which take no lock, into their two steps.
* In `Notif` the token count is an `int` of 64 bits: the sum of the refill wraps, and the
  conversion of a `float64` outside the range of `int` is a parameter `conv`.
* A Go `string` is a Lean `String`: the separator of `processLogEntry` is the one-byte
  space, so splitting by characters and by bytes agree on valid UTF-8.
-/

namespace Prod

/-! ## Go maps -/

/-- A Go `map[string]T`. -/
abbrev GoMap (α : Type) := String → Option α

/-- The result of `make(map[string]T)`. -/
def GoMap.empty {α : Type} : GoMap α := fun _ => none

/-- The assignment `m[k] = v`. -/
def GoMap.set {α : Type} (m : GoMap α) (k : String) (v : α) : GoMap α :=
  fun k' => if k' = k then some v else m k'

/-- The built-in `delete(m, k)`. -/
def GoMap.delete {α : Type} (m : GoMap α) (k : String) : GoMap α :=
  fun k' => if k' = k then none else m k'

/-! ## Time -/

/-- A `time.Time`: nanoseconds on the monotonic clock. -/
abbrev Time := Int

/-- A `time.Duration`: nanoseconds. -/
abbrev Duration := Int

/-- The method `Duration.Milliseconds`: integer division by `1e6`, truncated toward zero. -/
def Duration.Milliseconds (d : Duration) : Int := Int.tdiv d 1000000

/-- The method `Time.After`: `t.After(u)` reports whether `t` is strictly later than `u`. -/
def Time.After (t u : Time) : Bool := decide (u < t)

/-- The method `Time.Add`. -/
def Time.Add (t : Time) (d : Duration) : Time := t + d

/-! ## The type `float64` -/

/-- The integer nearest to `y`, the even one of the two when `y` is half-way. -/
def roundEven (y : ℚ) : Int :=
  if y - ⌊y⌋ < 1 / 2 then ⌊y⌋
  else if 1 / 2 < y - ⌊y⌋ then ⌊y⌋ + 1
  else if ⌊y⌋ % 2 = 0 then ⌊y⌋ else ⌊y⌋ + 1

/-- The `float64` that an operation with exact result `x` returns: `x` rounded to 53
significant bits, to nearest and to even on a tie. The values met here lie far from the
overflow and the subnormal range of `float64`, which are left out. -/
def round64 (x : ℚ) : ℚ :=
  if x = 0 then 0
  else (roundEven (x / 2 ^ (Int.log 2 |x| - 52)) : ℚ) * 2 ^ (Int.log 2 |x| - 52)

/-! ## Analytics -/

/-- The struct `Analytics` (its mutex left out). -/
structure Analytics where
  requestCount : GoMap Int
  errorCount : GoMap Int
  avgResponseTime : GoMap ℚ

/-- The constructor `NewAnalytics`. -/
def NewAnalytics : Analytics :=
  { requestCount := GoMap.empty, errorCount := GoMap.empty, avgResponseTime := GoMap.empty }

/-- The read `a.requestCount[endpoint]`. -/
def Analytics.getRequestCount (a : Analytics) (endpoint : String) : Int :=
  (a.requestCount endpoint).getD 0

/-- The read `a.errorCount[errorType]`. -/
def Analytics.getErrorCount (a : Analytics) (errorType : String) : Int :=
  (a.errorCount errorType).getD 0

/-- The read `a.avgResponseTime[endpoint]`. -/
def Analytics.getAvgResponseTime (a : Analytics) (endpoint : String) : ℚ :=
  (a.avgResponseTime endpoint).getD 0

/-- The value `newAvg` of `RecordRequest`:
`(currentAvg*(count-1) + float64(duration.Milliseconds())) / count` with
`count := float64(requestCount)`, every `float64` operation rounded and none fused with
another (Go fuses no multiplication and addition on amd64). -/
def Analytics.newAvg (currentAvg : ℚ) (requestCount : Int) (duration : Duration) : ℚ :=
  let count : ℚ := round64 (requestCount : ℚ)
  round64 (round64 (round64 (currentAvg * round64 (count - 1))
    + round64 ((Duration.Milliseconds duration : Int) : ℚ)) / count)

/-- The method `Analytics.RecordRequest`. -/
def Analytics.RecordRequest (a : Analytics) (endpoint : String) (duration : Duration) :
    Analytics :=
  let requestCount := a.requestCount.set endpoint (a.getRequestCount endpoint + 1)
  let currentAvg := a.getAvgResponseTime endpoint
  let newAvg := Analytics.newAvg currentAvg ((requestCount endpoint).getD 0) duration
  { a with requestCount := requestCount
           avgResponseTime := a.avgResponseTime.set endpoint newAvg }

/-- The method `Analytics.RecordError`. -/
def Analytics.RecordError (a : Analytics) (errorType : String) : Analytics :=
  { a with errorCount := a.errorCount.set errorType (a.getErrorCount errorType + 1) }

/-- One call on an `Analytics`. -/
inductive AnalyticsCall where
  | recordRequest (endpoint : String) (duration : Duration)
  | recordError (errorType : String)

/-- Run one call. -/
def Analytics.call (a : Analytics) : AnalyticsCall → Analytics
  | .recordRequest e d => a.RecordRequest e d
  | .recordError k => a.RecordError k

/-- Run a sequence of calls, first to last. -/
def Analytics.run (a : Analytics) (calls : List AnalyticsCall) : Analytics :=
  calls.foldl Analytics.call a

/-- The durations, in milliseconds, that a call sequence records for `endpoint`, in order. -/
def recordedMs (endpoint : String) : List AnalyticsCall → List Int
  | [] => []
  | .recordRequest e d :: rest =>
      if e = endpoint then Duration.Milliseconds d :: recordedMs endpoint rest
      else recordedMs endpoint rest
  | .recordError _ :: rest => recordedMs endpoint rest

/-- The sum of the sizes `|x|` of a list of integers. -/
def absSum : List Int → Int
  | [] => 0
  | x :: rest => |x| + absSum rest

/-! ## Cache -/

/-- The struct `CacheEntry`; `V` stands for the `interface{}` value. -/
structure CacheEntry (V : Type) where
  value : V
  expiresAt : Time

/-- The struct `Cache` (its mutex left out). -/
structure Cache (V : Type) where
  entries : GoMap (CacheEntry V)

/-- The constructor `NewCache`; the sweep goroutine it starts is `Cache.cleanupExpired`,
run as a step of its own. -/
def NewCache {V : Type} : Cache V := { entries := GoMap.empty }

/-- The method `Cache.Get`, with the reading `now` of `time.Now()`; a `nil` value is `none`. -/
def Cache.Get {V : Type} (c : Cache V) (now : Time) (key : String) : Option V × Bool :=
  match c.entries key with
  | none => (none, false)
  | some entry =>
      if Time.After now entry.expiresAt then (none, false) else (some entry.value, true)

/-- The method `Cache.Set`, with the reading `now` of `time.Now()`. -/
def Cache.Set {V : Type} (c : Cache V) (now : Time) (key : String) (value : V)
    (ttl : Duration) : Cache V :=
  { entries := c.entries.set key { value := value, expiresAt := Time.Add now ttl } }

/-- One pass of the ticker loop of `Cache.cleanupExpired`, with the reading `now` of
`time.Now()`: every entry with `now.After(entry.expiresAt)` is deleted. The loop over the
map deletes each key on its own test, so the pass is taken key by key. -/
def Cache.cleanupExpired {V : Type} (c : Cache V) (now : Time) : Cache V :=
  { entries := fun key =>
      match c.entries key with
      | none => none
      | some entry => if Time.After now entry.expiresAt then none else some entry }

/-- One state-changing step on a `Cache`, stamped with the clock reading it takes. -/
inductive CacheStep (V : Type) where
  | set (now : Time) (key : String) (value : V) (ttl : Duration)
  | sweep (now : Time)

/-- The clock reading of a step. -/
def CacheStep.time {V : Type} : CacheStep V → Time
  | .set now _ _ _ => now
  | .sweep now => now

/-- Whether a step is a `Set` of `key`. -/
def CacheStep.setsKey {V : Type} (key : String) : CacheStep V → Bool
  | .set _ k _ _ => decide (k = key)
  | .sweep _ => false

/-- Run one step. -/
def Cache.step {V : Type} (c : Cache V) : CacheStep V → Cache V
  | .set now key value ttl => c.Set now key value ttl
  | .sweep now => c.cleanupExpired now

/-- Run a sequence of steps, first to last. -/
def Cache.run {V : Type} (c : Cache V) (steps : List (CacheStep V)) : Cache V :=
  steps.foldl Cache.step c

/-! ## Channels -/

/-- The outcome of attempting a blocking operation in a given state. -/
inductive Step (α : Type) where
  | done (a : α)
  | blocked
  | panic (msg : String)

/-- A buffered channel `make(chan T, cap)` with `cap ≥ 1`. -/
structure Chan (α : Type) where
  buf : List α
  cap : Nat
  closed : Bool

/-- The call `make(chan T, cap)` of a buffered channel, `cap ≥ 1`. -/
def Chan.make {α : Type} (cap : Nat) : Chan α := { buf := [], cap := cap, closed := false }

/-- The send `ch <- x`: panics on a closed channel, proceeds when the buffer has room and
blocks otherwise. -/
def Chan.send {α : Type} (ch : Chan α) (x : α) : Step (Chan α) :=
  if ch.closed then .panic "send on closed channel"
  else if ch.buf.length < ch.cap then .done { ch with buf := ch.buf ++ [x] }
  else .blocked

/-- The receive `<-ch`: takes the head of the buffer; on an empty buffer it yields the
zero value (`none` here) when the channel is closed and blocks otherwise. -/
def Chan.recv {α : Type} (ch : Chan α) : Step (Option α × Chan α) :=
  match ch.buf with
  | x :: rest => .done (some x, { ch with buf := rest })
  | [] => if ch.closed then .done (none, ch) else .blocked

/-- The call `close(ch)`. -/
def Chan.close {α : Type} (ch : Chan α) : Step (Chan α) :=
  if ch.closed then .panic "close of closed channel" else .done { ch with closed := true }

/-- What another goroutine does to a channel while this one waits on it. -/
inductive ChanOp (α : Type) where
  | recv
  | send (x : α)
  | close

/-- The channel after another goroutine attempts `op`; an attempt that blocks or panics
leaves the channel as it was. -/
def Chan.other {α : Type} (ch : Chan α) : ChanOp α → Chan α
  | .recv => match ch.recv with
    | .done (_, ch') => ch'
    | _ => ch
  | .send x => match ch.send x with
    | .done ch' => ch'
    | _ => ch
  | .close => match ch.close with
    | .done ch' => ch'
    | _ => ch

/-- The outcome of `select { case ch <- x: ... case <-time.After(d): ... }`. -/
inductive SelectSend (α : Type) where
  | sent (ch : Chan α)
  | timeout (ch : Chan α)
  | panic (msg : String)

/-- The statement `select { case ch <- x: ... case <-time.After(d): ... }`. The list
`during` holds what other goroutines do to `ch` before the timer fires: the send proceeds
in the first state that admits it, and the timer case is taken when none does. -/
def Chan.sendOrTimeout {α : Type} (ch : Chan α) (x : α) : List (ChanOp α) → SelectSend α
  | [] => match ch.send x with
    | .done ch' => .sent ch'
    | .panic msg => .panic msg
    | .blocked => .timeout ch
  | op :: rest => match ch.send x with
    | .done ch' => .sent ch'
    | .panic msg => .panic msg
    | .blocked => (ch.other op).sendOrTimeout x rest

/-- The buffer holds no more than the capacity. -/
def Chan.Bounded {α : Type} (ch : Chan α) : Prop := ch.buf.length ≤ ch.cap

/-- The channel is full now and at every instant while the goroutines of `during` act on it. -/
def Chan.staysFull {α : Type} (ch : Chan α) : List (ChanOp α) → Bool
  | [] => decide (ch.buf.length = ch.cap)
  | op :: rest => decide (ch.buf.length = ch.cap) && (ch.other op).staysFull rest

/-- Whether an operation is a `close`. -/
def ChanOp.isClose {α : Type} : ChanOp α → Bool
  | .close => true
  | _ => false

/-! ## Rate limiter -/

/-- The struct `RateLimiter`. -/
structure RateLimiter where
  sem : Chan Unit
  maxConcurrent : Nat
  activeCount : Int

/-- The constructor `NewRateLimiter`. -/
def NewRateLimiter (maxConcurrent : Nat) : RateLimiter :=
  { sem := Chan.make maxConcurrent, maxConcurrent := maxConcurrent, activeCount := 0 }

/-- The method `RateLimiter.Acquire`: a send on `sem`, then `activeCount` plus one. It has
no other exit: either the send proceeds or the caller stays blocked in it. -/
def RateLimiter.Acquire (rl : RateLimiter) : Step RateLimiter :=
  match rl.sem.send () with
  | .done sem => .done { rl with sem := sem, activeCount := rl.activeCount + 1 }
  | .blocked => .blocked
  | .panic msg => .panic msg

/-- The method `RateLimiter.Release`: a receive on `sem`, then `activeCount` minus one. -/
def RateLimiter.Release (rl : RateLimiter) : Step RateLimiter :=
  match rl.sem.recv with
  | .done (_, sem) => .done { rl with sem := sem, activeCount := rl.activeCount - 1 }
  | .blocked => .blocked
  | .panic msg => .panic msg

/-- The method `RateLimiter.GetActiveCount`. -/
def RateLimiter.GetActiveCount (rl : RateLimiter) : Int := rl.activeCount

/-- The permits held: the tokens sitting in `sem`. -/
def RateLimiter.held (rl : RateLimiter) : Nat := rl.sem.buf.length

/-- The invariant of a limiter made by `NewRateLimiter M`: `sem` is open with capacity `M`,
holds at most `M` tokens, and `activeCount` equals the number of tokens. -/
def RateLimiter.Inv (M : Nat) (rl : RateLimiter) : Prop :=
  rl.sem.cap = M ∧ rl.sem.closed = false ∧ rl.held ≤ M ∧ rl.activeCount = (rl.held : Int)

/-- A call on a `RateLimiter`. -/
inductive LimiterCall where
  | acquire
  | release
deriving DecidableEq

/-- Run one call. -/
def RateLimiter.call (rl : RateLimiter) : LimiterCall → Step RateLimiter
  | .acquire => rl.Acquire
  | .release => rl.Release

/-- Run a sequence of calls to completion, each call starting when the one before it has
returned; the run is `done` only if every call of the sequence returns. -/
def RateLimiter.run (rl : RateLimiter) : List LimiterCall → Step RateLimiter
  | [] => .done rl
  | c :: rest => match rl.call c with
    | .done rl' => rl'.run rest
    | .blocked => .blocked
    | .panic msg => .panic msg

/-- Completed `Acquire` calls minus completed `Release` calls of a call sequence. -/
def permitsHeld (calls : List LimiterCall) : Int :=
  (calls.count .acquire : Int) - (calls.count .release : Int)

/-- A caller waiting in `Acquire` for `ticks` clock ticks while no other goroutine touches
the limiter: the send is attempted at every tick and the call returns at the first tick
where it proceeds. -/
def RateLimiter.acquireWithin (rl : RateLimiter) : Nat → Step RateLimiter
  | 0 => rl.Acquire
  | ticks + 1 => match rl.Acquire with
    | .blocked => rl.acquireWithin ticks
    | r => r

/-! ## Task processor -/

/-- A scalar held in a `map[string]interface{}`. -/
inductive Field where
  | str (s : String)
  | int (n : Int)
deriving DecidableEq

/-- A `map[string]interface{}` of scalars, as a list of its entries. -/
abbrev Obj := List (String × Field)

/-- The struct `TaskResult`; a `nil` result or error is `none`. -/
structure TaskResult where
  TaskID : String
  Result : Option Obj
  Error : Option String
deriving DecidableEq

/-- The struct `Task`; `Type_` is its field `Type`, and `ResultCh` is the handle of the
reply channel, `none` for `nil`. -/
structure Task where
  ID : String
  Type_ : String
  Payload : Obj
  ResultCh : Option Int
deriving DecidableEq

/-- The zero value `Task{}`, which a receive on a closed, empty channel yields. -/
def Task.zero : Task := { ID := "", Type_ := "", Payload := [], ResultCh := none }

/-- The struct `TaskProcessor`. The `analytics` field is the object the `Server` shares
with it; `wg` is the counter of the `sync.WaitGroup`. -/
structure TaskProcessor where
  taskQueue : Chan Task
  numWorkers : Nat
  wg : Int
  analytics : Analytics
  tasksProcessed : Int

/-- The constructor `NewTaskProcessor`. -/
def NewTaskProcessor (queueSize numWorkers : Nat) (analytics : Analytics) : TaskProcessor :=
  { taskQueue := Chan.make queueSize, numWorkers := numWorkers, wg := 0,
    analytics := analytics, tasksProcessed := 0 }

/-- The method `TaskProcessor.Start`: `wg.Add(1)` once per worker started. -/
def TaskProcessor.Start (tp : TaskProcessor) : TaskProcessor :=
  { tp with wg := tp.wg + tp.numWorkers }

/-- The values the random source hands to one `processTask` call. -/
structure Rand where
  sleep : Nat
  value : Nat
  float32 : ℚ

/-- The method `TaskProcessor.processTask`. The `time.Sleep` calls change no state and are
left out. -/
def TaskProcessor.processTask (tp : TaskProcessor) (task : Task) (rnd : Rand) :
    TaskProcessor × TaskResult :=
  if task.Type_ = "compute" then
    (tp, { TaskID := task.ID,
           Result := some [("computation", .str "completed"), ("value", .int (rnd.value % 1000))],
           Error := none })
  else if task.Type_ = "database" then
    (tp, { TaskID := task.ID,
           Result := some [("records", .int (rnd.value % 100))],
           Error := none })
  else if task.Type_ = "external_api" then
    if rnd.float32 < 1 / 10 then
      ({ tp with analytics := tp.analytics.RecordError "external_api_timeout" },
       { TaskID := task.ID, Result := none, Error := some "external API timeout" })
    else
      (tp, { TaskID := task.ID, Result := some [("status", .str "success")], Error := none })
  else
    ({ tp with analytics := tp.analytics.RecordError "unknown_task_type" },
     { TaskID := task.ID, Result := none, Error := some ("unknown task type: " ++ task.Type_) })

/-- The outcome of `TaskProcessor.SubmitTask`: the returned error (`none` for `nil`) with
the processor as the call leaves it, or a panic. -/
inductive SubmitOutcome where
  | returned (err : Option String) (tp : TaskProcessor)
  | panic (msg : String)

/-- The method `TaskProcessor.SubmitTask`; `during` is what other goroutines do to the queue
while the call waits. -/
def TaskProcessor.SubmitTask (tp : TaskProcessor) (task : Task) (during : List (ChanOp Task)) :
    SubmitOutcome :=
  match tp.taskQueue.sendOrTimeout task during with
  | .sent q => .returned none { tp with taskQueue := q }
  | .timeout q => .returned (some "task queue full") { tp with taskQueue := q }
  | .panic msg => .panic msg

/-- The first statement of `TaskProcessor.Stop`: `close(tp.taskQueue)`. -/
def TaskProcessor.closeQueue (tp : TaskProcessor) : Step TaskProcessor :=
  match tp.taskQueue.close with
  | .done q => .done { tp with taskQueue := q }
  | .blocked => .blocked
  | .panic msg => .panic msg

/-- The method `TaskProcessor.Stop`: close the queue, then `tp.wg.Wait()`, which returns
only when every worker has called `wg.Done`. -/
def TaskProcessor.Stop (tp : TaskProcessor) : Step TaskProcessor :=
  match tp.closeQueue with
  | .done tp' => if tp'.wg = 0 then .done tp' else .blocked
  | r => r

/-- The method `TaskProcessor.GetProcessedCount`. -/
def TaskProcessor.GetProcessedCount (tp : TaskProcessor) : Int := tp.tasksProcessed

/-- What one pass of the worker loop meets: whether `ctx.Done()` is ready, which case the
`select` picks when both are ready, the random source, and whether the send on the task's
reply channel proceeds within the second the worker allows it. -/
structure WorkerInput where
  ctxDone : Bool
  pickDone : Bool
  rnd : Rand
  replyReady : Bool

/-- How one pass of the worker loop ends. -/
inductive WorkerEvent where
  | processed (task : Task) (result : TaskResult) (delivered : Bool)
  | shutdown
  | blocked
deriving DecidableEq

/-- One pass of the `for { select { ... } }` loop of `TaskProcessor.worker`. The receive
case is ready when the queue holds a task or is closed; a closed, empty queue hands the
worker the zero `Task`, and the loop body runs on it like on any other. -/
def TaskProcessor.workerPass (tp : TaskProcessor) (inp : WorkerInput) :
    TaskProcessor × WorkerEvent :=
  match tp.taskQueue.recv with
  | .done (received, q) =>
      if inp.ctxDone && inp.pickDone then
        ({ tp with wg := tp.wg - 1 }, .shutdown)
      else
        let task := received.getD Task.zero
        let (tp1, result) := ({ tp with taskQueue := q }).processTask task inp.rnd
        let delivered := task.ResultCh.isSome && inp.replyReady
        ({ tp1 with tasksProcessed := tp1.tasksProcessed + 1 }, .processed task result delivered)
  | _ =>
      if inp.ctxDone then ({ tp with wg := tp.wg - 1 }, .shutdown) else (tp, .blocked)

/-- The method `TaskProcessor.worker` over the passes that `inputs` schedules: the worker
with the events of its passes, and whether it has returned. -/
def TaskProcessor.worker (tp : TaskProcessor) :
    List WorkerInput → TaskProcessor × List WorkerEvent × Bool
  | [] => (tp, [], false)
  | inp :: rest =>
      match tp.workerPass inp with
      | (tp', .shutdown) => (tp', [.shutdown], true)
      | (tp', ev) =>
          let (tp'', evs, exited) := tp'.worker rest
          (tp'', ev :: evs, exited)

/-- A step of some goroutine on a `TaskProcessor`. -/
inductive ProcessorStep where
  | submit (task : Task) (during : List (ChanOp Task))
  | workerPass (inp : WorkerInput)
  | stop

/-- The processor after a step; a step that panics or blocks before changing anything
leaves it as it was. -/
def TaskProcessor.step (tp : TaskProcessor) : ProcessorStep → TaskProcessor
  | .submit task during => match tp.SubmitTask task during with
    | .returned _ tp' => tp'
    | .panic _ => tp
  | .workerPass inp => (tp.workerPass inp).1
  | .stop => match tp.closeQueue with
    | .done tp' => tp'
    | _ => tp

/-- Run a sequence of steps, first to last. -/
def TaskProcessor.run (tp : TaskProcessor) (steps : List ProcessorStep) : TaskProcessor :=
  steps.foldl TaskProcessor.step tp

/-! ## Server -/

/-- The struct `Server`. Its `analytics` pointer is the one it hands to the task processor,
so the shared object is kept once, inside `taskProcessor`. -/
structure Server where
  cache : Cache Obj
  taskProcessor : TaskProcessor
  rateLimiter : RateLimiter
  reqCounter : Int

/-- The field `s.analytics`. -/
def Server.analytics (s : Server) : Analytics := s.taskProcessor.analytics

/-- Apply a method of `Analytics` through `s.analytics`. -/
def Server.withAnalytics (s : Server) (f : Analytics → Analytics) : Server :=
  { s with taskProcessor := { s.taskProcessor with analytics := f s.taskProcessor.analytics } }

/-- The constructor `NewServer`. -/
def NewServer : Server :=
  { cache := NewCache
    taskProcessor := NewTaskProcessor 1000 50 NewAnalytics
    rateLimiter := NewRateLimiter 100
    reqCounter := 0 }

/-- The decoded body of a `/api/process` request. -/
structure ProcessRequest where
  TaskType : String
  Payload : Obj

/-- What one `handleProcess` call meets: the clock readings at entry and at the deferred
`time.Since`, the decoded body (`none` when `Decode` returns an error), what other
goroutines do to the task queue while `SubmitTask` waits, and the `TaskResult` that arrives
on the reply channel within five seconds (`none` when the timer fires first). -/
structure ProcessInput where
  start : Time
  finish : Time
  body : Option ProcessRequest
  during : List (ChanOp Task)
  reply : Option TaskResult

/-- What the handler writes. -/
inductive ResponseBody where
  | text (msg : String)
  | json (task_id : String) (result : Option Obj) (active_requests : Int)

/-- How `handleProcess` leaves: with a response, or by a panic that unwinds it. -/
inductive HandlerExit where
  | response (status : Nat) (body : ResponseBody)
  | panic (msg : String)

/-- The body of `Server.handleProcess` after the two `defer` statements. -/
def Server.processBody (s : Server) (reqID : Int) (inp : ProcessInput) : Server × HandlerExit :=
  match inp.body with
  | none =>
      (s.withAnalytics (fun a => a.RecordError "invalid_json"),
       .response 400 (.text "Invalid JSON"))
  | some req =>
      let task : Task :=
        { ID := "task-" ++ toString reqID, Type_ := req.TaskType, Payload := req.Payload,
          ResultCh := some reqID }
      match s.taskProcessor.SubmitTask task inp.during with
      | .panic msg => (s, .panic msg)
      | .returned (some _) tp =>
          (({ s with taskProcessor := tp }).withAnalytics (fun a => a.RecordError "queue_full"),
           .response 503 (.text "Service busy"))
      | .returned none tp =>
          let s1 : Server := { s with taskProcessor := tp }
          match inp.reply with
          | some result =>
              match result.Error with
              | some msg =>
                  (s1.withAnalytics (fun a => a.RecordError "task_failed"),
                   .response 500 (.text msg))
              | none =>
                  (s1, .response 200
                    (.json result.TaskID result.Result s1.rateLimiter.GetActiveCount))
          | none =>
              (s1.withAnalytics (fun a => a.RecordError "task_timeout"),
               .response 504 (.text "Request timeout"))

/-- The method `Server.handleProcess`. `none` is a call that never returns: the caller stays
blocked in `Acquire`. The deferred calls run last in, first out on every way out of the
body, a panic included: `RecordRequest`, then `Release`. -/
def Server.handleProcess (s : Server) (inp : ProcessInput) : Option (Server × HandlerExit) :=
  let reqID := s.reqCounter + 1
  let s0 : Server := { s with reqCounter := reqID }
  match s0.rateLimiter.Acquire with
  | .blocked => none
  | .panic msg => some (s0, .panic msg)
  | .done rl =>
      let (s1, exit) := ({ s0 with rateLimiter := rl }).processBody reqID inp
      let s2 := s1.withAnalytics
        (fun a => a.RecordRequest "/api/process" (inp.finish - inp.start))
      match s2.rateLimiter.Release with
      | .blocked => none
      | .panic msg => some (s2, .panic msg)
      | .done rl' => some ({ s2 with rateLimiter := rl' }, exit)

/-- The `Task` that `handleProcess` builds for request number `reqID`. -/
def Server.newTask (reqID : Int) (req : ProcessRequest) : Task :=
  { ID := "task-" ++ toString reqID, Type_ := req.TaskType, Payload := req.Payload,
    ResultCh := some reqID }

/-- Between `a` and `a'` the error counter `key` went up by exactly 1 and no other error
counter changed. -/
def ErrorBumped (a a' : Analytics) (key : String) : Prop :=
  a'.getErrorCount key = a.getErrorCount key + 1 ∧
  ∀ k, k ≠ key → a'.errorCount k = a.errorCount k

/-! ## Analytics with its maps on a heap

`GetStats` hands out maps, and Go maps are references. To tell a copy from an alias the
maps of `Analytics` are kept here as objects on a heap and the struct holds their
addresses; `AnalyticsRef.deref` reads the struct back as the `Analytics` above. -/

/-- The map objects of the program, by address: the `map[string]int64` objects and the
`map[string]float64` objects. -/
structure MapHeap where
  ints : List (GoMap Int)
  floats : List (GoMap ℚ)

/-- The `map[string]int64` at an address. -/
def MapHeap.int (h : MapHeap) (addr : Nat) : GoMap Int := (h.ints[addr]?).getD GoMap.empty

/-- The `map[string]float64` at an address. -/
def MapHeap.float (h : MapHeap) (addr : Nat) : GoMap ℚ := (h.floats[addr]?).getD GoMap.empty

/-- The call `make(map[string]int64)`: a new object, at a new address. -/
def MapHeap.makeInt (h : MapHeap) : MapHeap × Nat :=
  ({ h with ints := h.ints ++ [GoMap.empty] }, h.ints.length)

/-- The call `make(map[string]float64)`. -/
def MapHeap.makeFloat (h : MapHeap) : MapHeap × Nat :=
  ({ h with floats := h.floats ++ [GoMap.empty] }, h.floats.length)

/-- The assignment `m[k] = v` on the `map[string]int64` at `addr`. -/
def MapHeap.setInt (h : MapHeap) (addr : Nat) (k : String) (v : Int) : MapHeap :=
  { h with ints := h.ints.set addr ((h.int addr).set k v) }

/-- The assignment `m[k] = v` on the `map[string]float64` at `addr`. -/
def MapHeap.setFloat (h : MapHeap) (addr : Nat) (k : String) (v : ℚ) : MapHeap :=
  { h with floats := h.floats.set addr ((h.float addr).set k v) }

/-- The struct `Analytics` as Go holds it: three map references. -/
structure AnalyticsRef where
  requestCount : Nat
  errorCount : Nat
  avgResponseTime : Nat

/-- The constructor `NewAnalytics`, allocating the three maps. -/
def NewAnalyticsRef (h : MapHeap) : MapHeap × AnalyticsRef :=
  let (h1, rc) := h.makeInt
  let (h2, ec) := h1.makeInt
  let (h3, av) := h2.makeFloat
  (h3, { requestCount := rc, errorCount := ec, avgResponseTime := av })

/-- The `Analytics` value that the references of `a` denote in heap `h`. -/
def AnalyticsRef.deref (a : AnalyticsRef) (h : MapHeap) : Analytics :=
  { requestCount := h.int a.requestCount, errorCount := h.int a.errorCount,
    avgResponseTime := h.float a.avgResponseTime }

/-- The method `Analytics.RecordRequest`, writing through the references. -/
def AnalyticsRef.RecordRequest (a : AnalyticsRef) (h : MapHeap) (endpoint : String)
    (duration : Duration) : MapHeap :=
  let h1 := h.setInt a.requestCount endpoint
    (((h.int a.requestCount) endpoint).getD 0 + 1)
  let currentAvg := ((h1.float a.avgResponseTime) endpoint).getD 0
  let newAvg := Analytics.newAvg currentAvg (((h1.int a.requestCount) endpoint).getD 0) duration
  h1.setFloat a.avgResponseTime endpoint newAvg

/-- The method `Analytics.RecordError`, writing through the reference. -/
def AnalyticsRef.RecordError (a : AnalyticsRef) (h : MapHeap) (errorType : String) : MapHeap :=
  h.setInt a.errorCount errorType (((h.int a.errorCount) errorType).getD 0 + 1)

/-- The function `copyMap`: a new map that receives `copy[k] = v` for every entry of `m`. -/
def copyMap (h : MapHeap) (m : Nat) : MapHeap × Nat :=
  ({ h with ints := h.ints ++ [fun k => match h.int m k with
                                        | some v => some v
                                        | none => none] }, h.ints.length)

/-- The function `copyMapFloat`. -/
def copyMapFloat (h : MapHeap) (m : Nat) : MapHeap × Nat :=
  ({ h with floats := h.floats ++ [fun k => match h.float m k with
                                            | some v => some v
                                            | none => none] }, h.floats.length)

/-- The three maps that `GetStats` returns under the keys `request_count`, `error_count`
and `avg_response_time`. -/
structure Stats where
  request_count : Nat
  error_count : Nat
  avg_response_time : Nat

/-- The method `Analytics.GetStats`. -/
def AnalyticsRef.GetStats (a : AnalyticsRef) (h : MapHeap) : MapHeap × Stats :=
  let (h1, rc) := copyMap h a.requestCount
  let (h2, ec) := copyMap h1 a.errorCount
  let (h3, av) := copyMapFloat h2 a.avgResponseTime
  (h3, { request_count := rc, error_count := ec, avg_response_time := av })

/-- Run one call through the references. -/
def AnalyticsRef.call (a : AnalyticsRef) (h : MapHeap) : AnalyticsCall → MapHeap
  | .recordRequest e d => a.RecordRequest h e d
  | .recordError k => a.RecordError h k

/-- Run a sequence of calls through the references, first to last. -/
def AnalyticsRef.run (a : AnalyticsRef) (h : MapHeap) (calls : List AnalyticsCall) : MapHeap :=
  calls.foldl a.call h

/-- The references of `a` point at three allocated maps of heap `h`, the two counters at
different ones. -/
def AnalyticsRef.Valid (a : AnalyticsRef) (h : MapHeap) : Prop :=
  a.requestCount < h.ints.length ∧ a.errorCount < h.ints.length ∧
  a.requestCount ≠ a.errorCount ∧ a.avgResponseTime < h.floats.length

/-! ## The log of a task processor run -/

/-- What a step does to a task, as an observer of the queue sees it: `SubmitTask` accepted
it (returned `nil`), or a worker pass took it from the queue, ran `processTask` on it and
tried to send the result on its reply channel. -/
inductive QueueEvent where
  | accepted (task : Task)
  | taken (task : Task) (result : TaskResult) (delivered : Bool)
deriving DecidableEq

/-- A step with no other goroutine acting inside it. In a run made of such steps every
receive on the queue is a worker pass of the run. -/
def ProcessorStep.atomic : ProcessorStep → Bool
  | .submit _ during => during.isEmpty
  | _ => true

/-- The events of one step. A worker pass on an empty queue takes no task (on a closed
queue it runs on the zero `Task`, which nobody submitted). -/
def TaskProcessor.stepEvents (tp : TaskProcessor) : ProcessorStep → List QueueEvent
  | .submit task during =>
      match tp.SubmitTask task during with
      | .returned none _ => [.accepted task]
      | _ => []
  | .workerPass inp =>
      match tp.taskQueue.buf, (tp.workerPass inp).2 with
      | _ :: _, .processed task result delivered => [.taken task result delivered]
      | _, _ => []
  | .stop => []

/-- The events of a run, first to last. -/
def TaskProcessor.log (tp : TaskProcessor) : List ProcessorStep → List QueueEvent
  | [] => []
  | st :: rest => tp.stepEvents st ++ (tp.step st).log rest

/-- The tasks that `SubmitTask` accepted, in order. -/
def acceptedTasks : List QueueEvent → List Task
  | [] => []
  | .accepted t :: rest => t :: acceptedTasks rest
  | .taken _ _ _ :: rest => acceptedTasks rest

/-- The tasks that worker passes took and ran `processTask` on, in order. -/
def takenTasks : List QueueEvent → List Task
  | [] => []
  | .accepted _ :: rest => takenTasks rest
  | .taken t _ _ :: rest => t :: takenTasks rest

/-- The tasks whose result was sent on the reply channel, in order. -/
def deliveredTasks : List QueueEvent → List Task
  | [] => []
  | .accepted _ :: rest => deliveredTasks rest
  | .taken t _ d :: rest => if d then t :: deliveredTasks rest else deliveredTasks rest

/-! ## The handler of `/api/cached-data` -/

/-- What one `handleCachedData` call meets: the clock readings at entry and at the deferred
`time.Since`, the `key` query parameter (`""` when it is missing), the reading of
`time.Now()` inside `cache.Get`, the two readings of `time.Now().Unix()` that make the
value, and the reading of `time.Now()` inside `cache.Set`. -/
structure CachedDataInput where
  start : Time
  finish : Time
  key : String
  getNow : Time
  dataUnix : Int
  stampUnix : Int
  setNow : Time

/-- What `handleCachedData` writes as the body. -/
inductive CachedDataBody where
  | text (msg : String)
  | json (key : String) (value : Option Obj) (cached : Bool)

/-- How `handleCachedData` leaves: a status code, the `X-Cache` header if set, and the
body; or a panic. -/
inductive CachedDataExit where
  | response (status : Nat) (xCache : Option String) (body : CachedDataBody)
  | panic (msg : String)

/-- The value that `handleCachedData` computes on a miss. -/
def computedValue (dataUnix stampUnix : Int) : Obj :=
  [("data", .str ("computed_value_" ++ toString dataUnix)), ("timestamp", .int stampUnix)]

/-- The body of `Server.handleCachedData` after the two `defer` statements; the
`time.Sleep` on a miss changes no state and is left out. -/
def Server.cachedDataBody (s : Server) (inp : CachedDataInput) : Server × CachedDataExit :=
  if inp.key = "" then
    (s, .response 400 none (.text "Missing key parameter"))
  else
    match s.cache.Get inp.getNow inp.key with
    | (value, true) => (s, .response 200 (some "HIT") (.json inp.key value true))
    | (_, false) =>
        let value := computedValue inp.dataUnix inp.stampUnix
        ({ s with cache := s.cache.Set inp.setNow inp.key value (30 * 1000000000) },
         .response 200 (some "MISS") (.json inp.key (some value) false))

/-- The method `Server.handleCachedData`; `none` is a call that stays blocked in `Acquire`.
The deferred calls run last in, first out: `RecordRequest`, then `Release`. -/
def Server.handleCachedData (s : Server) (inp : CachedDataInput) :
    Option (Server × CachedDataExit) :=
  match s.rateLimiter.Acquire with
  | .blocked => none
  | .panic msg => some (s, .panic msg)
  | .done rl =>
      let (s1, exit) := ({ s with rateLimiter := rl }).cachedDataBody inp
      let s2 := s1.withAnalytics
        (fun a => a.RecordRequest "/api/cached-data" (inp.finish - inp.start))
      match s2.rateLimiter.Release with
      | .blocked => none
      | .panic msg => some (s2, .panic msg)
      | .done rl' => some ({ s2 with rateLimiter := rl' }, exit)

/-! ## `concurrency-interview/worker-queue-impl.go` -/

namespace WorkerQueue

/-- The struct `Job`. -/
structure Job where
  ID : Int
  Payload : String
  Retries : Int
deriving DecidableEq

/-- The struct `JobResult`; a `nil` error is `none`. -/
structure JobResult where
  JobID : Int
  Success : Bool
  Error : Option String
deriving DecidableEq

/-- The function `processJob`, with the value `draw` that `rand.Intn(100)` hands it; the
`time.Sleep` changes no state and is left out. -/
def processJob (job : Job) (draw : Nat) : Option String :=
  if draw < 20 then some ("processing failed for job " ++ toString job.ID) else none

/-- The inner `for` loop of a worker of `startWorkerPool` on one received job. `draws i` is
the value of `rand.Intn(100)` in the call of `processJob` number `i`, `calls` counts the
calls made so far, and the loop returns the results it sent on `results` with the final
count of calls. `fuel` bounds the number of passes; `none` is fuel run out. -/
def retryLoop (maxRetries : Int) (draws : Nat → Nat) : Nat → Job → Nat →
    Option (List JobResult × Nat)
  | 0, _, _ => none
  | fuel + 1, job, calls =>
      match processJob job (draws calls) with
      | none => some ([{ JobID := job.ID, Success := true, Error := none }], calls + 1)
      | some err =>
          let job' : Job := { job with Retries := job.Retries + 1 }
          if job'.Retries > maxRetries then
            some ([{ JobID := job'.ID, Success := false, Error := some err }], calls + 1)
          else
            retryLoop maxRetries draws fuel job' (calls + 1)

end WorkerQueue

/-! ## `concurrency-interview/fanin-fanout.go` -/

namespace FanInFanOut

/-- The struct `ProcessedData`; a `float64` field holds the rational that is its value. -/
structure ProcessedData where
  ID : Int
  OriginalValue : ℚ
  ProcessedValue : ℚ
  ProcessorID : Int

/-- The struct `AggregatedResult`. -/
structure AggregatedResult where
  TotalRecords : Int
  Sum : ℚ
  Average : ℚ

/-- The loop `for data := range input` of `aggregate`, over the items received until the
channel is closed: the running `total` and `sum`, the addition `sum += data.ProcessedValue`
rounded as a `float64` addition is. -/
def aggregateLoop : List ProcessedData → Int × ℚ → Int × ℚ
  | [], acc => acc
  | data :: rest, (total, sum) =>
      aggregateLoop rest (total + 1, round64 (sum + data.ProcessedValue))

/-- The function `aggregate` on the items its input channel delivers before it is closed;
the conversion `float64(total)` and the division are rounded. -/
def aggregate (input : List ProcessedData) : AggregatedResult :=
  let (total, sum) := aggregateLoop input (0, 0)
  let avg : ℚ := if total > 0 then round64 (sum / round64 (total : ℚ)) else 0
  { TotalRecords := total, Sum := sum, Average := avg }

/-- The values `ProcessedValue` of the items, in the order of arrival. -/
def values (input : List ProcessedData) : List ℚ := input.map (fun d => d.ProcessedValue)

/-- The sum of the sizes `|v|` of a list of values. -/
def absSum : List ℚ → ℚ
  | [] => 0
  | v :: rest => |v| + absSum rest

end FanInFanOut

/-! ## `parsing/generator-semistructured.go` -/

namespace LogGenerator

/-- The variable `services`. -/
def services : List String :=
  ["auth-service", "api-gateway", "database-service", "cache-service", "payment-service",
   "notification-service", "user-service", "order-service"]

/-- The variable `messages`; a level that is not a key reads as the `nil` slice. -/
def messages (level : String) : List String :=
  if level = "ERROR" then
    ["Connection timeout", "Query failed", "Authentication failed", "Connection lost",
     "Token expired", "Timeout", "Database unreachable", "Memory allocation failed",
     "Request rejected", "Service unavailable"]
  else if level = "WARN" then
    ["Slow response", "High memory usage", "Retry attempt", "Deprecated API used",
     "Rate limit approaching", "Cache miss", "Queue filling up"]
  else if level = "INFO" then
    ["Request processed", "User logged in", "Cache updated", "Configuration loaded",
     "Health check passed", "Job completed", "Connection established"]
  else if level = "DEBUG" then
    ["Entering function", "Variable value", "Step completed", "Query executed"]
  else []

/-- The variable `levelWeights`, as its entries. -/
def levelWeights : List (String × Nat) :=
  [("INFO", 60), ("DEBUG", 25), ("WARN", 10), ("ERROR", 5)]

/-- The second loop of `getWeightedLevel` over the entries in the order the map iteration
yields them, with the value `r` of `rand.Intn(totalWeight)` and the running `cumulative`. -/
def weightedLevelLoop (r : Nat) : List (String × Nat) → Nat → String
  | [], _ => "INFO"
  | (level, weight) :: rest, cumulative =>
      if r < cumulative + weight then level else weightedLevelLoop r rest (cumulative + weight)

/-- The function `getWeightedLevel`; `order` is the order in which the iteration over
`levelWeights` yields its entries and `draw` the random source, `rand.Intn(totalWeight)`
being `draw % totalWeight`. -/
def getWeightedLevel (order : List (String × Nat)) (draw : Nat) : String :=
  let totalWeight := (order.map Prod.snd).sum
  weightedLevelLoop (draw % totalWeight) order 0

/-- What the random source and the map iteration hand to one pass of the loop of
`GenerateLogFile`. -/
structure LineDraw where
  increment : Nat
  levelOrder : List (String × Nat)
  level : Nat
  service : Nat
  message : Nat

/-- How `GenerateLogFile` ends, with the lines written to the file: it returns `nil`, or a
run-time panic unwinds it (the deferred `Flush` and `Close` still run). -/
inductive Outcome where
  | returned (lines : List String)
  | panic (msg : String) (lines : List String)
deriving DecidableEq

/-- The log line of one pass: `fmt.Sprintf("%s %s %s %s\n", timestamp, level, service,
message)`. -/
def logLine (timestamp : String) (d : LineDraw) : String :=
  let level := getWeightedLevel d.levelOrder d.level
  let service := services.getD (d.service % services.length) ""
  let messageList := messages level
  let message := messageList.getD (d.message % messageList.length) ""
  timestamp ++ " " ++ level ++ " " ++ service ++ " " ++ message ++ "\n"

/-- The `for i := 0; i < numEntries; i++` loop of `GenerateLogFile`, with `remaining`
passes to go. `format` stands for `Time.Format("2006-01-02 15:04:05")` applied to the start
time plus the given number of seconds. The test `i > 0 && i%progressInterval == 0`
evaluates `i % progressInterval` whenever `i > 0`, and that panics when
`progressInterval` is 0; the progress print changes no state. -/
def generateLoop (format : Int → String) (progressInterval : Int) (draws : Nat → LineDraw) :
    Nat → Int → Int → List String → Outcome
  | 0, _, _, lines => .returned lines
  | remaining + 1, i, currentTime, lines =>
      if i > 0 ∧ progressInterval = 0 then
        .panic "runtime error: integer divide by zero" lines
      else
        let d := draws i.toNat
        let increment : Int := ((d.increment % 10 : Nat) : Int) + 1
        let currentTime := currentTime + increment
        generateLoop format progressInterval draws remaining (i + 1) currentTime
          (lines ++ [logLine (format currentTime) d])

/-- The function `GenerateLogFile` on a file that can be created and written. -/
def GenerateLogFile (format : Int → String) (numEntries : Int) (draws : Nat → LineDraw) :
    Outcome :=
  let progressInterval := Int.tdiv numEntries 10
  generateLoop format progressInterval draws numEntries.toNat 0 0 []

end LogGenerator

/-- Whether a step is the `close` of `Stop`. -/
def ProcessorStep.isStop : ProcessorStep → Bool
  | .stop => true
  | _ => false

/-! ## The rate limiter, step by step

`Acquire` and `Release` are two steps each: the channel operation and the
`atomic.AddInt64`. Between the two steps of one call other calls may run. -/

/-- A rate limiter with the calls that are under way: `sent` counts the `Acquire` calls
that have sent on `sem` and not yet added to `activeCount`, `holding` the callers whose
`Acquire` has returned and who have not begun `Release`, and `received` the `Release`
calls that have received from `sem` and not yet subtracted from `activeCount`. -/
structure LimiterSys where
  rl : RateLimiter
  sent : Nat
  holding : Nat
  received : Nat

/-- The system right after `NewRateLimiter(M)`. -/
def LimiterSys.init (M : Nat) : LimiterSys :=
  { rl := NewRateLimiter M, sent := 0, holding := 0, received := 0 }

/-- One step of one call. -/
inductive LimiterEvent where
  | acquireSend
  | acquireAdd
  | releaseRecv
  | releaseAdd
deriving DecidableEq

/-- The system after a step; `none` when the step cannot be taken: the channel operation
blocks, no call is at that point, or (for `releaseRecv`) no caller holds a permit that it
could release. -/
def LimiterSys.step (st : LimiterSys) : LimiterEvent → Option LimiterSys
  | .acquireSend =>
      match st.rl.sem.send () with
      | .done sem => some { st with rl := { st.rl with sem := sem }, sent := st.sent + 1 }
      | _ => none
  | .acquireAdd =>
      if 0 < st.sent then
        some { st with rl := { st.rl with activeCount := st.rl.activeCount + 1 },
                       sent := st.sent - 1, holding := st.holding + 1 }
      else none
  | .releaseRecv =>
      if 0 < st.holding then
        match st.rl.sem.recv with
        | .done (_, sem) =>
            some { st with rl := { st.rl with sem := sem }, holding := st.holding - 1,
                           received := st.received + 1 }
        | _ => none
      else none
  | .releaseAdd =>
      if 0 < st.received then
        some { st with rl := { st.rl with activeCount := st.rl.activeCount - 1 },
                       received := st.received - 1 }
      else none

/-- Run an interleaving of steps, first to last; `none` when one of them cannot be taken
at its turn. -/
def LimiterSys.run (st : LimiterSys) : List LimiterEvent → Option LimiterSys
  | [] => some st
  | ev :: rest => match st.step ev with
    | some st' => st'.run rest
    | none => none

/-- The invariant of the step-by-step system of bound `M`. -/
def LimiterSys.Inv (M : Nat) (st : LimiterSys) : Prop :=
  st.rl.sem.cap = M ∧ st.rl.sem.closed = false ∧
  st.rl.sem.buf.length = st.sent + st.holding ∧ st.rl.sem.buf.length ≤ M ∧
  st.rl.activeCount = (st.holding : Int) + (st.received : Int)

/-- The `Acquire` calls that have returned in an interleaving: their second steps. -/
def LimiterSys.completedAcquires (events : List LimiterEvent) : Nat :=
  events.count .acquireAdd

/-- The `Release` calls that have returned in an interleaving: their second steps. -/
def LimiterSys.completedReleases (events : List LimiterEvent) : Nat :=
  events.count .releaseAdd

/-- The `Release` calls that have begun in an interleaving: their first steps. -/
def LimiterSys.startedReleases (events : List LimiterEvent) : Nat :=
  events.count .releaseRecv

/-! ## `concurrency-interview/notiifcation.go`

The `int` fields of the token bucket take arbitrary values from the caller, so `int` is
the 64-bit integer here: a sum that leaves the range wraps. The `float64` operations of
`Duration.Seconds` and the product `elapsed * float64(r.rate)` are rounded. -/

namespace Notif

/-- The value of a mathematical integer as an `int64` (two's complement wrap). -/
def wrap64 (x : Int) : Int := (x + 2 ^ 63) % 2 ^ 64 - 2 ^ 63

/-- The method `Time.Sub`: the difference, held to the range of `time.Duration`. -/
def sub (t u : Time) : Duration := max (-(2 ^ 63)) (min (2 ^ 63 - 1) (t - u))

/-- The method `Duration.Seconds` of the library:
`float64(d / Second) + float64(d % Second) / 1e9`, with the truncating `/` and `%` of Go
and every `float64` operation rounded. -/
def seconds (d : Duration) : ℚ :=
  let sec : Int := Int.tdiv d 1000000000
  let nsec : Int := Int.tmod d 1000000000
  round64 (round64 (sec : ℚ) + round64 (round64 (nsec : ℚ) / 1000000000))

/-- The conversion `int(x)` of a `float64`: the integer part of `x` when it is an `int`;
otherwise the result is implementation-dependent, and `conv x` stands for it. -/
def toInt (conv : ℚ → Int) (x : ℚ) : Int :=
  let t : Int := if 0 ≤ x then ⌊x⌋ else ⌈x⌉
  if -(2 ^ 63) ≤ t ∧ t < 2 ^ 63 then t else wrap64 (conv x)

/-- The function `min`. -/
def min (a b : Int) : Int := if a < b then a else b

/-- The struct `RateLimiter` (its mutex left out). -/
structure RateLimiter where
  tokens : Int
  max : Int
  rate : Int
  lastTime : Time
deriving DecidableEq

/-- The constructor `NewRateLimiter`, with the reading `now` of `time.Now()`. -/
def NewRateLimiter (max rate : Int) (now : Time) : RateLimiter :=
  { tokens := max, max := max, rate := rate, lastTime := now }

/-- The value `tokensToAdd` that `Allow` computes at clock reading `now`. -/
def RateLimiter.tokensToAdd (r : RateLimiter) (conv : ℚ → Int) (now : Time) : Int :=
  let elapsed := seconds (sub now r.lastTime)
  toInt conv (round64 (elapsed * round64 (r.rate : ℚ)))

/-- The refill step of `Allow`: the first half of its body. -/
def RateLimiter.refill (r : RateLimiter) (conv : ℚ → Int) (now : Time) : RateLimiter :=
  let tokensToAdd := r.tokensToAdd conv now
  if tokensToAdd > 0 then
    { r with tokens := min r.max (wrap64 (r.tokens + tokensToAdd)), lastTime := now }
  else r

/-- The method `RateLimiter.Allow`, with the reading `now` of `time.Now()`. The decrement
runs only on a positive count, so it cannot leave the range. -/
def RateLimiter.Allow (r : RateLimiter) (conv : ℚ → Int) (now : Time) : RateLimiter × Bool :=
  let r1 := r.refill conv now
  if r1.tokens > 0 then ({ r1 with tokens := r1.tokens - 1 }, true) else (r1, false)

/-- A sequence of `Allow` calls at the given clock readings: the limiter after the last
call and the values returned, in order. -/
def RateLimiter.run (r : RateLimiter) (conv : ℚ → Int) : List Time → RateLimiter × List Bool
  | [] => (r, [])
  | now :: rest =>
      let (r1, ok) := r.Allow conv now
      let (r2, oks) := r1.run conv rest
      (r2, ok :: oks)

/-- In every call of the sequence the sum `r.tokens + tokensToAdd` is an `int`: the refill
does not overflow. -/
def RateLimiter.NoOverflow (r : RateLimiter) (conv : ℚ → Int) : List Time → Prop
  | [] => True
  | now :: rest =>
      r.tokens + r.tokensToAdd conv now < 2 ^ 63 ∧ (r.Allow conv now).1.NoOverflow conv rest

/-- The struct `Notification`; `Type_` is its field `Type`. -/
structure Notification where
  ID : String
  Type_ : String
  Message : String
  Attempts : Int
deriving DecidableEq

/-- The delay that the goroutine of `scheduleRetry` computes:
`time.Duration(1<<uint(notif.Attempts)) * time.Second`, in nanoseconds. A shift by 64 or
more gives 0. -/
def backoff (notif : Notification) : Duration :=
  let shift : Nat := (notif.Attempts % 2 ^ 64).toNat
  let factor : Int := if shift < 64 then wrap64 (2 ^ shift) else 0
  wrap64 (factor * 1000000000)

/-- What `process` does with a notification. -/
inductive ProcessOutcome where
  | retry (backoff : Duration)
  | sent
  | dropped
  | panic (msg : String)
deriving DecidableEq

/-- The method `Dispatcher.process`. `allowed` is what `limiter.Allow()` returns for the
limiter of the notification's type, `none` when `d.limiters` has no such key and the call
on the `nil` limiter panics; `failed` is the value of `time.Now().UnixNano()%5 == 0`. A
retry is the call of `scheduleRetry`, given with the delay it waits. -/
def process (notif : Notification) (allowed : Option Bool) (failed : Bool) :
    Notification × ProcessOutcome :=
  match allowed with
  | none => (notif, .panic "invalid memory address or nil pointer dereference")
  | some false => (notif, .retry (backoff notif))
  | some true =>
      let notif1 : Notification := { notif with Attempts := notif.Attempts + 1 }
      if failed then
        if notif1.Attempts < 3 then (notif1, .retry (backoff notif1))
        else (notif1, .dropped)
      else (notif1, .sent)

end Notif

/-- The potential of a token bucket: the tokens it holds (none when the count is negative)
minus the most tokens that its rate, with the rounding of `float64`, can have yielded up
to `lastTime`. `Allow` never raises it, and a call that returns true lowers it by one. -/
def Notif.RateLimiter.potential (r : Notif.RateLimiter) : ℚ :=
  ((Max.max r.tokens 0 : Int) : ℚ)
    - (r.rate : ℚ) * (1 + 1 / 2 ^ 50) * ((r.lastTime : ℚ) / 1000000000)

/-! ## Log parsing (`src/parsing/server-logs-parsing.go`) -/

namespace LogParsing

/-- The struct `LogEntry`. -/
structure LogEntry where
  Timestamp : String
  Level : String
  Application : String
  Message : String
deriving DecidableEq

/-- The text before and the text after the first `sep` in `s`, `none` when `s` holds no
`sep`: the search that `strings.SplitN` makes for each piece. -/
def cut (sep : Char) : List Char → Option (List Char × List Char)
  | [] => none
  | c :: cs =>
      if c = sep then some ([], cs)
      else
        match cut sep cs with
        | none => none
        | some (a, rest) => some (c :: a, rest)

/-- The pieces of `strings.SplitN` over the characters of a string: none for `n = 0`,
otherwise at most `n` pieces, the last one being the remainder left unsplit. -/
def splitChars (sep : Char) : Nat → List Char → List (List Char)
  | 0, _ => []
  | 1, s => [s]
  | n + 2, s =>
      match cut sep s with
      | none => [s]
      | some (a, rest) => a :: splitChars sep (n + 1) rest

/-- The library function `strings.SplitN(s, sep, n)` for a separator of one character and
`n >= 0`, which is how `processLogEntry` calls it. -/
def SplitN (s : String) (sep : Char) (n : Nat) : List String :=
  (splitChars sep n s.data).map String.mk

/-- What a call of `processLogEntry` comes to: the pair `(&entry, nil)`, the pair
`(nil, error)` with the text of the error, or the run-time panic
"index out of range [index] with length length". -/
inductive ParseResult where
  | entry (e : LogEntry)
  | error (msg : String)
  | indexOutOfRange (index length : Nat)
deriving DecidableEq

/-- The index expression `xs[i]` followed by the rest `k` of the function: a run-time
panic when `i` is not below the length of the slice. -/
def idx (xs : List String) (i : Nat) (k : String → ParseResult) : ParseResult :=
  match xs[i]? with
  | some x => k x
  | none => .indexOutOfRange i xs.length

/-- The function `processLogEntry`. -/
def processLogEntry (line : String) : ParseResult :=
  let parts := SplitN line ' ' 4
  if parts.length > 4 then .error "error reading the log line"
  else
    idx parts 0 fun p0 =>
    idx parts 1 fun p1 =>
    let timeStamp := p0 ++ " " ++ p1
    idx parts 2 fun level =>
    idx parts 3 fun p3 =>
    let serviceParts := SplitN p3 ' ' 2
    if serviceParts.length ≠ 2 then .error "error reading the log line"
    else
      idx serviceParts 0 fun application =>
      idx serviceParts 1 fun message =>
      .entry { Timestamp := timeStamp, Level := level, Application := application,
               Message := message }

end LogParsing

/-! ## Theorems: the rounding of `float64` -/

theorem roundEven_le (y : ℚ) : (roundEven y : ℚ) ≤ y + 1 / 2 := by
  have h1 := Int.floor_le y
  have h2 := Int.lt_floor_add_one y
  unfold roundEven
  split_ifs with a b c
  · linarith
  · push_cast; linarith
  · linarith
  · push_cast; linarith

theorem roundEven_ge (y : ℚ) : y - 1 / 2 ≤ (roundEven y : ℚ) := by
  have h1 := Int.floor_le y
  have h2 := Int.lt_floor_add_one y
  unfold roundEven
  split_ifs with a b c
  · linarith
  · push_cast; linarith
  · linarith
  · push_cast; linarith

theorem roundEven_of_near (y : ℚ) (M : Int) (h1 : (M : ℚ) - 1 / 2 < y)
    (h2 : y < (M : ℚ) + 1 / 2) : roundEven y = M := by
  by_cases hM : (M : ℚ) ≤ y
  · have hf : ⌊y⌋ = M := Int.floor_eq_iff.mpr ⟨hM, by linarith⟩
    unfold roundEven
    rw [hf, if_pos (by linarith)]
  · have hf : ⌊y⌋ = M - 1 := Int.floor_eq_iff.mpr ⟨by push_cast; linarith, by push_cast; linarith⟩
    unfold roundEven
    rw [hf, if_neg (by push_cast; linarith), if_pos (by push_cast; linarith)]
    ring

theorem roundEven_intCast (n : Int) : roundEven (n : ℚ) = n :=
  roundEven_of_near _ n (by linarith) (by linarith)

theorem Notif.log_bounds (x : ℚ) (hx : 0 < x) :
    (2 : ℚ) ^ (Int.log 2 x) ≤ x ∧ x < (2 : ℚ) ^ (Int.log 2 x + 1) := by
  have h1 := Int.zpow_log_le_self (b := 2) (by norm_num) hx
  have h2 := Int.lt_zpow_succ_log_self (b := 2) (by norm_num) x
  exact ⟨by exact_mod_cast h1, by exact_mod_cast h2⟩

theorem Notif.log_eq (x : ℚ) (e : Int) (h1 : (2 : ℚ) ^ e ≤ x) (h2 : x < (2 : ℚ) ^ (e + 1)) :
    Int.log 2 x = e := by
  have hx : 0 < x := lt_of_lt_of_le (by positivity) h1
  have a : e ≤ Int.log 2 x :=
    (Int.zpow_le_iff_le_log (b := 2) (by norm_num) hx).mp (by exact_mod_cast h1)
  have b : Int.log 2 x < e + 1 :=
    (Int.lt_zpow_iff_log_lt (b := 2) (by norm_num) hx).mp (by exact_mod_cast h2)
  omega

theorem round64_nonneg (x : ℚ) (hx : 0 ≤ x) : 0 ≤ round64 x := by
  unfold round64
  split_ifs with h0
  · exact le_refl _
  · have hpos : 0 < x := lt_of_le_of_ne hx (Ne.symm h0)
    rw [abs_of_pos hpos]
    obtain ⟨l1, _⟩ := Notif.log_bounds x hpos
    have hs : (0 : ℚ) < 2 ^ (Int.log 2 x - 52) := by positivity
    have hy : (2 : ℚ) ^ (52 : Int) ≤ x / 2 ^ (Int.log 2 x - 52) := by
      rw [le_div_iff₀ hs, ← zpow_add₀ (by norm_num : (2 : ℚ) ≠ 0)]
      simpa using l1
    have hr := roundEven_ge (x / 2 ^ (Int.log 2 x - 52))
    have h52 : (1 : ℚ) ≤ 2 ^ (52 : Int) := by norm_num
    exact mul_nonneg (by linarith) (le_of_lt hs)

theorem round64_le (x : ℚ) (hx : 0 ≤ x) :
    round64 x ≤ x * (1 + 1 / 2 ^ 53) := by
  unfold round64
  split_ifs with h0
  · rw [h0]; norm_num
  · have hpos : 0 < x := lt_of_le_of_ne hx (Ne.symm h0)
    rw [abs_of_pos hpos]
    obtain ⟨l1, _⟩ := Notif.log_bounds x hpos
    have hs : (0 : ℚ) < 2 ^ (Int.log 2 x - 52) := by positivity
    have hr := roundEven_le (x / 2 ^ (Int.log 2 x - 52))
    have h1 : (roundEven (x / 2 ^ (Int.log 2 x - 52)) : ℚ) * 2 ^ (Int.log 2 x - 52)
        ≤ (x / 2 ^ (Int.log 2 x - 52) + 1 / 2) * 2 ^ (Int.log 2 x - 52) :=
      mul_le_mul_of_nonneg_right hr (le_of_lt hs)
    have h2 : (x / 2 ^ (Int.log 2 x - 52) + 1 / 2) * 2 ^ (Int.log 2 x - 52)
        = x + 2 ^ (Int.log 2 x) / 2 ^ 53 := by
      have e : (2 : ℚ) ^ (Int.log 2 x - 52) = 2 ^ (Int.log 2 x) / 2 ^ 52 := by
        rw [zpow_sub₀ (by norm_num : (2 : ℚ) ≠ 0)]; norm_num
      rw [e]
      have hp : (0 : ℚ) < 2 ^ (Int.log 2 x) := by positivity
      field_simp
      ring
    have h3 : (2 : ℚ) ^ (Int.log 2 x) / 2 ^ 53 ≤ x / 2 ^ 53 :=
      div_le_div_of_nonneg_right l1 (by positivity)
    calc _ ≤ _ := h1
      _ = x + 2 ^ (Int.log 2 x) / 2 ^ 53 := h2
      _ ≤ x + x / 2 ^ 53 := by linarith
      _ = x * (1 + 1 / 2 ^ 53) := by ring

theorem round64_of_near (x : ℚ) (e M : Int) (h1 : (2 : ℚ) ^ e ≤ x)
    (h2 : x < (2 : ℚ) ^ (e + 1)) (h3 : (M : ℚ) - 1 / 2 < x / 2 ^ (e - 52))
    (h4 : x / 2 ^ (e - 52) < (M : ℚ) + 1 / 2) :
    round64 x = (M : ℚ) * 2 ^ (e - 52) := by
  have hx : 0 < x := lt_of_lt_of_le (by positivity) h1
  unfold round64
  rw [if_neg (ne_of_gt hx), abs_of_pos hx, Notif.log_eq x e h1 h2,
    roundEven_of_near _ M h3 h4]

theorem round64_zero : round64 0 = 0 := by
  simp [round64]

/-- A value with at most 53 significant bits is a `float64`. -/
theorem round64_exact (x : ℚ) (e M : Int) (h1 : (2 : ℚ) ^ e ≤ x)
    (h2 : x < (2 : ℚ) ^ (e + 1)) (h : x = (M : ℚ) * 2 ^ (e - 52)) :
    round64 x = x := by
  have hs : (0 : ℚ) < 2 ^ (e - 52) := by positivity
  have hy : x / 2 ^ (e - 52) = (M : ℚ) := by
    rw [h]; field_simp
  rw [round64_of_near x e M h1 h2 (by rw [hy]; linarith) (by rw [hy]; linarith)]
  exact h.symm

/-- Evaluation of `round64` at a given positive value, from its exponent `e` and its
significand `M`. -/
theorem round64_eval (x v : ℚ) (e M : Int) (h1 : (2 : ℚ) ^ e ≤ x)
    (h2 : x < (2 : ℚ) ^ (e + 1)) (h3 : (M : ℚ) - 1 / 2 < x / 2 ^ (e - 52))
    (h4 : x / 2 ^ (e - 52) < (M : ℚ) + 1 / 2) (hv : (M : ℚ) * 2 ^ (e - 52) = v) :
    round64 x = v := by
  rw [round64_of_near x e M h1 h2 h3 h4, hv]

theorem Notif.seconds_zero : Notif.seconds 0 = 0 := by
  have t1 : Int.tdiv 0 1000000000 = 0 := by decide
  have t2 : Int.tmod 0 1000000000 = 0 := by decide
  unfold Notif.seconds
  dsimp only
  rw [t1, t2, Int.cast_zero, round64_zero, zero_div, round64_zero, add_zero,
    round64_zero]

/-- The seconds of a non-negative duration: not negative, and above the exact quotient by
at most three roundings. -/
theorem Notif.seconds_bounds (d : Duration) (hd : 0 ≤ d) :
    0 ≤ Notif.seconds d ∧
    Notif.seconds d ≤ ((d : ℚ) / 1000000000) * (1 + 1 / 2 ^ 53) ^ 3 := by
  have e1 : Int.tdiv d 1000000000 = d / 1000000000 := Int.tdiv_eq_ediv hd (by norm_num)
  have e2 : Int.tmod d 1000000000 = d % 1000000000 := Int.tmod_eq_emod hd (by norm_num)
  have hsec : (0 : Int) ≤ d / 1000000000 := Int.ediv_nonneg hd (by norm_num)
  have hnsec : (0 : Int) ≤ d % 1000000000 := Int.emod_nonneg d (by norm_num)
  have hsplit : (d : ℚ) = 1000000000 * ((d / 1000000000 : Int) : ℚ)
      + ((d % 1000000000 : Int) : ℚ) := by
    have := Int.ediv_add_emod d 1000000000
    exact_mod_cast this.symm
  have hsq : (0 : ℚ) ≤ ((d / 1000000000 : Int) : ℚ) := by exact_mod_cast hsec
  have hnq : (0 : ℚ) ≤ ((d % 1000000000 : Int) : ℚ) := by exact_mod_cast hnsec
  have hc : (1 : ℚ) ≤ 1 + 1 / 2 ^ 53 := by norm_num
  have hc0 : (0 : ℚ) ≤ 1 + 1 / 2 ^ 53 := by norm_num
  have hA0 := round64_nonneg _ hsq
  have hA := round64_le _ hsq
  have hN0 := round64_nonneg _ hnq
  have hN := round64_le _ hnq
  have hq0 : (0 : ℚ) ≤ round64 ((d % 1000000000 : Int) : ℚ) / 1000000000 :=
    div_nonneg hN0 (by norm_num)
  have hB0 := round64_nonneg _ hq0
  have hB := round64_le _ hq0
  have hS := round64_le _ (add_nonneg hA0 hB0)
  have hS0 := round64_nonneg _ (add_nonneg hA0 hB0)
  unfold Notif.seconds
  dsimp only
  rw [e1, e2]
  refine ⟨hS0, le_trans hS ?_⟩
  have hA2 : round64 ((d / 1000000000 : Int) : ℚ)
      ≤ ((d / 1000000000 : Int) : ℚ) * (1 + 1 / 2 ^ 53) ^ 2 := by
    refine le_trans hA ?_
    have : ((d / 1000000000 : Int) : ℚ) * (1 + 1 / 2 ^ 53) ^ 2
        = ((d / 1000000000 : Int) : ℚ) * (1 + 1 / 2 ^ 53) * (1 + 1 / 2 ^ 53) := by ring
    rw [this]
    exact le_mul_of_one_le_right (mul_nonneg hsq hc0) hc
  have hB2 : round64 (round64 ((d % 1000000000 : Int) : ℚ) / 1000000000)
      ≤ (((d % 1000000000 : Int) : ℚ) / 1000000000) * (1 + 1 / 2 ^ 53) ^ 2 := by
    refine le_trans hB ?_
    have h1 : round64 ((d % 1000000000 : Int) : ℚ) / 1000000000
        ≤ ((d % 1000000000 : Int) : ℚ) * (1 + 1 / 2 ^ 53) / 1000000000 :=
      div_le_div_of_nonneg_right hN (by norm_num)
    have h2 := mul_le_mul_of_nonneg_right h1 hc0
    refine le_trans h2 (le_of_eq ?_)
    ring
  have hsum : round64 ((d / 1000000000 : Int) : ℚ)
        + round64 (round64 ((d % 1000000000 : Int) : ℚ) / 1000000000)
      ≤ ((d : ℚ) / 1000000000) * (1 + 1 / 2 ^ 53) ^ 2 := by
    rw [hsplit]
    have : (1000000000 * ((d / 1000000000 : Int) : ℚ) + ((d % 1000000000 : Int) : ℚ))
          / 1000000000 * (1 + 1 / 2 ^ 53) ^ 2
        = ((d / 1000000000 : Int) : ℚ) * (1 + 1 / 2 ^ 53) ^ 2
          + (((d % 1000000000 : Int) : ℚ) / 1000000000) * (1 + 1 / 2 ^ 53) ^ 2 := by ring
    rw [this]
    exact add_le_add hA2 hB2
  have h3 := mul_le_mul_of_nonneg_right hsum hc0
  refine le_trans h3 (le_of_eq ?_)
  ring

/-- The rounding moves a value by at most the fraction `2^-53` of its size. -/
theorem round64_abs_sub_le (x : ℚ) : |round64 x - x| ≤ |x| / 2 ^ 53 := by
  by_cases h0 : x = 0
  · rw [h0, round64_zero]; simp
  · have hpos : 0 < |x| := abs_pos.mpr h0
    obtain ⟨l1, _⟩ := Notif.log_bounds |x| hpos
    have hs : (0 : ℚ) < 2 ^ (Int.log 2 |x| - 52) := by positivity
    have hle := roundEven_le (x / 2 ^ (Int.log 2 |x| - 52))
    have hge := roundEven_ge (x / 2 ^ (Int.log 2 |x| - 52))
    have e : (2 : ℚ) ^ (Int.log 2 |x| - 52) = 2 ^ (Int.log 2 |x|) / 2 ^ 52 := by
      rw [zpow_sub₀ (by norm_num : (2 : ℚ) ≠ 0)]; norm_num
    have hr : round64 x = (roundEven (x / 2 ^ (Int.log 2 |x| - 52)) : ℚ)
        * 2 ^ (Int.log 2 |x| - 52) := by
      unfold round64
      rw [if_neg h0]
    have hd : round64 x - x
        = ((roundEven (x / 2 ^ (Int.log 2 |x| - 52)) : ℚ) - x / 2 ^ (Int.log 2 |x| - 52))
          * 2 ^ (Int.log 2 |x| - 52) := by
      rw [hr, sub_mul, div_mul_cancel₀ x (ne_of_gt hs)]
    rw [hd, abs_mul, abs_of_pos hs]
    have habs : |(roundEven (x / 2 ^ (Int.log 2 |x| - 52)) : ℚ)
        - x / 2 ^ (Int.log 2 |x| - 52)| ≤ 1 / 2 := by
      rw [abs_le]; constructor <;> linarith
    have h1 := mul_le_mul_of_nonneg_right habs (le_of_lt hs)
    refine le_trans h1 ?_
    rw [e]
    have hp : (0 : ℚ) < 2 ^ (Int.log 2 |x|) := by positivity
    have : 1 / 2 * ((2 : ℚ) ^ (Int.log 2 |x|) / 2 ^ 52) = 2 ^ (Int.log 2 |x|) / 2 ^ 53 := by
      ring
    rw [this]
    exact div_le_div_of_nonneg_right l1 (by positivity)

/-- The size of a rounded value. -/
theorem round64_abs_le (x : ℚ) : |round64 x| ≤ |x| * (1 + 1 / 2 ^ 53) := by
  have h := round64_abs_sub_le x
  have h2 : |round64 x| ≤ |round64 x - x| + |x| := by
    have := abs_add (round64 x - x) x
    simpa using this
  have : |x| * (1 + 1 / 2 ^ 53) = |x| / 2 ^ 53 + |x| := by ring
  linarith

/-- The arithmetic behind the running average: `P`, `Q`, `S`, `R` are the rounded product,
duration, sum and quotient, `c` is the rounded count `K` and `c1` the rounded `c - 1`. -/
theorem newAvg_arith (a m K c c1 P Q S R : ℚ) (hK : 1 ≤ K) (hc : |c - K| ≤ K / 2 ^ 53)
    (hc1 : |c1 - (K - 1)| ≤ 5 * (K - 1) / 2 ^ 53)
    (hP : |P - a * c1| ≤ |a * c1| / 2 ^ 53) (hQ : |Q - m| ≤ |m| / 2 ^ 53)
    (hS : |S - (P + Q)| ≤ |P + Q| / 2 ^ 53) (hR : |R - S / c| ≤ |S / c| / 2 ^ 53) :
    |K * R - (a * (K - 1) + m)| ≤ (|a| * (K - 1) + |m|) / 2 ^ 48 := by
  have hK1 : 0 ≤ K - 1 := by linarith
  have hKpos : (0 : ℚ) < K := by linarith
  have ha0 : 0 ≤ |a| := abs_nonneg a
  have hm0 : 0 ≤ |m| := abs_nonneg m
  have hAt0 : 0 ≤ |a| * (K - 1) := mul_nonneg ha0 hK1
  have hW : 0 ≤ |a| * (K - 1) + |m| := by linarith
  have hcK := abs_le.mp hc
  have hsmall : K / 2 ^ 53 ≤ K / 2 :=
    div_le_div_of_nonneg_left (by linarith) (by norm_num) (by norm_num)
  have hcpos : 0 < c := by linarith [hcK.1]
  have hK2c : K ≤ 2 * c := by linarith [hcK.1]
  have hc1abs : |c1| ≤ 2 * (K - 1) := by
    have h1 := abs_sub_abs_le_abs_sub c1 (K - 1)
    rw [abs_of_nonneg hK1] at h1
    have : 5 * (K - 1) / 2 ^ 53 ≤ K - 1 := by
      rw [div_le_iff₀ (by norm_num)]
      linarith
    linarith
  have hac1 : |a * c1| ≤ 2 * (|a| * (K - 1)) := by
    rw [abs_mul]
    calc |a| * |c1| ≤ |a| * (2 * (K - 1)) := mul_le_mul_of_nonneg_left hc1abs ha0
      _ = 2 * (|a| * (K - 1)) := by ring
  have hp1 : |P - a * c1| ≤ 2 * (|a| * (K - 1)) / 2 ^ 53 :=
    le_trans hP (div_le_div_of_nonneg_right hac1 (by norm_num))
  have hp2 : |a * c1 - a * (K - 1)| ≤ 5 * (|a| * (K - 1)) / 2 ^ 53 := by
    have : a * c1 - a * (K - 1) = a * (c1 - (K - 1)) := by ring
    rw [this, abs_mul]
    calc |a| * |c1 - (K - 1)| ≤ |a| * (5 * (K - 1) / 2 ^ 53) :=
          mul_le_mul_of_nonneg_left hc1 ha0
      _ = 5 * (|a| * (K - 1)) / 2 ^ 53 := by ring
  have hp : |P - a * (K - 1)| ≤ 7 * (|a| * (K - 1)) / 2 ^ 53 := by
    have : P - a * (K - 1) = (P - a * c1) + (a * c1 - a * (K - 1)) := by ring
    rw [this]
    refine le_trans (abs_add _ _) ?_
    have : 7 * (|a| * (K - 1)) / 2 ^ 53
        = 2 * (|a| * (K - 1)) / 2 ^ 53 + 5 * (|a| * (K - 1)) / 2 ^ 53 := by ring
    rw [this]
    exact add_le_add hp1 hp2
  have hpabs : |P| ≤ 2 * (|a| * (K - 1)) := by
    have h1 := abs_sub_abs_le_abs_sub P (a * (K - 1))
    rw [abs_mul, abs_of_nonneg hK1] at h1
    have : 7 * (|a| * (K - 1)) / 2 ^ 53 ≤ |a| * (K - 1) := by
      rw [div_le_iff₀ (by norm_num)]
      linarith
    linarith
  have hqabs : |Q| ≤ 2 * |m| := by
    have h1 := abs_sub_abs_le_abs_sub Q m
    have : |m| / 2 ^ 53 ≤ |m| := by
      rw [div_le_iff₀ (by norm_num)]
      linarith
    linarith
  have hpq : |P + Q| ≤ 2 * (|a| * (K - 1) + |m|) := by
    refine le_trans (abs_add _ _) ?_
    linarith
  have hs : |S - (P + Q)| ≤ 2 * (|a| * (K - 1) + |m|) / 2 ^ 53 :=
    le_trans hS (div_le_div_of_nonneg_right hpq (by norm_num))
  have hsabs : |S| ≤ 3 * (|a| * (K - 1) + |m|) := by
    have h1 := abs_sub_abs_le_abs_sub S (P + Q)
    have : 2 * (|a| * (K - 1) + |m|) / 2 ^ 53 ≤ |a| * (K - 1) + |m| := by
      rw [div_le_iff₀ (by norm_num)]
      linarith
    linarith
  have hsc : |S| / c ≤ 6 * (|a| * (K - 1) + |m|) / K := by
    rw [div_le_iff₀ hcpos]
    refine le_trans hsabs ?_
    have e : 6 * (|a| * (K - 1) + |m|) / K * c = 6 * (|a| * (K - 1) + |m|) * c / K := by ring
    rw [e, le_div_iff₀ hKpos]
    have h3 := mul_le_mul_of_nonneg_left hK2c
      (by linarith : 0 ≤ 3 * (|a| * (K - 1) + |m|))
    linarith
  have hr : |K * (R - S / c)| ≤ 6 * (|a| * (K - 1) + |m|) / 2 ^ 53 := by
    rw [abs_mul, abs_of_pos hKpos]
    have h1 := hR
    rw [abs_div, abs_of_pos hcpos] at h1
    have h2 : |R - S / c| ≤ 6 * (|a| * (K - 1) + |m|) / K / 2 ^ 53 :=
      le_trans h1 (div_le_div_of_nonneg_right hsc (by norm_num))
    have h3 := mul_le_mul_of_nonneg_left h2 (le_of_lt hKpos)
    refine le_trans h3 (le_of_eq ?_)
    field_simp
    ring
  have hk : |K * (S / c) - S| ≤ 6 * (|a| * (K - 1) + |m|) / 2 ^ 53 := by
    have : K * (S / c) - S = (S / c) * (K - c) := by
      field_simp
      ring
    rw [this, abs_mul, abs_div, abs_of_pos hcpos]
    have hKc : |K - c| ≤ K / 2 ^ 53 := by rw [abs_sub_comm]; exact hc
    have h1 : |S| / c * |K - c| ≤ 6 * (|a| * (K - 1) + |m|) / K * (K / 2 ^ 53) :=
      mul_le_mul hsc hKc (abs_nonneg _) (div_nonneg (by linarith) (by linarith))
    refine le_trans h1 (le_of_eq ?_)
    field_simp
  have hsplit : K * R - (a * (K - 1) + m)
      = K * (R - S / c) + (K * (S / c) - S) + (S - (P + Q)) + (P - a * (K - 1)) + (Q - m) := by
    ring
  rw [hsplit]
  have t1 := abs_add (K * (R - S / c) + (K * (S / c) - S) + (S - (P + Q)) + (P - a * (K - 1)))
    (Q - m)
  have t2 := abs_add (K * (R - S / c) + (K * (S / c) - S) + (S - (P + Q))) (P - a * (K - 1))
  have t3 := abs_add (K * (R - S / c) + (K * (S / c) - S)) (S - (P + Q))
  have t4 := abs_add (K * (R - S / c)) (K * (S / c) - S)
  have e1 : 6 * (|a| * (K - 1) + |m|) / 2 ^ 53 = (6 / 2 ^ 53) * (|a| * (K - 1) + |m|) := by ring
  have e2 : 2 * (|a| * (K - 1) + |m|) / 2 ^ 53 = (2 / 2 ^ 53) * (|a| * (K - 1) + |m|) := by ring
  have e3 : 7 * (|a| * (K - 1)) / 2 ^ 53 = (7 / 2 ^ 53) * (|a| * (K - 1)) := by ring
  have e4 : |m| / 2 ^ 53 = (1 / 2 ^ 53) * |m| := by ring
  have e5 : (|a| * (K - 1) + |m|) / 2 ^ 48 = (1 / 2 ^ 48) * (|a| * (K - 1) + |m|) := by ring
  rw [e1] at hr hk
  rw [e2] at hs
  rw [e3] at hp
  rw [e4] at hQ
  rw [e5]
  have hX := hAt0
  generalize |a| * (K - 1) = X at *
  generalize |m| = Y at *
  norm_num at hr hk hs hp hQ ⊢
  linarith

/-! ## Theorems: Analytics -/

/-- The method `Duration.Milliseconds` gives the whole milliseconds of a duration, the
fraction of a millisecond cut off toward zero. -/
theorem Duration.Milliseconds_whole (d : Int) :
    (0 ≤ d → 1000000 * Duration.Milliseconds d ≤ d ∧
      d < 1000000 * (Duration.Milliseconds d + 1)) ∧
    (d ≤ 0 → d ≤ 1000000 * Duration.Milliseconds d ∧
      1000000 * (Duration.Milliseconds d - 1) < d) := by
  have nn : ∀ x : Int, 0 ≤ x →
      1000000 * Int.tdiv x 1000000 ≤ x ∧ x < 1000000 * (Int.tdiv x 1000000 + 1) := by
    intro x hx
    have h1 := Int.tdiv_add_tmod x 1000000
    have h2 := Int.tmod_nonneg (a := x) 1000000 hx
    have h3 := Int.tmod_lt_of_pos x (by norm_num : (0 : Int) < 1000000)
    constructor <;> omega
  unfold Duration.Milliseconds
  constructor
  · intro h
    exact nn d h
  · intro h
    have h1 := nn (-d) (by omega)
    rw [Int.neg_tdiv] at h1
    constructor <;> omega

theorem round64_one : round64 1 = 1 :=
  round64_eval _ _ 0 4503599627370496 (by norm_num) (by norm_num) (by norm_num)
    (by norm_num) (by norm_num)

/-- From a bound on `n * x - y` to a bound on `x - y / n`. -/
theorem abs_sub_div_le (x y E n : ℚ) (hn : 0 < n) (h : |n * x - y| ≤ E) :
    |x - y / n| ≤ E / n := by
  have e : x - y / n = (n * x - y) / n := by
    field_simp
    ring
  rw [e, abs_div, abs_of_pos hn]
  exact div_le_div_of_nonneg_right h (le_of_lt hn)

/-- The `float64` of a count `n ≥ 1` and the `float64` of that minus one. -/
theorem newAvg_count_bounds (n : Int) (hn : 1 ≤ n) :
    |round64 (n : ℚ) - (n : ℚ)| ≤ (n : ℚ) / 2 ^ 53 ∧
    |round64 (round64 (n : ℚ) - 1) - ((n : ℚ) - 1)| ≤ 5 * ((n : ℚ) - 1) / 2 ^ 53 := by
  have hK : (1 : ℚ) ≤ (n : ℚ) := by exact_mod_cast hn
  have h1 : |round64 (n : ℚ) - (n : ℚ)| ≤ (n : ℚ) / 2 ^ 53 := by
    have := round64_abs_sub_le (n : ℚ)
    rwa [abs_of_nonneg (by linarith : (0 : ℚ) ≤ (n : ℚ))] at this
  refine ⟨h1, ?_⟩
  rcases eq_or_lt_of_le hn with h | h
  · rw [← h]
    simp only [Int.cast_one, round64_one, sub_self, round64_zero]
    norm_num
  · have hK2 : (2 : ℚ) ≤ (n : ℚ) := by exact_mod_cast h
    have h2 := round64_abs_sub_le (round64 (n : ℚ) - 1)
    have h3 : |round64 (n : ℚ) - 1| ≤ (n : ℚ) / 2 ^ 53 + ((n : ℚ) - 1) := by
      have e : round64 (n : ℚ) - 1 = (round64 (n : ℚ) - (n : ℚ)) + ((n : ℚ) - 1) := by ring
      rw [e]
      refine le_trans (abs_add _ _) ?_
      rw [abs_of_nonneg (by linarith : (0 : ℚ) ≤ (n : ℚ) - 1)]
      linarith
    have h4 : |round64 (round64 (n : ℚ) - 1) - (round64 (n : ℚ) - 1)|
        ≤ ((n : ℚ) / 2 ^ 53 + ((n : ℚ) - 1)) / 2 ^ 53 :=
      le_trans h2 (div_le_div_of_nonneg_right h3 (by norm_num))
    have e : round64 (round64 (n : ℚ) - 1) - ((n : ℚ) - 1)
        = (round64 (round64 (n : ℚ) - 1) - (round64 (n : ℚ) - 1))
          + (round64 (n : ℚ) - (n : ℚ)) := by ring
    rw [e]
    refine le_trans (abs_add _ _) ?_
    have e1 : ((n : ℚ) / 2 ^ 53 + ((n : ℚ) - 1)) / 2 ^ 53
        = (1 / 2 ^ 106) * (n : ℚ) + (1 / 2 ^ 53) * ((n : ℚ) - 1) := by ring
    have e2 : (n : ℚ) / 2 ^ 53 = (1 / 2 ^ 53) * (n : ℚ) := by ring
    have e3 : 5 * ((n : ℚ) - 1) / 2 ^ 53 = (5 / 2 ^ 53) * ((n : ℚ) - 1) := by ring
    rw [e1] at h4
    rw [e2] at h1
    rw [e3]
    norm_num at h1 h4 ⊢
    linarith

/-- The error of one step of the running average: `n` times the stored `newAvg` lies
within the fraction `2^-48` of `|currentAvg| * (n - 1) + |ms|` from
`currentAvg * (n - 1) + ms`. -/
theorem Analytics.newAvg_error (a : ℚ) (n : Int) (hn : 1 ≤ n) (d : Duration) :
    |(n : ℚ) * Analytics.newAvg a n d
        - (a * ((n : ℚ) - 1) + ((Duration.Milliseconds d : Int) : ℚ))|
      ≤ (|a| * ((n : ℚ) - 1) + |((Duration.Milliseconds d : Int) : ℚ)|) / 2 ^ 48 := by
  obtain ⟨hc, hc1⟩ := newAvg_count_bounds n hn
  unfold Analytics.newAvg
  dsimp only
  exact newAvg_arith a _ (n : ℚ) _ _ _ _ _ _ (by exact_mod_cast hn) hc hc1
    (round64_abs_sub_le _) (round64_abs_sub_le _) (round64_abs_sub_le _)
    (round64_abs_sub_le _)

theorem getRequestCount_RecordRequest_same (a : Analytics) (e : String) (d : Duration) :
    (a.RecordRequest e d).getRequestCount e = a.getRequestCount e + 1 := by
  simp [Analytics.RecordRequest, Analytics.getRequestCount, GoMap.set]

theorem getRequestCount_RecordRequest_other (a : Analytics) (e e' : String) (d : Duration)
    (h : e ≠ e') : (a.RecordRequest e' d).getRequestCount e = a.getRequestCount e := by
  simp [Analytics.RecordRequest, Analytics.getRequestCount, GoMap.set, h]

theorem getAvgResponseTime_RecordRequest_same (a : Analytics) (e : String) (d : Duration) :
    (a.RecordRequest e d).getAvgResponseTime e
      = Analytics.newAvg (a.getAvgResponseTime e) (a.getRequestCount e + 1) d := by
  simp [Analytics.RecordRequest, Analytics.getRequestCount, Analytics.getAvgResponseTime,
    GoMap.set]

theorem getAvgResponseTime_RecordRequest_other (a : Analytics) (e e' : String) (d : Duration)
    (h : e ≠ e') : (a.RecordRequest e' d).getAvgResponseTime e = a.getAvgResponseTime e := by
  simp [Analytics.RecordRequest, Analytics.getAvgResponseTime, GoMap.set, h]

theorem getRequestCount_RecordError (a : Analytics) (e k : String) :
    (a.RecordError k).getRequestCount e = a.getRequestCount e := rfl

theorem getAvgResponseTime_RecordError (a : Analytics) (e k : String) :
    (a.RecordError k).getAvgResponseTime e = a.getAvgResponseTime e := rfl

theorem absSum_nonneg (l : List Int) : 0 ≤ absSum l := by
  induction l with
  | nil => exact le_refl _
  | cons x rest ih => simp only [absSum]; have := abs_nonneg x; omega

theorem abs_sum_le_absSum (l : List Int) : |l.sum| ≤ absSum l := by
  induction l with
  | nil => simp [absSum]
  | cons x rest ih =>
    simp only [List.sum_cons, absSum]
    exact le_trans (abs_add _ _) (by omega)

/-- The invariant behind the running average: the stored count is the number of recorded
durations, and the stored average times the count stays near their sum: within the sum of
their sizes times `(1 + 2^-48)^j - 1` after `j` recordings. -/
theorem run_count_and_avg_error (e : String) (calls : List AnalyticsCall) :
    ∀ (a : Analytics) (n : Nat) (S : Int) (A : ℚ) (j : Nat),
      a.getRequestCount e = (n : Int) → |(S : ℚ)| ≤ A →
      |a.getAvgResponseTime e * (n : ℚ) - (S : ℚ)| ≤ A * ((1 + 1 / 2 ^ 48) ^ j - 1) →
      (a.run calls).getRequestCount e = ((n + (recordedMs e calls).length : Nat) : Int) ∧
      |(a.run calls).getAvgResponseTime e * ((n + (recordedMs e calls).length : Nat) : ℚ)
          - ((S + (recordedMs e calls).sum : Int) : ℚ)|
        ≤ (A + ((absSum (recordedMs e calls) : Int) : ℚ))
          * ((1 + 1 / 2 ^ 48) ^ (j + (recordedMs e calls).length) - 1) := by
  induction calls with
  | nil =>
    intro a n S A j hc hS hB
    simpa [Analytics.run, recordedMs, absSum] using And.intro hc hB
  | cons c rest ih =>
    intro a n S A j hc hS hB
    cases c with
    | recordError k =>
      have := ih (a.RecordError k) n S A j (by rw [getRequestCount_RecordError]; exact hc) hS
        (by rw [getAvgResponseTime_RecordError]; exact hB)
      simpa [Analytics.run, Analytics.call, recordedMs] using this
    | recordRequest e' d =>
      by_cases he : e' = e
      · subst he
        have hA0 : 0 ≤ A := le_trans (abs_nonneg _) hS
        have hg1 : (1 : ℚ) ≤ (1 + 1 / 2 ^ 48) ^ j := one_le_pow₀ (by norm_num)
        have hc' : (a.RecordRequest e' d).getRequestCount e' = ((n + 1 : Nat) : Int) := by
          rw [getRequestCount_RecordRequest_same, hc]; push_cast; ring
        have hA' : |((S + Duration.Milliseconds d : Int) : ℚ)|
            ≤ A + |((Duration.Milliseconds d : Int) : ℚ)| := by
          push_cast
          exact le_trans (abs_add _ _) (by linarith)
        have hT : |a.getAvgResponseTime e'| * (n : ℚ) ≤ A * (1 + 1 / 2 ^ 48) ^ j := by
          have h1 : |a.getAvgResponseTime e'| * (n : ℚ)
              = |a.getAvgResponseTime e' * (n : ℚ)| := by
            rw [abs_mul, abs_of_nonneg (by positivity : (0 : ℚ) ≤ (n : ℚ))]
          rw [h1]
          have h2 := abs_sub_abs_le_abs_sub (a.getAvgResponseTime e' * (n : ℚ)) (S : ℚ)
          have : A * (1 + 1 / 2 ^ 48) ^ j = A + A * ((1 + 1 / 2 ^ 48) ^ j - 1) := by ring
          linarith
        have hstep := Analytics.newAvg_error (a.getAvgResponseTime e') ((n : Int) + 1)
          (by omega) d
        have hn1 : ((((n : Int) + 1 : Int) : ℚ)) - 1 = (n : ℚ) := by push_cast; ring
        rw [hn1] at hstep
        have hB' : |(a.RecordRequest e' d).getAvgResponseTime e' * ((n + 1 : Nat) : ℚ)
            - ((S + Duration.Milliseconds d : Int) : ℚ)|
            ≤ (A + |((Duration.Milliseconds d : Int) : ℚ)|)
              * ((1 + 1 / 2 ^ 48) ^ (j + 1) - 1) := by
          rw [getAvgResponseTime_RecordRequest_same, hc]
          have e1 : Analytics.newAvg (a.getAvgResponseTime e') ((n : Int) + 1) d
                * ((n + 1 : Nat) : ℚ) - ((S + Duration.Milliseconds d : Int) : ℚ)
              = ((((n : Int) + 1 : Int) : ℚ)
                  * Analytics.newAvg (a.getAvgResponseTime e') ((n : Int) + 1) d
                  - (a.getAvgResponseTime e' * (n : ℚ)
                      + ((Duration.Milliseconds d : Int) : ℚ)))
                + (a.getAvgResponseTime e' * (n : ℚ) - (S : ℚ)) := by
            push_cast; ring
          rw [e1]
          refine le_trans (abs_add _ _) ?_
          have hm0 : 0 ≤ |((Duration.Milliseconds d : Int) : ℚ)| := abs_nonneg _
          have hgj : (1 + 1 / 2 ^ 48 : ℚ) ^ (j + 1)
              = (1 + 1 / 2 ^ 48) ^ j + (1 / 2 ^ 48) * (1 + 1 / 2 ^ 48) ^ j := by
            rw [pow_succ]; ring
          have hstep2 : (|a.getAvgResponseTime e'| * (n : ℚ)
              + |((Duration.Milliseconds d : Int) : ℚ)|) / 2 ^ 48
              ≤ (A * (1 + 1 / 2 ^ 48) ^ j + |((Duration.Milliseconds d : Int) : ℚ)|) / 2 ^ 48 :=
            div_le_div_of_nonneg_right (by linarith) (by norm_num)
          have hmg : |((Duration.Milliseconds d : Int) : ℚ)| * 1
              ≤ |((Duration.Milliseconds d : Int) : ℚ)| * (1 + 1 / 2 ^ 48) ^ j :=
            mul_le_mul_of_nonneg_left hg1 hm0
          have e2 : (A + |((Duration.Milliseconds d : Int) : ℚ)|)
                * ((1 + 1 / 2 ^ 48) ^ (j + 1) - 1)
              = (A * (1 + 1 / 2 ^ 48) ^ j + |((Duration.Milliseconds d : Int) : ℚ)|) / 2 ^ 48
                + A * ((1 + 1 / 2 ^ 48) ^ j - 1)
                + (|((Duration.Milliseconds d : Int) : ℚ)| * (1 + 1 / 2 ^ 48) ^ j
                    - |((Duration.Milliseconds d : Int) : ℚ)| * 1) * (1 + 1 / 2 ^ 48) := by
            rw [hgj]; ring
          rw [e2]
          have h3 : 0 ≤ (|((Duration.Milliseconds d : Int) : ℚ)| * (1 + 1 / 2 ^ 48) ^ j
              - |((Duration.Milliseconds d : Int) : ℚ)| * 1) * (1 + 1 / 2 ^ 48) :=
            mul_nonneg (by linarith) (by norm_num)
          linarith
        have := ih (a.RecordRequest e' d) (n + 1) (S + Duration.Milliseconds d)
          (A + |((Duration.Milliseconds d : Int) : ℚ)|) (j + 1) hc' hA' hB'
        simp only [Analytics.run, List.foldl_cons, Analytics.call, recordedMs, if_true,
          List.length_cons, List.sum_cons, absSum] at this ⊢
        refine ⟨?_, ?_⟩
        · rw [this.1]; congr 1; omega
        · have h2 := this.2
          have e1 : n + 1 + (recordedMs e' rest).length
              = n + ((recordedMs e' rest).length + 1) := by omega
          have e2 : j + 1 + (recordedMs e' rest).length
              = j + ((recordedMs e' rest).length + 1) := by omega
          have e3 : S + Duration.Milliseconds d + (recordedMs e' rest).sum
              = S + (Duration.Milliseconds d + (recordedMs e' rest).sum) := by ring
          have e4 : A + |((Duration.Milliseconds d : Int) : ℚ)|
                + ((absSum (recordedMs e' rest) : Int) : ℚ)
              = A + ((|Duration.Milliseconds d| + absSum (recordedMs e' rest) : Int) : ℚ) := by
            push_cast; ring
          rw [e1, e2, e3, e4] at h2
          exact h2
      · have hne : e ≠ e' := fun h => he h.symm
        have := ih (a.RecordRequest e' d) n S A j
          (by rw [getRequestCount_RecordRequest_other _ _ _ _ hne]; exact hc) hS
          (by rw [getAvgResponseTime_RecordRequest_other _ _ _ _ hne]; exact hB)
        simpa [Analytics.run, Analytics.call, recordedMs, he] using this

/-- The first recording of a duration of 1 ms stores the average 1. -/
theorem Analytics.newAvg_eval_first : Analytics.newAvg 0 1 1000000 = 1 := by
  have t : Duration.Milliseconds 1000000 = 1 := by decide
  have r1 : round64 ((1 : Int) : ℚ) = 1 := by rw [Int.cast_one]; exact round64_one
  unfold Analytics.newAvg
  dsimp only
  rw [t, r1, sub_self, round64_zero, mul_zero, round64_zero, zero_add, round64_one, div_one,
    round64_one]

/-- A second recording of 1 ms on the average 1 stores 1 again. -/
theorem Analytics.newAvg_eval_second : Analytics.newAvg 1 2 1000000 = 1 := by
  have t : Duration.Milliseconds 1000000 = 1 := by decide
  have r1 : round64 ((1 : Int) : ℚ) = 1 := by rw [Int.cast_one]; exact round64_one
  have r2 : round64 ((2 : Int) : ℚ) = 2 :=
    round64_eval _ _ 1 4503599627370496 (by norm_num) (by norm_num) (by norm_num)
      (by norm_num) (by norm_num)
  have r3 : round64 ((2 : ℚ) - 1) = 1 :=
    round64_eval _ _ 0 4503599627370496 (by norm_num) (by norm_num) (by norm_num)
      (by norm_num) (by norm_num)
  have r4 : round64 ((1 : ℚ) + 1) = 2 :=
    round64_eval _ _ 1 4503599627370496 (by norm_num) (by norm_num) (by norm_num)
      (by norm_num) (by norm_num)
  have r5 : round64 ((2 : ℚ) / 2) = 1 :=
    round64_eval _ _ 0 4503599627370496 (by norm_num) (by norm_num) (by norm_num)
      (by norm_num) (by norm_num)
  unfold Analytics.newAvg
  dsimp only
  rw [t, r1, r2, r3, mul_one, round64_one, r4, r5]

/-- A third recording, of 2 ms, on the average 1 stores the `float64` next to 4/3, which is
1.3333333333333333 and not 4/3. -/
theorem Analytics.newAvg_eval_third :
    Analytics.newAvg 1 3 2000000 = 6004799503160661 / 4503599627370496 := by
  have t : Duration.Milliseconds 2000000 = 2 := by decide
  have r1 : round64 ((3 : Int) : ℚ) = 3 :=
    round64_eval _ _ 1 6755399441055744 (by norm_num) (by norm_num) (by norm_num)
      (by norm_num) (by norm_num)
  have r2 : round64 ((2 : Int) : ℚ) = 2 :=
    round64_eval _ _ 1 4503599627370496 (by norm_num) (by norm_num) (by norm_num)
      (by norm_num) (by norm_num)
  have r3 : round64 ((3 : ℚ) - 1) = 2 :=
    round64_eval _ _ 1 4503599627370496 (by norm_num) (by norm_num) (by norm_num)
      (by norm_num) (by norm_num)
  have r4 : round64 ((1 : ℚ) * 2) = 2 :=
    round64_eval _ _ 1 4503599627370496 (by norm_num) (by norm_num) (by norm_num)
      (by norm_num) (by norm_num)
  have r5 : round64 ((2 : ℚ) + 2) = 4 :=
    round64_eval _ _ 2 4503599627370496 (by norm_num) (by norm_num) (by norm_num)
      (by norm_num) (by norm_num)
  have r6 : round64 ((4 : ℚ) / 3) = 6004799503160661 / 4503599627370496 :=
    round64_eval _ _ 0 6004799503160661 (by norm_num) (by norm_num) (by norm_num)
      (by norm_num) (by norm_num)
  unfold Analytics.newAvg
  dsimp only
  rw [t, r1, r2, r3, r4, r5, r6]

/-- Claim C1, as stated, fails: on a fresh `Analytics`, after the recordings of 1 ms, 1 ms
and 2 ms for one endpoint the stored average is the `float64` 1.3333333333333333, that is
`6004799503160661 / 2^52`, and not the exact mean 4/3. -/
theorem C1_stored_average_is_not_the_exact_mean :
    (NewAnalytics.run [.recordRequest "/api" 1000000, .recordRequest "/api" 1000000,
        .recordRequest "/api" 2000000]).getRequestCount "/api" = 3 ∧
    (NewAnalytics.run [.recordRequest "/api" 1000000, .recordRequest "/api" 1000000,
        .recordRequest "/api" 2000000]).getAvgResponseTime "/api"
      = 6004799503160661 / 4503599627370496 ∧
    (((recordedMs "/api" [.recordRequest "/api" 1000000, .recordRequest "/api" 1000000,
        .recordRequest "/api" 2000000]).sum : Int) : ℚ)
      / ((recordedMs "/api" [.recordRequest "/api" 1000000, .recordRequest "/api" 1000000,
        .recordRequest "/api" 2000000]).length : ℚ) = 4 / 3 ∧
    (NewAnalytics.run [.recordRequest "/api" 1000000, .recordRequest "/api" 1000000,
        .recordRequest "/api" 2000000]).getAvgResponseTime "/api" ≠ 4 / 3 := by
  have hrun : NewAnalytics.run [.recordRequest "/api" 1000000, .recordRequest "/api" 1000000,
      .recordRequest "/api" 2000000]
      = ((NewAnalytics.RecordRequest "/api" 1000000).RecordRequest "/api" 1000000).RecordRequest
          "/api" 2000000 := rfl
  have c1 : (NewAnalytics.RecordRequest "/api" 1000000).getRequestCount "/api" = 1 := by
    rw [getRequestCount_RecordRequest_same]; rfl
  have v1 : (NewAnalytics.RecordRequest "/api" 1000000).getAvgResponseTime "/api" = 1 := by
    rw [getAvgResponseTime_RecordRequest_same]
    exact Analytics.newAvg_eval_first
  have c2 : ((NewAnalytics.RecordRequest "/api" 1000000).RecordRequest "/api"
      1000000).getRequestCount "/api" = 2 := by
    rw [getRequestCount_RecordRequest_same, c1]; rfl
  have v2 : ((NewAnalytics.RecordRequest "/api" 1000000).RecordRequest "/api"
      1000000).getAvgResponseTime "/api" = 1 := by
    rw [getAvgResponseTime_RecordRequest_same, c1, v1]
    exact Analytics.newAvg_eval_second
  have c3 : (((NewAnalytics.RecordRequest "/api" 1000000).RecordRequest "/api"
      1000000).RecordRequest "/api" 2000000).getRequestCount "/api" = 3 := by
    rw [getRequestCount_RecordRequest_same, c2]; rfl
  have v3 : (((NewAnalytics.RecordRequest "/api" 1000000).RecordRequest "/api"
      1000000).RecordRequest "/api" 2000000).getAvgResponseTime "/api"
      = 6004799503160661 / 4503599627370496 := by
    rw [getAvgResponseTime_RecordRequest_same, c2, v2]
    exact Analytics.newAvg_eval_third
  have hms : recordedMs "/api" [.recordRequest "/api" 1000000, .recordRequest "/api" 1000000,
      .recordRequest "/api" 2000000] = [1, 1, 2] := by decide
  rw [hrun, hms]
  refine ⟨c3, v3, by norm_num, ?_⟩
  rw [v3]
  norm_num

/-- Claim C1, amended: on a fresh `Analytics`, after any sequence of `RecordRequest` and
`RecordError` calls in which endpoint `e` is recorded at least once, `requestCount[e]` is
the number `n` of durations recorded for `e`, and `avgResponseTime[e]` is their mean
`(ms(d1) + ... + ms(dn)) / n` within floating-point tolerance: the distance is at most
`(|ms(d1)| + ... + |ms(dn)|) / n * ((1 + 2^-48)^n - 1)`, whatever calls for other endpoints
and error kinds are interleaved. Here `ms(d)` is `d` in whole milliseconds, the fraction
cut off toward zero. -/
theorem C1_running_average_is_mean_within_tolerance (e : String) (calls : List AnalyticsCall)
    (h : recordedMs e calls ≠ []) :
    (NewAnalytics.run calls).getRequestCount e = ((recordedMs e calls).length : Int) ∧
    |(NewAnalytics.run calls).getAvgResponseTime e
        - (((recordedMs e calls).sum : Int) : ℚ) / ((recordedMs e calls).length : ℚ)|
      ≤ ((absSum (recordedMs e calls) : Int) : ℚ) / ((recordedMs e calls).length : ℚ)
        * ((1 + 1 / 2 ^ 48) ^ (recordedMs e calls).length - 1) ∧
    (∀ d : Duration,
      (0 ≤ d → 1000000 * Duration.Milliseconds d ≤ d ∧
        d < 1000000 * (Duration.Milliseconds d + 1)) ∧
      (d ≤ 0 → d ≤ 1000000 * Duration.Milliseconds d ∧
        1000000 * (Duration.Milliseconds d - 1) < d)) := by
  have inv := run_count_and_avg_error e calls NewAnalytics 0 0 0 0 rfl (by simp) (by simp)
  simp only [Nat.zero_add, Int.zero_add, zero_add] at inv
  refine ⟨inv.1, ?_, Duration.Milliseconds_whole⟩
  have hlen : (0 : ℚ) < ((recordedMs e calls).length : ℚ) := by
    have : (recordedMs e calls).length ≠ 0 := by
      intro h0; exact h (List.length_eq_zero.mp h0)
    have : 0 < (recordedMs e calls).length := Nat.pos_of_ne_zero this
    exact_mod_cast this
  have h2 := abs_sub_div_le ((NewAnalytics.run calls).getAvgResponseTime e)
    (((recordedMs e calls).sum : Int) : ℚ)
    (((absSum (recordedMs e calls) : Int) : ℚ)
      * ((1 + 1 / 2 ^ 48) ^ (recordedMs e calls).length - 1))
    ((recordedMs e calls).length : ℚ) hlen (by rw [mul_comm]; exact inv.2)
  refine le_trans h2 (le_of_eq ?_)
  ring

/-- Witness for C1, amended: three interleaved recordings, two for `/a` (3 ms and 4 ms),
one for `/b`, and one error. -/
theorem C1_running_average_is_mean_within_tolerance_witness :
    recordedMs "/a" [.recordRequest "/a" 3000000, .recordError "x",
        .recordRequest "/b" 9000000, .recordRequest "/a" 4999999] ≠ [] ∧
    ((NewAnalytics.run [.recordRequest "/a" 3000000, .recordError "x",
        .recordRequest "/b" 9000000, .recordRequest "/a" 4999999]).getRequestCount "/a"
      = ((recordedMs "/a" [.recordRequest "/a" 3000000, .recordError "x",
        .recordRequest "/b" 9000000, .recordRequest "/a" 4999999]).length : Int) ∧
    |(NewAnalytics.run [.recordRequest "/a" 3000000, .recordError "x",
        .recordRequest "/b" 9000000, .recordRequest "/a" 4999999]).getAvgResponseTime "/a"
        - (((recordedMs "/a" [.recordRequest "/a" 3000000, .recordError "x",
            .recordRequest "/b" 9000000, .recordRequest "/a" 4999999]).sum : Int) : ℚ)
          / ((recordedMs "/a" [.recordRequest "/a" 3000000, .recordError "x",
            .recordRequest "/b" 9000000, .recordRequest "/a" 4999999]).length : ℚ)|
      ≤ ((absSum (recordedMs "/a" [.recordRequest "/a" 3000000, .recordError "x",
            .recordRequest "/b" 9000000, .recordRequest "/a" 4999999]) : Int) : ℚ)
          / ((recordedMs "/a" [.recordRequest "/a" 3000000, .recordError "x",
            .recordRequest "/b" 9000000, .recordRequest "/a" 4999999]).length : ℚ)
        * ((1 + 1 / 2 ^ 48) ^ (recordedMs "/a" [.recordRequest "/a" 3000000, .recordError "x",
            .recordRequest "/b" 9000000, .recordRequest "/a" 4999999]).length - 1)) :=
  ⟨by decide,
    (C1_running_average_is_mean_within_tolerance "/a" _ (by decide)).1,
    (C1_running_average_is_mean_within_tolerance "/a" _ (by decide)).2.1⟩

/-! ## Theorems: Cache -/

theorem Cache.run_cons {V : Type} (c : Cache V) (st : CacheStep V) (rest : List (CacheStep V)) :
    c.run (st :: rest) = (c.step st).run rest := rfl

/-- Steps that do not `Set` key `k` leave its entry as it was or delete it. -/
theorem Cache.run_entry_kept_or_deleted {V : Type} (k : String) (steps : List (CacheStep V)) :
    ∀ c : Cache V, (∀ st ∈ steps, st.setsKey k = false) →
      (c.run steps).entries k = c.entries k ∨ (c.run steps).entries k = none := by
  induction steps with
  | nil => intro c _; exact Or.inl rfl
  | cons st rest ih =>
    intro c hno
    have hrest : ∀ st' ∈ rest, st'.setsKey k = false :=
      fun st' hm => hno st' (List.mem_cons_of_mem _ hm)
    have hst := hno st (List.mem_cons_self _ _)
    rw [Cache.run_cons]
    have hstep : (c.step st).entries k = c.entries k ∨ (c.step st).entries k = none := by
      cases st with
      | set now key value ttl =>
        have hk : ¬ k = key := by
          intro hkk
          simp [CacheStep.setsKey, hkk] at hst
        left
        simp [Cache.step, Cache.Set, GoMap.set, hk]
      | sweep now =>
        simp only [Cache.step, Cache.cleanupExpired]
        cases hck : c.entries k with
        | none => left; rfl
        | some entry =>
          by_cases ha : Time.After now entry.expiresAt = true
          · right; simp [ha]
          · left; simp [ha]
    rcases ih (c.step st) hrest with h | h
    · rcases hstep with h' | h'
      · left; rw [h, h']
      · right; rw [h, h']
    · right; exact h

/-- Steps that do not `Set` key `k` and run no later than `t` keep an entry of `k` that
has not expired at `t`. -/
theorem Cache.run_entry_kept {V : Type} (k : String) (t : Time) (steps : List (CacheStep V)) :
    ∀ (c : Cache V) (entry : CacheEntry V), c.entries k = some entry →
      t ≤ entry.expiresAt →
      (∀ st ∈ steps, st.setsKey k = false ∧ st.time ≤ t) →
      (c.run steps).entries k = some entry := by
  induction steps with
  | nil => intro c entry h _ _; exact h
  | cons st rest ih =>
    intro c entry h ht hall
    have hrest : ∀ st' ∈ rest, st'.setsKey k = false ∧ st'.time ≤ t :=
      fun st' hm => hall st' (List.mem_cons_of_mem _ hm)
    have hst := hall st (List.mem_cons_self _ _)
    rw [Cache.run_cons]
    apply ih (c.step st) entry _ ht hrest
    cases st with
    | set now key value ttl =>
      have hk : ¬ k = key := by
        intro hkk
        simp [CacheStep.setsKey, hkk] at hst
      simpa [Cache.step, Cache.Set, GoMap.set, hk] using h
    | sweep now =>
      have hnow : now ≤ t := hst.2
      have ha : Time.After now entry.expiresAt = false := by
        simp only [Time.After, decide_eq_false_iff_not, not_lt]
        exact le_trans hnow ht
      simp [Cache.step, Cache.cleanupExpired, h, ha]

theorem Cache.Set_entry {V : Type} (c : Cache V) (T0 : Time) (k : String) (v : V)
    (ttl : Duration) :
    (c.Set T0 k v ttl).entries k = some { value := v, expiresAt := T0 + ttl } := by
  simp [Cache.Set, GoMap.set, Time.Add]

/-- C2, as stated, fails at the instant of expiry: an entry set at time 100 with ttl 200 is
still returned by a `Get` at time 300 = 100 + 200, since `Get` tests `now.After(expiresAt)`. -/
theorem C2_get_at_expiry_instant_is_a_hit :
    (100 : Time) + 200 ≤ 300 ∧
    ((NewCache : Cache String).Set 100 "k" "v" 200).Get 300 "k" = (some "v", true) := by
  refine ⟨by decide, ?_⟩
  simp [Cache.Get, Cache.Set_entry, Time.After]

/-- C2, amended: after `Set(k, v, ttl)` at time `T0` and any later steps that do not `Set`
`k` (sweeps and `Set`s of other keys, at any times), `Get(k)` at any time `t` strictly later
than `T0 + ttl` returns `(nil, false)`. -/
theorem C2_get_after_expiry_is_absent {V : Type} (c : Cache V) (T0 t : Time) (k : String)
    (v : V) (ttl : Duration) (steps : List (CacheStep V))
    (hno : ∀ st ∈ steps, st.setsKey k = false) (ht : T0 + ttl < t) :
    ((c.Set T0 k v ttl).run steps).Get t k = (none, false) := by
  rcases Cache.run_entry_kept_or_deleted k steps (c.Set T0 k v ttl) hno with h | h
  · rw [Cache.Set_entry] at h
    simp [Cache.Get, h, Time.After, ht]
  · simp [Cache.Get, h]

/-- C2, amended, for a `Get` one nanosecond after expiry with a sweep in between. -/
theorem C2_get_after_expiry_is_absent_witness :
    (∀ st ∈ [CacheStep.sweep 150, CacheStep.set 160 "j" "w" 5], st.setsKey "k" = false) ∧
    (100 : Time) + 200 < 301 ∧
    (((NewCache : Cache String).Set 100 "k" "v" 200).run
        [CacheStep.sweep 150, CacheStep.set 160 "j" "w" 5]).Get 301 "k" = (none, false) :=
  ⟨by decide, by decide,
    C2_get_after_expiry_is_absent NewCache 100 301 "k" "v" 200 _ (by decide) (by decide)⟩

/-- C3: after `Set(k, v, ttl)` at time `T0`, `Get(k)` at any time `t` with
`T0 ≤ t < T0 + ttl` (so `ttl > 0`) returns `(v, true)`, whatever sweeps and `Set`s of other
keys ran between the `Set` and the `Get`, that is at clock readings up to `t`. -/
theorem C3_get_before_expiry_is_a_hit {V : Type} (c : Cache V) (T0 t : Time) (k : String)
    (v : V) (ttl : Duration) (steps : List (CacheStep V))
    (hsteps : ∀ st ∈ steps, st.setsKey k = false ∧ st.time ≤ t)
    (h0 : T0 ≤ t) (ht : t < T0 + ttl) :
    0 < ttl ∧ ((c.Set T0 k v ttl).run steps).Get t k = (some v, true) := by
  refine ⟨by linarith, ?_⟩
  have h := Cache.run_entry_kept k t steps (c.Set T0 k v ttl) _ (Cache.Set_entry c T0 k v ttl)
    (le_of_lt ht) hsteps
  have hna : ¬ (T0 + ttl < t) := not_lt.mpr (le_of_lt ht)
  simp [Cache.Get, h, Time.After, hna]

/-- C3 for the scenario of the specification: ttl 200 ms, a sweep and a foreign `Set` in
between, and a `Get` one nanosecond before expiry. -/
theorem C3_get_before_expiry_is_a_hit_witness :
    (∀ st ∈ [CacheStep.sweep 150, CacheStep.set 160 "j" "w" 5, CacheStep.sweep 200000099],
        st.setsKey "k" = false ∧ st.time ≤ 200000099) ∧
    (100 : Time) ≤ 200000099 ∧ (200000099 : Time) < 100 + 200000000 ∧
    ((0 : Duration) < 200000000 ∧
      (((NewCache : Cache String).Set 100 "k" "v" 200000000).run
        [CacheStep.sweep 150, CacheStep.set 160 "j" "w" 5, CacheStep.sweep 200000099]).Get
          200000099 "k" = (some "v", true)) :=
  ⟨by decide, by decide, by decide,
    C3_get_before_expiry_is_a_hit NewCache 100 200000099 "k" "v" 200000000 _
      (by decide) (by decide) (by decide)⟩

/-! ## Theorems: RateLimiter -/

theorem NewRateLimiter_inv (M : Nat) : (NewRateLimiter M).Inv M := by
  simp [RateLimiter.Inv, NewRateLimiter, Chan.make, RateLimiter.held]

theorem RateLimiter.Acquire_done {rl rl' : RateLimiter} (h : rl.Acquire = .done rl') :
    rl.sem.closed = false ∧ rl.held < rl.sem.cap ∧ rl'.held = rl.held + 1 ∧
    rl'.sem.cap = rl.sem.cap ∧ rl'.sem.closed = rl.sem.closed ∧
    rl'.activeCount = rl.activeCount + 1 := by
  unfold RateLimiter.Acquire Chan.send at h
  by_cases hc : rl.sem.closed = true
  · simp [hc] at h
  · by_cases hl : rl.sem.buf.length < rl.sem.cap
    · simp only [hc, hl, if_true, Bool.false_eq_true, if_false, Step.done.injEq] at h
      subst h
      simp [RateLimiter.held, hl]
      simpa using hc
    · simp [hc, hl] at h

theorem RateLimiter.Acquire_blocked_of_full {rl : RateLimiter} (hc : rl.sem.closed = false)
    (hfull : rl.sem.cap ≤ rl.held) : rl.Acquire = .blocked := by
  have hl : ¬ rl.sem.buf.length < rl.sem.cap := by
    simpa [RateLimiter.held] using hfull
  simp [RateLimiter.Acquire, Chan.send, hc, hl]

theorem RateLimiter.Release_done {rl rl' : RateLimiter} (hc : rl.sem.closed = false)
    (h : rl.Release = .done rl') :
    1 ≤ rl.held ∧ rl'.held + 1 = rl.held ∧ rl'.sem.cap = rl.sem.cap ∧
    rl'.sem.closed = rl.sem.closed ∧ rl'.activeCount = rl.activeCount - 1 := by
  unfold RateLimiter.Release Chan.recv at h
  cases hb : rl.sem.buf with
  | nil => simp [hb, hc] at h
  | cons x rest =>
    simp only [hb, Step.done.injEq] at h
    subst h
    simp [RateLimiter.held, hb]

theorem permitsHeld_nil : permitsHeld [] = 0 := rfl

theorem permitsHeld_acquire (rest : List LimiterCall) :
    permitsHeld (.acquire :: rest) = permitsHeld rest + 1 := by
  simp [permitsHeld, List.count_cons]; ring

theorem permitsHeld_release (rest : List LimiterCall) :
    permitsHeld (.release :: rest) = permitsHeld rest - 1 := by
  simp [permitsHeld, List.count_cons]; ring

/-- A run that completes keeps the invariant and moves the token count by the balance of
its calls. -/
theorem RateLimiter.run_done (M : Nat) (calls : List LimiterCall) :
    ∀ rl rl' : RateLimiter, rl.Inv M → rl.run calls = .done rl' →
      rl'.Inv M ∧ (rl'.held : Int) = (rl.held : Int) + permitsHeld calls := by
  induction calls with
  | nil =>
    intro rl rl' hinv h
    simp only [RateLimiter.run, Step.done.injEq] at h
    subst h
    exact ⟨hinv, by simp [permitsHeld_nil]⟩
  | cons c rest ih =>
    intro rl rl' hinv h
    obtain ⟨hcap, hcl, hle, hact⟩ := hinv
    cases c with
    | acquire =>
      cases ha : rl.Acquire with
      | done rl1 =>
        simp only [RateLimiter.run, RateLimiter.call, ha] at h
        obtain ⟨_, hlt, hheld, hcap1, hcl1, hact1⟩ := RateLimiter.Acquire_done ha
        have hinv1 : rl1.Inv M :=
          ⟨by rw [hcap1, hcap], by rw [hcl1, hcl], by omega, by rw [hact1, hact, hheld]; simp⟩
        obtain ⟨hinv', hbal⟩ := ih rl1 rl' hinv1 h
        refine ⟨hinv', ?_⟩
        rw [hbal, hheld, permitsHeld_acquire]; push_cast; ring
      | blocked => simp [RateLimiter.run, RateLimiter.call, ha] at h
      | panic msg => simp [RateLimiter.run, RateLimiter.call, ha] at h
    | release =>
      cases hr : rl.Release with
      | done rl1 =>
        simp only [RateLimiter.run, RateLimiter.call, hr] at h
        obtain ⟨hge, hheld, hcap1, hcl1, hact1⟩ := RateLimiter.Release_done hcl hr
        have hinv1 : rl1.Inv M :=
          ⟨by rw [hcap1, hcap], by rw [hcl1, hcl], by omega,
            by rw [hact1, hact, ← hheld]; simp⟩
        obtain ⟨hinv', hbal⟩ := ih rl1 rl' hinv1 h
        refine ⟨hinv', ?_⟩
        rw [hbal, ← hheld, permitsHeld_release]; push_cast; ring
      | blocked => simp [RateLimiter.run, RateLimiter.call, hr] at h
      | panic msg => simp [RateLimiter.run, RateLimiter.call, hr] at h

/-- Every prefix of a run that completes is a run that completes. -/
theorem RateLimiter.run_take_done (calls : List LimiterCall) :
    ∀ (rl rl' : RateLimiter) (k : Nat), rl.run calls = .done rl' →
      ∃ rl'', rl.run (calls.take k) = .done rl'' := by
  induction calls with
  | nil => intro rl rl' k _; exact ⟨rl, by simp [RateLimiter.run]⟩
  | cons c rest ih =>
    intro rl rl' k h
    cases k with
    | zero => exact ⟨rl, by simp [RateLimiter.run]⟩
    | succ k =>
      cases hc : rl.call c with
      | done rl1 =>
        simp only [RateLimiter.run, hc] at h
        obtain ⟨rl'', h''⟩ := ih rl1 rl' k h
        exact ⟨rl'', by simp [RateLimiter.run, hc, h'']⟩
      | blocked => simp [RateLimiter.run, hc] at h
      | panic msg => simp [RateLimiter.run, hc] at h

/-- Calls that do not overlap: for a limiter made by `NewRateLimiter(M)` and every sequence
of `Acquire` and `Release` calls, each run to completion before the next starts, the permits held
(completed `Acquire`s minus completed `Release`s) after every prefix of the sequence are
at least 0 and at most `M`, they are the tokens in `sem` and the value of `activeCount`,
and a further `Acquire` completes only if fewer than `M` permits are held. -/
theorem RateLimiter.run_of_calls_in_turn (M : Nat) (calls : List LimiterCall)
    (rl : RateLimiter) (h : (NewRateLimiter M).run calls = .done rl) :
    (∀ k, 0 ≤ permitsHeld (calls.take k) ∧ permitsHeld (calls.take k) ≤ (M : Int)) ∧
    permitsHeld calls = (rl.held : Int) ∧ rl.GetActiveCount = permitsHeld calls ∧
    (∀ rl', rl.Acquire = .done rl' → permitsHeld calls < (M : Int)) := by
  have hnew := NewRateLimiter_inv M
  have h0 : ((NewRateLimiter M).held : Int) = 0 := by
    simp [NewRateLimiter, Chan.make, RateLimiter.held]
  obtain ⟨hinv, hbal⟩ := RateLimiter.run_done M calls _ rl hnew h
  rw [h0, zero_add] at hbal
  refine ⟨?_, hbal.symm, ?_, ?_⟩
  · intro k
    obtain ⟨rlk, hk⟩ := RateLimiter.run_take_done calls _ rl k h
    obtain ⟨hinvk, hbalk⟩ := RateLimiter.run_done M (calls.take k) _ rlk hnew hk
    rw [h0, zero_add] at hbalk
    rw [← hbalk]
    have := hinvk.2.2.1
    exact ⟨by positivity, by exact_mod_cast this⟩
  · rw [← hbal]; exact hinv.2.2.2
  · intro rl' ha
    obtain ⟨_, hlt, _⟩ := RateLimiter.Acquire_done ha
    rw [hinv.1] at hlt
    rw [← hbal]
    exact_mod_cast hlt

theorem RateLimiter.acquireWithin_blocked {rl : RateLimiter} (h : rl.Acquire = .blocked) :
    ∀ ticks, rl.acquireWithin ticks = .blocked := by
  intro ticks
  induction ticks with
  | zero => simpa [RateLimiter.acquireWithin] using h
  | succ n ih => simp [RateLimiter.acquireWithin, h, ih]

/-- C5, as stated, fails: on the limiter of `NewRateLimiter(1)` whose one permit is held,
`Acquire` is blocked, and it is still blocked after any number of clock ticks; no call
returns, so no "rejected" outcome reaches the caller. -/
theorem C5_acquire_on_full_limiter_never_returns :
    (NewRateLimiter 1).run [.acquire] = .done ⟨⟨[()], 1, false⟩, 1, 1⟩ ∧
    RateLimiter.held ⟨⟨[()], 1, false⟩, 1, 1⟩ = 1 ∧
    RateLimiter.Acquire ⟨⟨[()], 1, false⟩, 1, 1⟩ = .blocked ∧
    (∀ ticks, RateLimiter.acquireWithin ⟨⟨[()], 1, false⟩, 1, 1⟩ ticks = .blocked) :=
  ⟨rfl, rfl, rfl, RateLimiter.acquireWithin_blocked rfl⟩

/-- C5, amended: on a limiter made by `NewRateLimiter(M)`, `M ≥ 1`, whose `M` permits are all
held, an `Acquire` call does not return for as long as the permits stay held, however many
clock ticks pass (the call takes no timeout and has no rejected outcome); the limiter is
left as it was, and once a `Release` has freed a permit an `Acquire` completes and brings
the permits held back to `M`. -/
theorem C5_acquire_blocks_until_release (M : Nat) (hM : 1 ≤ M) (calls : List LimiterCall)
    (rl : RateLimiter) (h : (NewRateLimiter M).run calls = .done rl) (hfull : rl.held = M) :
    (∀ ticks, rl.acquireWithin ticks = .blocked) ∧
    (∃ rl1 rl2, rl.Release = .done rl1 ∧ rl1.held + 1 = M ∧
      rl1.Acquire = .done rl2 ∧ rl2.held = M) := by
  obtain ⟨⟨hcap, hcl, hle, hact⟩, _⟩ := RateLimiter.run_done M calls _ rl (NewRateLimiter_inv M) h
  refine ⟨RateLimiter.acquireWithin_blocked
    (RateLimiter.Acquire_blocked_of_full hcl (by omega)), ?_⟩
  have hlen : rl.sem.buf.length = M := hfull
  cases hb : rl.sem.buf with
  | nil => rw [hb] at hlen; simp at hlen; omega
  | cons x rest =>
    rw [hb] at hlen
    simp only [List.length_cons] at hlen
    have hlt : rest.length < rl.sem.cap := by omega
    refine ⟨{ rl with sem := { rl.sem with buf := rest }, activeCount := rl.activeCount - 1 },
      { rl with sem := { rl.sem with buf := rest ++ [()] },
                activeCount := rl.activeCount - 1 + 1 }, ?_, ?_, ?_, ?_⟩
    · simp [RateLimiter.Release, Chan.recv, hb]
    · simpa [RateLimiter.held] using hlen
    · simp [RateLimiter.Acquire, Chan.send, hcl, hlt]
    · simpa [RateLimiter.held] using hlen

/-- C5, amended, at `M = 1` with the one permit held. -/
theorem C5_acquire_blocks_until_release_witness :
    1 ≤ 1 ∧
    (NewRateLimiter 1).run [.acquire] = .done ⟨⟨[()], 1, false⟩, 1, 1⟩ ∧
    RateLimiter.held ⟨⟨[()], 1, false⟩, 1, 1⟩ = 1 ∧
    ((∀ ticks, RateLimiter.acquireWithin ⟨⟨[()], 1, false⟩, 1, 1⟩ ticks = .blocked) ∧
      (∃ rl1 rl2, RateLimiter.Release ⟨⟨[()], 1, false⟩, 1, 1⟩ = .done rl1 ∧
        rl1.held + 1 = 1 ∧ rl1.Acquire = .done rl2 ∧ rl2.held = 1)) :=
  ⟨by decide, rfl, rfl, C5_acquire_blocks_until_release 1 (by decide) [.acquire] _ rfl rfl⟩

/-! ## Theorems: channels and the task queue -/

theorem Chan.send_done {α : Type} {ch ch' : Chan α} {x : α} (h : ch.send x = .done ch') :
    ch.closed = false ∧ ch.buf.length < ch.cap ∧ ch' = { ch with buf := ch.buf ++ [x] } := by
  unfold Chan.send at h
  split at h
  · cases h
  · split at h
    · rename_i hc hl
      exact ⟨by simpa using hc, hl, (Step.done.inj h).symm⟩
    · cases h

theorem Chan.send_of_room {α : Type} (ch : Chan α) (x : α) (hc : ch.closed = false)
    (hl : ch.buf.length < ch.cap) : ch.send x = .done { ch with buf := ch.buf ++ [x] } := by
  simp [Chan.send, hc, hl]

theorem Chan.send_of_full {α : Type} (ch : Chan α) (x : α) (hc : ch.closed = false)
    (hl : ch.buf.length = ch.cap) : ch.send x = .blocked := by
  simp [Chan.send, hc, hl]

theorem Chan.send_of_closed {α : Type} (ch : Chan α) (x : α) (hc : ch.closed = true) :
    ch.send x = .panic "send on closed channel" := by
  simp [Chan.send, hc]

theorem Chan.recv_done {α : Type} {ch ch' : Chan α} {r : Option α}
    (h : ch.recv = .done (r, ch')) :
    ch'.cap = ch.cap ∧ ch'.closed = ch.closed ∧ ch'.buf.length ≤ ch.buf.length ∧
    (ch.buf = [] → r = none ∧ ch.closed = true ∧ ch' = ch) ∧
    (∀ x rest, ch.buf = x :: rest → r = some x ∧ ch'.buf = rest) := by
  unfold Chan.recv at h
  cases hb : ch.buf with
  | nil =>
    by_cases hc : ch.closed = true
    · simp only [hb, hc, if_true, Step.done.injEq, Prod.mk.injEq] at h
      obtain ⟨h1, h2⟩ := h
      subst h1; subst h2
      simp [hb, hc]
    · simp [hb, hc] at h
  | cons x rest =>
    simp only [hb, Step.done.injEq, Prod.mk.injEq] at h
    obtain ⟨h1, h2⟩ := h
    subst h1; subst h2
    simp

theorem Chan.close_done {α : Type} {ch ch' : Chan α} (h : ch.close = .done ch') :
    ch' = { ch with closed := true } := by
  unfold Chan.close at h
  by_cases hc : ch.closed = true
  · simp [hc] at h
  · simp only [hc, Bool.false_eq_true, if_false, Step.done.injEq] at h
    exact h.symm

/-- What another goroutine does keeps the capacity and the bound. -/
theorem Chan.other_bounded {α : Type} (ch : Chan α) (op : ChanOp α) (hb : ch.Bounded) :
    (ch.other op).cap = ch.cap ∧ (ch.other op).Bounded := by
  cases op with
  | recv =>
    cases hr : ch.recv with
    | done p =>
      obtain ⟨r, ch'⟩ := p
      obtain ⟨h1, _, h3, _⟩ := Chan.recv_done hr
      simp only [Chan.other, hr]
      exact ⟨h1, by unfold Chan.Bounded at *; omega⟩
    | blocked => simp only [Chan.other, hr]; exact ⟨trivial, hb⟩
    | panic msg => simp only [Chan.other, hr]; exact ⟨trivial, hb⟩
  | send x =>
    cases hs : ch.send x with
    | done ch' =>
      obtain ⟨_, hl, he⟩ := Chan.send_done hs
      subst he
      simp only [Chan.other, hs]
      exact ⟨trivial, by simp only [Chan.Bounded, List.length_append, List.length_singleton]; omega⟩
    | blocked => simp only [Chan.other, hs]; exact ⟨trivial, hb⟩
    | panic msg => simp only [Chan.other, hs]; exact ⟨trivial, hb⟩
  | close =>
    cases hcl : ch.close with
    | done ch' =>
      have he := Chan.close_done hcl
      subst he
      simp only [Chan.other, hcl]
      exact ⟨trivial, hb⟩
    | blocked => simp only [Chan.other, hcl]; exact ⟨trivial, hb⟩
    | panic msg => simp only [Chan.other, hcl]; exact ⟨trivial, hb⟩

/-- A `select` between a send and a timer leaves a bounded channel of the same capacity. -/
theorem Chan.sendOrTimeout_bounded {α : Type} (x : α) (during : List (ChanOp α)) :
    ∀ ch : Chan α, ch.Bounded →
      (∀ ch', ch.sendOrTimeout x during = .sent ch' → ch'.cap = ch.cap ∧ ch'.Bounded) ∧
      (∀ ch', ch.sendOrTimeout x during = .timeout ch' → ch'.cap = ch.cap ∧ ch'.Bounded) := by
  induction during with
  | nil =>
    intro ch hb
    simp only [Chan.sendOrTimeout]
    cases hs : ch.send x with
    | done ch1 =>
      obtain ⟨_, hl, he⟩ := Chan.send_done hs
      subst he
      refine ⟨?_, by intro ch' h; simp at h⟩
      intro ch' h
      simp only [SelectSend.sent.injEq] at h
      subst h
      exact ⟨rfl, by simp only [Chan.Bounded, List.length_append, List.length_singleton]; omega⟩
    | blocked =>
      refine ⟨by intro ch' h; simp at h, ?_⟩
      intro ch' h
      simp only [SelectSend.timeout.injEq] at h
      subst h
      exact ⟨rfl, hb⟩
    | panic msg => exact ⟨by intro ch' h; simp at h, by intro ch' h; simp at h⟩
  | cons op rest ih =>
    intro ch hb
    simp only [Chan.sendOrTimeout]
    cases hs : ch.send x with
    | done ch1 =>
      obtain ⟨_, hl, he⟩ := Chan.send_done hs
      subst he
      refine ⟨?_, by intro ch' h; simp at h⟩
      intro ch' h
      simp only [SelectSend.sent.injEq] at h
      subst h
      exact ⟨rfl, by simp only [Chan.Bounded, List.length_append, List.length_singleton]; omega⟩
    | blocked =>
      obtain ⟨hcap, hb'⟩ := Chan.other_bounded ch op hb
      obtain ⟨ih1, ih2⟩ := ih (ch.other op) hb'
      exact ⟨fun ch' h => by rw [← hcap]; exact ih1 ch' h,
        fun ch' h => by rw [← hcap]; exact ih2 ch' h⟩
    | panic msg => exact ⟨by intro ch' h; simp at h, by intro ch' h; simp at h⟩

theorem Chan.staysFull_head {α : Type} (ch : Chan α) (during : List (ChanOp α))
    (h : ch.staysFull during = true) : ch.buf.length = ch.cap := by
  cases during with
  | nil => simpa [Chan.staysFull] using h
  | cons op rest =>
    simp only [Chan.staysFull, Bool.and_eq_true, decide_eq_true_eq] at h
    exact h.1

/-- On an open channel that is full before and after it, an operation other than `close`
changes nothing. -/
theorem Chan.other_eq_of_full {α : Type} (ch : Chan α) (op : ChanOp α)
    (hc : ch.closed = false) (hop : op.isClose = false) (hfull : ch.buf.length = ch.cap)
    (hfull' : (ch.other op).buf.length = (ch.other op).cap) : ch.other op = ch := by
  cases op with
  | close => simp [ChanOp.isClose] at hop
  | send x => simp [Chan.other, Chan.send_of_full ch x hc hfull]
  | recv =>
    cases hb : ch.buf with
    | nil => simp [Chan.other, Chan.recv, hb, hc]
    | cons y rest =>
      have hr : ch.recv = .done (some y, { ch with buf := rest }) := by
        simp [Chan.recv, hb]
      simp only [Chan.other, hr] at hfull'
      rw [hb] at hfull
      simp only [List.length_cons] at hfull
      omega

/-- A send with a timer on an open channel that stays full takes the timer case and leaves
the channel as it was. -/
theorem Chan.sendOrTimeout_of_staysFull {α : Type} (x : α) (during : List (ChanOp α)) :
    ∀ ch : Chan α, ch.closed = false → (∀ op ∈ during, op.isClose = false) →
      ch.staysFull during = true → ch.sendOrTimeout x during = .timeout ch := by
  induction during with
  | nil =>
    intro ch hc _ hfull
    have hl := Chan.staysFull_head ch [] hfull
    simp [Chan.sendOrTimeout, Chan.send_of_full ch x hc hl]
  | cons op rest ih =>
    intro ch hc hno hfull
    have hl := Chan.staysFull_head ch (op :: rest) hfull
    simp only [Chan.staysFull, Bool.and_eq_true, decide_eq_true_eq] at hfull
    have hl' := Chan.staysFull_head (ch.other op) rest hfull.2
    have heq := Chan.other_eq_of_full ch op hc (hno op (List.mem_cons_self _ _)) hl hl'
    have hrest := ih ch hc (fun op' hm => hno op' (List.mem_cons_of_mem _ hm))
      (by rw [← heq]; exact hfull.2)
    simp only [Chan.sendOrTimeout, Chan.send_of_full ch x hc hl, heq]
    exact hrest

theorem Chan.sendOrTimeout_of_room {α : Type} (ch : Chan α) (x : α) (during : List (ChanOp α))
    (hc : ch.closed = false) (hl : ch.buf.length < ch.cap) :
    ch.sendOrTimeout x during = .sent { ch with buf := ch.buf ++ [x] } := by
  cases during <;> simp [Chan.sendOrTimeout, Chan.send_of_room ch x hc hl]

theorem Chan.sendOrTimeout_of_closed {α : Type} (ch : Chan α) (x : α)
    (during : List (ChanOp α)) (hc : ch.closed = true) :
    ch.sendOrTimeout x during = .panic "send on closed channel" := by
  cases during <;> simp [Chan.sendOrTimeout, Chan.send_of_closed ch x hc]

theorem TaskProcessor.processTask_frame (tp : TaskProcessor) (task : Task) (rnd : Rand) :
    (tp.processTask task rnd).1.taskQueue = tp.taskQueue ∧
    (tp.processTask task rnd).1.tasksProcessed = tp.tasksProcessed ∧
    (tp.processTask task rnd).1.wg = tp.wg ∧
    (tp.processTask task rnd).1.numWorkers = tp.numWorkers := by
  unfold TaskProcessor.processTask
  split_ifs <;> exact ⟨rfl, rfl, rfl, rfl⟩

/-- Every step of every goroutine keeps the queue within its capacity. -/
theorem TaskProcessor.step_bounded (tp : TaskProcessor) (st : ProcessorStep)
    (hb : tp.taskQueue.Bounded) :
    (tp.step st).taskQueue.cap = tp.taskQueue.cap ∧ (tp.step st).taskQueue.Bounded := by
  cases st with
  | submit task during =>
    obtain ⟨h1, h2⟩ := Chan.sendOrTimeout_bounded task during tp.taskQueue hb
    simp only [TaskProcessor.step, TaskProcessor.SubmitTask]
    cases hs : tp.taskQueue.sendOrTimeout task during with
    | sent q => exact h1 q hs
    | timeout q => exact h2 q hs
    | panic msg => exact ⟨rfl, hb⟩
  | workerPass inp =>
    simp only [TaskProcessor.step, TaskProcessor.workerPass]
    cases hr : tp.taskQueue.recv with
    | done p =>
      obtain ⟨r, q⟩ := p
      obtain ⟨hcap, _, hlen, _⟩ := Chan.recv_done hr
      by_cases hd : (inp.ctxDone && inp.pickDone) = true
      · simp only [hd, if_true]; exact ⟨trivial, hb⟩
      · simp only [hd, Bool.false_eq_true, if_false]
        rw [(TaskProcessor.processTask_frame _ _ _).1]
        show q.cap = tp.taskQueue.cap ∧ q.buf.length ≤ q.cap
        exact ⟨hcap, by unfold Chan.Bounded at hb; omega⟩
    | blocked => by_cases hd : inp.ctxDone = true <;> simp only [hd] <;> exact ⟨rfl, hb⟩
    | panic msg => by_cases hd : inp.ctxDone = true <;> simp only [hd] <;> exact ⟨rfl, hb⟩
  | stop =>
    simp only [TaskProcessor.step, TaskProcessor.closeQueue]
    cases hcl : tp.taskQueue.close with
    | done q =>
      have he := Chan.close_done hcl
      subst he
      exact ⟨rfl, hb⟩
    | blocked => exact ⟨rfl, hb⟩
    | panic msg => exact ⟨rfl, hb⟩

theorem TaskProcessor.run_bounded (steps : List ProcessorStep) :
    ∀ tp : TaskProcessor, tp.taskQueue.Bounded →
      (tp.run steps).taskQueue.cap = tp.taskQueue.cap ∧ (tp.run steps).taskQueue.Bounded := by
  induction steps with
  | nil => intro tp hb; exact ⟨rfl, hb⟩
  | cons st rest ih =>
    intro tp hb
    obtain ⟨hcap, hb'⟩ := TaskProcessor.step_bounded tp st hb
    obtain ⟨hcap', hb''⟩ := ih (tp.step st) hb'
    exact ⟨by simpa [TaskProcessor.run, hcap] using hcap', by simpa [TaskProcessor.run] using hb''⟩

theorem NewTaskProcessor_bounded (Q N : Nat) (a : Analytics) :
    (NewTaskProcessor Q N a).taskQueue.cap = Q ∧ (NewTaskProcessor Q N a).taskQueue.Bounded := by
  simp [NewTaskProcessor, Chan.make, Chan.Bounded]

/-- C6: in every state a `TaskProcessor` of queue capacity `Q ≥ 1` (a buffered channel)
reaches, the queue holds at most `Q` tasks. While the queue is open (`Stop` has not closed it), `SubmitTask` on a queue
holding fewer than `Q` tasks appends the task at the tail and returns `nil`, and
`SubmitTask` on a queue that stays full until the timer fires returns the error
"task queue full" and leaves the processor, its queue included, as it was. -/
theorem C6_submit_on_bounded_queue (Q N : Nat) (_hQ : 1 ≤ Q) (a : Analytics)
    (steps : List ProcessorStep) (task : Task) (during : List (ChanOp Task)) :
    ((NewTaskProcessor Q N a).run steps).taskQueue.cap = Q ∧
    ((NewTaskProcessor Q N a).run steps).taskQueue.buf.length ≤ Q ∧
    (((NewTaskProcessor Q N a).run steps).taskQueue.closed = false →
      ((NewTaskProcessor Q N a).run steps).taskQueue.buf.length < Q →
      ((NewTaskProcessor Q N a).run steps).SubmitTask task during
        = .returned none
            { (NewTaskProcessor Q N a).run steps with
              taskQueue :=
                { ((NewTaskProcessor Q N a).run steps).taskQueue with
                  buf := ((NewTaskProcessor Q N a).run steps).taskQueue.buf ++ [task] } }) ∧
    (((NewTaskProcessor Q N a).run steps).taskQueue.closed = false →
      (∀ op ∈ during, op.isClose = false) →
      ((NewTaskProcessor Q N a).run steps).taskQueue.staysFull during = true →
      ((NewTaskProcessor Q N a).run steps).SubmitTask task during
        = .returned (some "task queue full") ((NewTaskProcessor Q N a).run steps)) := by
  obtain ⟨hcap0, hb0⟩ := NewTaskProcessor_bounded Q N a
  obtain ⟨hcap, hb⟩ := TaskProcessor.run_bounded steps (NewTaskProcessor Q N a) hb0
  rw [hcap0] at hcap
  refine ⟨hcap, by unfold Chan.Bounded at hb; omega, ?_, ?_⟩
  · intro hopen hlt
    have hlt' : ((NewTaskProcessor Q N a).run steps).taskQueue.buf.length
        < ((NewTaskProcessor Q N a).run steps).taskQueue.cap := by rw [hcap]; exact hlt
    simp [TaskProcessor.SubmitTask, Chan.sendOrTimeout_of_room _ task during hopen hlt']
  · intro hopen hno hfull
    simp [TaskProcessor.SubmitTask,
      Chan.sendOrTimeout_of_staysFull task during _ hopen hno hfull]

/-- C6 on a queue of capacity 1: the first submission is queued, and a second one, made
while a further submitter also waits and no worker receives, gets "task queue full". -/
theorem C6_submit_on_bounded_queue_witness :
    1 ≤ 1 ∧
    ((NewTaskProcessor 1 1 NewAnalytics).run []).SubmitTask ⟨"task-1", "compute", [], some 1⟩ []
      = .returned none
          { (NewTaskProcessor 1 1 NewAnalytics).run [] with
            taskQueue :=
              { ((NewTaskProcessor 1 1 NewAnalytics).run []).taskQueue with
                buf := ((NewTaskProcessor 1 1 NewAnalytics).run []).taskQueue.buf
                  ++ [⟨"task-1", "compute", [], some 1⟩] } } ∧
    ((NewTaskProcessor 1 1 NewAnalytics).run
        [.submit ⟨"task-1", "compute", [], some 1⟩ []]).SubmitTask
          ⟨"task-2", "compute", [], some 2⟩ [.send ⟨"task-3", "database", [], some 3⟩]
      = .returned (some "task queue full")
          ((NewTaskProcessor 1 1 NewAnalytics).run
            [.submit ⟨"task-1", "compute", [], some 1⟩ []]) :=
  ⟨le_refl 1,
   (C6_submit_on_bounded_queue 1 1 (le_refl 1) NewAnalytics []
      ⟨"task-1", "compute", [], some 1⟩ []).2.2.1 rfl (by decide),
   (C6_submit_on_bounded_queue 1 1 (le_refl 1) NewAnalytics
      [.submit ⟨"task-1", "compute", [], some 1⟩ []]
      ⟨"task-2", "compute", [], some 2⟩ [.send ⟨"task-3", "database", [], some 3⟩]).2.2.2
      rfl (by decide) rfl⟩

/-- `SubmitTask` on a closed queue panics, whatever else happens while it runs. -/
theorem TaskProcessor.SubmitTask_of_closed (tp : TaskProcessor) (task : Task)
    (during : List (ChanOp Task)) (hc : tp.taskQueue.closed = true) :
    tp.SubmitTask task during = .panic "send on closed channel" := by
  simp [TaskProcessor.SubmitTask, Chan.sendOrTimeout_of_closed _ task during hc]

/-- C7 fails on the code: after `Stop` on a processor (here one with no worker started, so
that `Stop` returns) the queue is closed, and `SubmitTask` does not return an error: its
send on the closed queue panics. -/
theorem C7_submit_after_stop_panics :
    (NewTaskProcessor 1 1 NewAnalytics).Stop
      = .done { NewTaskProcessor 1 1 NewAnalytics with taskQueue := ⟨[], 1, true⟩ } ∧
    TaskProcessor.SubmitTask
        { NewTaskProcessor 1 1 NewAnalytics with taskQueue := ⟨[], 1, true⟩ }
        ⟨"task-1", "compute", [], some 1⟩ []
      = .panic "send on closed channel" :=
  ⟨rfl, TaskProcessor.SubmitTask_of_closed _ _ _ rfl⟩

/-! ## Theorems: worker and `processTask` -/

theorem Analytics.getErrorCount_RecordError_same (a : Analytics) (k : String) :
    (a.RecordError k).getErrorCount k = a.getErrorCount k + 1 := by
  simp [Analytics.RecordError, Analytics.getErrorCount, GoMap.set]

theorem Analytics.errorCount_RecordError_other (a : Analytics) (k k' : String) (h : k' ≠ k) :
    (a.RecordError k).errorCount k' = a.errorCount k' := by
  simp [Analytics.RecordError, GoMap.set, h]

/-- The `default` branch of `processTask`. -/
theorem TaskProcessor.processTask_unknown (tp : TaskProcessor) (task : Task) (rnd : Rand)
    (h1 : task.Type_ ≠ "compute") (h2 : task.Type_ ≠ "database")
    (h3 : task.Type_ ≠ "external_api") :
    tp.processTask task rnd
      = ({ tp with analytics := tp.analytics.RecordError "unknown_task_type" },
         { TaskID := task.ID, Result := none,
           Error := some ("unknown task type: " ++ task.Type_) }) := by
  simp [TaskProcessor.processTask, h1, h2, h3]

/-- One pass of a worker on a closed, empty queue, with the context not cancelled or with
the `select` picking the receive case: the pass runs `processTask` on the zero `Task`, and
the worker stays in its loop. -/
theorem TaskProcessor.workerPass_closed_empty (tp : TaskProcessor) (inp : WorkerInput)
    (hc : tp.taskQueue.closed = true) (he : tp.taskQueue.buf = [])
    (hpick : (inp.ctxDone && inp.pickDone) = false) :
    tp.workerPass inp
      = ({ tp with analytics := tp.analytics.RecordError "unknown_task_type"
                   tasksProcessed := tp.tasksProcessed + 1 },
         .processed Task.zero
           { TaskID := "", Result := none, Error := some "unknown task type: " } false) := by
  have hr : tp.taskQueue.recv = .done (none, tp.taskQueue) := by
    simp [Chan.recv, he, hc]
  have hp := TaskProcessor.processTask_unknown tp Task.zero inp.rnd
    (by decide) (by decide) (by decide)
  simp only [TaskProcessor.workerPass, hr, hpick, Bool.false_eq_true, if_false,
    Option.getD_none]
  rw [hp]
  rfl

/-- A worker on a closed, empty queue whose context is not cancelled never returns: after
any number of passes it is still in its loop, `wg` is as it was, and it has run
`processTask` on the zero `Task` once per pass. -/
theorem TaskProcessor.worker_closed_empty (inputs : List WorkerInput) :
    ∀ tp : TaskProcessor, tp.taskQueue.closed = true → tp.taskQueue.buf = [] →
      (∀ inp ∈ inputs, inp.ctxDone = false) →
      (tp.worker inputs).2.2 = false ∧ (tp.worker inputs).1.wg = tp.wg ∧
      (tp.worker inputs).1.tasksProcessed = tp.tasksProcessed + inputs.length ∧
      (tp.worker inputs).1.analytics.getErrorCount "unknown_task_type"
        = tp.analytics.getErrorCount "unknown_task_type" + inputs.length := by
  induction inputs with
  | nil => intro tp _ _ _; simp [TaskProcessor.worker]
  | cons inp rest ih =>
    intro tp hc he hctx
    have hpick : (inp.ctxDone && inp.pickDone) = false := by
      simp [hctx inp (List.mem_cons_self _ _)]
    have hpass := TaskProcessor.workerPass_closed_empty tp inp hc he hpick
    obtain ⟨h1, h2, h3, h4⟩ := ih
      { tp with analytics := tp.analytics.RecordError "unknown_task_type"
                tasksProcessed := tp.tasksProcessed + 1 } hc he
      (fun i hm => hctx i (List.mem_cons_of_mem _ hm))
    simp only [TaskProcessor.worker, hpass]
    refine ⟨h1, h2, ?_, ?_⟩
    · rw [h3]; simp only [List.length_cons]; push_cast; ring
    · rw [h4, Analytics.getErrorCount_RecordError_same]
      simp only [List.length_cons]; push_cast; ring

/-- C8 fails on the code: a processor with one worker started is stopped while its queue is
empty and the context is not cancelled. `Stop` blocks in `wg.Wait`. The worker's receive on
the closed, empty queue does not make it exit: the pass runs `processTask` on the zero
`Task`, which records an `unknown_task_type` error, and the worker is still in its loop
with `wg = 1`; this holds for any number of passes, and also for a pass with the context
cancelled when the `select` picks the receive case. -/
theorem C8_worker_runs_processTask_on_closed_queue :
    (NewTaskProcessor 1 1 NewAnalytics).Start.Stop = .blocked ∧
    ((NewTaskProcessor 1 1 NewAnalytics).Start.step .stop).taskQueue = ⟨[], 1, true⟩ ∧
    (((NewTaskProcessor 1 1 NewAnalytics).Start.step .stop).workerPass
        ⟨false, false, ⟨0, 0, 0⟩, true⟩).2
      = .processed Task.zero ⟨"", none, some "unknown task type: "⟩ false ∧
    (((NewTaskProcessor 1 1 NewAnalytics).Start.step .stop).workerPass
        ⟨false, false, ⟨0, 0, 0⟩, true⟩).1.analytics.getErrorCount "unknown_task_type" = 1 ∧
    (((NewTaskProcessor 1 1 NewAnalytics).Start.step .stop).workerPass
        ⟨false, false, ⟨0, 0, 0⟩, true⟩).1.wg = 1 ∧
    (((NewTaskProcessor 1 1 NewAnalytics).Start.step .stop).workerPass
        ⟨true, false, ⟨0, 0, 0⟩, true⟩).2
      = .processed Task.zero ⟨"", none, some "unknown task type: "⟩ false ∧
    (∀ inputs : List WorkerInput, (∀ inp ∈ inputs, inp.ctxDone = false) →
      (((NewTaskProcessor 1 1 NewAnalytics).Start.step .stop).worker inputs).2.2 = false ∧
      (((NewTaskProcessor 1 1 NewAnalytics).Start.step .stop).worker inputs).1.wg = 1 ∧
      (((NewTaskProcessor 1 1 NewAnalytics).Start.step .stop).worker
          inputs).1.analytics.getErrorCount "unknown_task_type" = inputs.length) := by
  have hA := TaskProcessor.workerPass_closed_empty
    ((NewTaskProcessor 1 1 NewAnalytics).Start.step .stop) ⟨false, false, ⟨0, 0, 0⟩, true⟩
    rfl rfl rfl
  have hB := TaskProcessor.workerPass_closed_empty
    ((NewTaskProcessor 1 1 NewAnalytics).Start.step .stop) ⟨true, false, ⟨0, 0, 0⟩, true⟩
    rfl rfl rfl
  refine ⟨rfl, rfl, ?_, ?_, ?_, ?_, ?_⟩
  · rw [hA]
  · rw [hA]
    rfl
  · rw [hA]
    rfl
  · rw [hB]
  · intro inputs hctx
    obtain ⟨h1, h2, _, h4⟩ := TaskProcessor.worker_closed_empty inputs
      ((NewTaskProcessor 1 1 NewAnalytics).Start.step .stop) rfl rfl hctx
    refine ⟨h1, by rw [h2]; rfl, ?_⟩
    rw [h4]
    have : ((NewTaskProcessor 1 1 NewAnalytics).Start.step .stop).analytics.getErrorCount
        "unknown_task_type" = 0 := rfl
    rw [this, zero_add]

/-- C9: for a task whose `Type` is none of "compute", "database", "external_api",
`processTask` returns the `TaskResult` with the task's ID, a `nil` result and the error
"unknown task type: <Type>"; `errorCount["unknown_task_type"]` goes up by exactly 1, and
every other error counter, every request count, every average, the queue and the
processed count are as before. -/
theorem C9_unknown_task_type (tp : TaskProcessor) (task : Task) (rnd : Rand)
    (h1 : task.Type_ ≠ "compute") (h2 : task.Type_ ≠ "database")
    (h3 : task.Type_ ≠ "external_api") :
    (tp.processTask task rnd).2
      = { TaskID := task.ID, Result := none,
          Error := some ("unknown task type: " ++ task.Type_) } ∧
    (tp.processTask task rnd).1.analytics.getErrorCount "unknown_task_type"
      = tp.analytics.getErrorCount "unknown_task_type" + 1 ∧
    (∀ k, k ≠ "unknown_task_type" →
      (tp.processTask task rnd).1.analytics.errorCount k = tp.analytics.errorCount k) ∧
    (tp.processTask task rnd).1.analytics.requestCount = tp.analytics.requestCount ∧
    (tp.processTask task rnd).1.analytics.avgResponseTime = tp.analytics.avgResponseTime ∧
    (tp.processTask task rnd).1.taskQueue = tp.taskQueue ∧
    (tp.processTask task rnd).1.tasksProcessed = tp.tasksProcessed := by
  rw [TaskProcessor.processTask_unknown tp task rnd h1 h2 h3]
  refine ⟨rfl, Analytics.getErrorCount_RecordError_same _ _, ?_, rfl, rfl, rfl, rfl⟩
  intro k hk
  exact Analytics.errorCount_RecordError_other _ _ _ hk

/-- C9 for the scenario of the specification: a task of type "unsupported". -/
theorem C9_unknown_task_type_witness :
    ((NewTaskProcessor 1 1 NewAnalytics).processTask
        ⟨"task-7", "unsupported", [], some 7⟩ ⟨0, 0, 0⟩).2
      = { TaskID := "task-7", Result := none,
          Error := some "unknown task type: unsupported" } ∧
    ((NewTaskProcessor 1 1 NewAnalytics).processTask
        ⟨"task-7", "unsupported", [], some 7⟩ ⟨0, 0, 0⟩).1.analytics.getErrorCount
          "unknown_task_type" = 1 :=
  ⟨(C9_unknown_task_type (NewTaskProcessor 1 1 NewAnalytics)
      ⟨"task-7", "unsupported", [], some 7⟩ ⟨0, 0, 0⟩
      (by decide) (by decide) (by decide)).1,
   (C9_unknown_task_type (NewTaskProcessor 1 1 NewAnalytics)
      ⟨"task-7", "unsupported", [], some 7⟩ ⟨0, 0, 0⟩
      (by decide) (by decide) (by decide)).2.1⟩

/-! ## Theorems: `handleProcess` -/

theorem Server.withAnalytics_rateLimiter (s : Server) (f : Analytics → Analytics) :
    (s.withAnalytics f).rateLimiter = s.rateLimiter := rfl

theorem Server.withAnalytics_analytics (s : Server) (f : Analytics → Analytics) :
    (s.withAnalytics f).analytics = f s.analytics := rfl

theorem TaskProcessor.SubmitTask_analytics {tp tp' : TaskProcessor} {task : Task}
    {during : List (ChanOp Task)} {err : Option String}
    (h : tp.SubmitTask task during = .returned err tp') : tp'.analytics = tp.analytics := by
  unfold TaskProcessor.SubmitTask at h
  split at h
  · cases h; rfl
  · cases h; rfl
  · cases h

/-- The body of `handleProcess` touches neither the rate limiter nor any request count. -/
theorem Server.processBody_frame (s : Server) (reqID : Int) (inp : ProcessInput) :
    (s.processBody reqID inp).1.rateLimiter = s.rateLimiter ∧
    (s.processBody reqID inp).1.analytics.requestCount = s.analytics.requestCount := by
  cases hbody : inp.body with
  | none =>
    simp only [Server.processBody, hbody]
    exact ⟨rfl, rfl⟩
  | some req =>
    cases hs : s.taskProcessor.SubmitTask
        { ID := "task-" ++ toString reqID, Type_ := req.TaskType, Payload := req.Payload,
          ResultCh := some reqID } inp.during with
    | panic msg =>
      simp only [Server.processBody, hbody, hs]
      exact ⟨trivial, trivial⟩
    | returned err tp =>
      have ha : tp.analytics = s.taskProcessor.analytics := TaskProcessor.SubmitTask_analytics hs
      cases err with
      | some e =>
        simp only [Server.processBody, hbody, hs]
        exact ⟨rfl, by simp [Server.analytics, Server.withAnalytics, Analytics.RecordError, ha]⟩
      | none =>
        cases hreply : inp.reply with
        | none =>
          simp only [Server.processBody, hbody, hs, hreply]
          exact ⟨rfl,
            by simp [Server.analytics, Server.withAnalytics, Analytics.RecordError, ha]⟩
        | some result =>
          cases herr : result.Error with
          | none =>
            simp only [Server.processBody, hbody, hs, hreply, herr]
            exact ⟨trivial, by simp [Server.analytics, ha]⟩
          | some msg =>
            simp only [Server.processBody, hbody, hs, hreply, herr]
            exact ⟨rfl,
              by simp [Server.analytics, Server.withAnalytics, Analytics.RecordError, ha]⟩

/-- The shape of a `handleProcess` call whose `Acquire` and `Release` both proceed. -/
theorem Server.handleProcess_of_acquired (s : Server) (inp : ProcessInput)
    (rl rl' : RateLimiter) (hA : s.rateLimiter.Acquire = .done rl)
    (hR : rl.Release = .done rl') :
    s.handleProcess inp
      = some ({ ((({ s with reqCounter := s.reqCounter + 1, rateLimiter := rl } : Server).processBody
                  (s.reqCounter + 1) inp).1.withAnalytics
                  (fun a => a.RecordRequest "/api/process" (inp.finish - inp.start))) with
                rateLimiter := rl' },
              (({ s with reqCounter := s.reqCounter + 1, rateLimiter := rl } : Server).processBody
                  (s.reqCounter + 1) inp).2) := by
  have hfr := (Server.processBody_frame
    ({ s with reqCounter := s.reqCounter + 1, rateLimiter := rl } : Server)
    (s.reqCounter + 1) inp).1
  simp only [Server.handleProcess, hA, Server.withAnalytics_rateLimiter, hfr, hR]

/-- C10: on a server whose semaphore channel is open (nothing in the program closes it), a
`handleProcess` call returns whenever a permit is free, and whenever it returns, on every
way out (invalid JSON, queue full, worker-reported error, result timeout, success, and a
panic of `SubmitTask` as well), `requestCount["/api/process"]` has gone up by exactly 1 and
the permits held and `activeCount` are what they were on entry. -/
theorem C10_handleProcess_counts_request_and_releases_permit (s : Server)
    (inp : ProcessInput) (hopen : s.rateLimiter.sem.closed = false) :
    (s.rateLimiter.held < s.rateLimiter.sem.cap →
      ∃ s' exit, s.handleProcess inp = some (s', exit)) ∧
    (∀ s' exit, s.handleProcess inp = some (s', exit) →
      s'.analytics.getRequestCount "/api/process"
        = s.analytics.getRequestCount "/api/process" + 1 ∧
      s'.rateLimiter.held = s.rateLimiter.held ∧
      s'.rateLimiter.GetActiveCount = s.rateLimiter.GetActiveCount ∧
      s'.rateLimiter.sem.cap = s.rateLimiter.sem.cap ∧
      s'.rateLimiter.sem.closed = false) := by
  cases hA : s.rateLimiter.Acquire with
  | blocked =>
    constructor
    · intro hlt
      have hl : s.rateLimiter.sem.buf.length < s.rateLimiter.sem.cap := hlt
      simp [RateLimiter.Acquire, Chan.send, hopen, hl] at hA
    · intro s' exit h
      simp [Server.handleProcess, hA] at h
  | panic msg =>
    exfalso
    unfold RateLimiter.Acquire Chan.send at hA
    rw [hopen] at hA
    by_cases hl : s.rateLimiter.sem.buf.length < s.rateLimiter.sem.cap <;> simp [hl] at hA
  | done rl =>
    obtain ⟨_, hlt, hheld, hcap1, hcl1, hact1⟩ := RateLimiter.Acquire_done hA
    have hcl1' : rl.sem.closed = false := by rw [hcl1, hopen]
    have hlen : rl.sem.buf.length = s.rateLimiter.sem.buf.length + 1 := hheld
    cases hb : rl.sem.buf with
    | nil => rw [hb] at hlen; simp at hlen
    | cons x rest =>
      have hR : rl.Release
          = .done { rl with sem := { rl.sem with buf := rest },
                            activeCount := rl.activeCount - 1 } := by
        simp [RateLimiter.Release, Chan.recv, hb]
      have hshape := Server.handleProcess_of_acquired s inp rl _ hA hR
      have hrest : rest.length = s.rateLimiter.sem.buf.length := by
        rw [hb] at hlen; simpa using hlen
      refine ⟨fun _ => ⟨_, _, hshape⟩, ?_⟩
      intro s' exit h
      rw [hshape] at h
      simp only [Option.some.injEq, Prod.mk.injEq] at h
      obtain ⟨hs', _⟩ := h
      subst hs'
      have hrc := (Server.processBody_frame
        ({ s with reqCounter := s.reqCounter + 1, rateLimiter := rl } : Server)
        (s.reqCounter + 1) inp).2
      refine ⟨?_, hrest, ?_, hcap1, hcl1'⟩
      · have hcount : ∀ a b : Analytics, a.requestCount = b.requestCount →
            (a.RecordRequest "/api/process" (inp.finish - inp.start)).getRequestCount
              "/api/process" = b.getRequestCount "/api/process" + 1 := by
          intro a b hab
          rw [getRequestCount_RecordRequest_same]
          simp [Analytics.getRequestCount, hab]
        exact hcount _ _ hrc
      · show rl.activeCount - 1 = s.rateLimiter.activeCount
        rw [hact1]; ring

/-- C10 on the server of `NewServer`, for a request that succeeds and for one whose body
is not valid JSON. -/
theorem C10_handleProcess_counts_request_and_releases_permit_witness :
    NewServer.rateLimiter.sem.closed = false ∧
    (∃ s' exit, NewServer.handleProcess
        ⟨0, 120000000, some ⟨"compute", []⟩, [],
          some ⟨"task-1", some [("computation", .str "completed"), ("value", .int 7)], none⟩⟩
      = some (s', exit)) ∧
    (∀ s' exit, NewServer.handleProcess ⟨0, 1000000, none, [], none⟩ = some (s', exit) →
      s'.analytics.getRequestCount "/api/process"
        = NewServer.analytics.getRequestCount "/api/process" + 1 ∧
      s'.rateLimiter.held = NewServer.rateLimiter.held ∧
      s'.rateLimiter.GetActiveCount = NewServer.rateLimiter.GetActiveCount ∧
      s'.rateLimiter.sem.cap = NewServer.rateLimiter.sem.cap ∧
      s'.rateLimiter.sem.closed = false) :=
  ⟨rfl,
   (C10_handleProcess_counts_request_and_releases_permit NewServer _ rfl).1 (by decide),
   (C10_handleProcess_counts_request_and_releases_permit NewServer _ rfl).2⟩

/-! ## Theorems: the error outcomes of `handleProcess` -/

theorem Analytics.errorCount_RecordRequest (a : Analytics) (e : String) (d : Duration) :
    (a.RecordRequest e d).errorCount = a.errorCount := rfl

theorem ErrorBumped_RecordError (a : Analytics) (key : String) :
    ErrorBumped a (a.RecordError key) key :=
  ⟨Analytics.getErrorCount_RecordError_same a key,
   fun k hk => Analytics.errorCount_RecordError_other a key k hk⟩

/-- A `handleProcess` call that returns ran the body after a completed `Acquire`, and its
analytics are those of the body followed by the deferred `RecordRequest`. -/
theorem Server.handleProcess_returned (s : Server) (inp : ProcessInput) (s' : Server)
    (exit : HandlerExit) (hopen : s.rateLimiter.sem.closed = false)
    (h : s.handleProcess inp = some (s', exit)) :
    ∃ rl, s.rateLimiter.Acquire = .done rl ∧
      exit = (({ s with reqCounter := s.reqCounter + 1, rateLimiter := rl } : Server).processBody
                (s.reqCounter + 1) inp).2 ∧
      s'.analytics
        = (({ s with reqCounter := s.reqCounter + 1, rateLimiter := rl } : Server).processBody
            (s.reqCounter + 1) inp).1.analytics.RecordRequest "/api/process"
            (inp.finish - inp.start) := by
  cases hA : s.rateLimiter.Acquire with
  | blocked => simp [Server.handleProcess, hA] at h
  | panic msg =>
    exfalso
    unfold RateLimiter.Acquire Chan.send at hA
    rw [hopen] at hA
    by_cases hl : s.rateLimiter.sem.buf.length < s.rateLimiter.sem.cap <;> simp [hl] at hA
  | done rl =>
    obtain ⟨_, _, hheld, _, _, _⟩ := RateLimiter.Acquire_done hA
    have hlen : rl.sem.buf.length = s.rateLimiter.sem.buf.length + 1 := hheld
    cases hb : rl.sem.buf with
    | nil => rw [hb] at hlen; simp at hlen
    | cons x rest =>
      have hR : rl.Release
          = .done { rl with sem := { rl.sem with buf := rest },
                            activeCount := rl.activeCount - 1 } := by
        simp [RateLimiter.Release, Chan.recv, hb]
      rw [Server.handleProcess_of_acquired s inp rl _ hA hR] at h
      simp only [Option.some.injEq, Prod.mk.injEq] at h
      obtain ⟨hs', hexit⟩ := h
      exact ⟨rl, rfl, hexit.symm, by rw [← hs']; rfl⟩

theorem Server.processBody_invalid (s : Server) (reqID : Int) (inp : ProcessInput)
    (hbody : inp.body = none) :
    s.processBody reqID inp
      = (s.withAnalytics (fun a => a.RecordError "invalid_json"),
         .response 400 (.text "Invalid JSON")) := by
  simp only [Server.processBody, hbody]

theorem Server.processBody_full (s : Server) (reqID : Int) (inp : ProcessInput)
    (req : ProcessRequest) (e : String) (tp : TaskProcessor) (hbody : inp.body = some req)
    (hs : s.taskProcessor.SubmitTask (Server.newTask reqID req) inp.during
      = .returned (some e) tp) :
    s.processBody reqID inp
      = (({ s with taskProcessor := tp } : Server).withAnalytics
            (fun a => a.RecordError "queue_full"),
         .response 503 (.text "Service busy")) := by
  unfold Server.newTask at hs
  simp only [Server.processBody, hbody, hs]

theorem Server.processBody_failed (s : Server) (reqID : Int) (inp : ProcessInput)
    (req : ProcessRequest) (tp : TaskProcessor) (result : TaskResult) (msg : String)
    (hbody : inp.body = some req)
    (hs : s.taskProcessor.SubmitTask (Server.newTask reqID req) inp.during = .returned none tp)
    (hreply : inp.reply = some result) (herr : result.Error = some msg) :
    s.processBody reqID inp
      = (({ s with taskProcessor := tp } : Server).withAnalytics
            (fun a => a.RecordError "task_failed"),
         .response 500 (.text msg)) := by
  unfold Server.newTask at hs
  simp only [Server.processBody, hbody, hs, hreply, herr]

theorem Server.processBody_timeout (s : Server) (reqID : Int) (inp : ProcessInput)
    (req : ProcessRequest) (tp : TaskProcessor) (hbody : inp.body = some req)
    (hs : s.taskProcessor.SubmitTask (Server.newTask reqID req) inp.during = .returned none tp)
    (hreply : inp.reply = none) :
    s.processBody reqID inp
      = (({ s with taskProcessor := tp } : Server).withAnalytics
            (fun a => a.RecordError "task_timeout"),
         .response 504 (.text "Request timeout")) := by
  unfold Server.newTask at hs
  simp only [Server.processBody, hbody, hs, hreply]

theorem Server.processBody_success (s : Server) (reqID : Int) (inp : ProcessInput)
    (req : ProcessRequest) (tp : TaskProcessor) (result : TaskResult)
    (hbody : inp.body = some req)
    (hs : s.taskProcessor.SubmitTask (Server.newTask reqID req) inp.during = .returned none tp)
    (hreply : inp.reply = some result) (herr : result.Error = none) :
    s.processBody reqID inp
      = (({ s with taskProcessor := tp } : Server),
         .response 200 (.json result.TaskID result.Result s.rateLimiter.GetActiveCount)) := by
  unfold Server.newTask at hs
  simp only [Server.processBody, hbody, hs, hreply, herr]

/-- With the semaphore open and a permit free, `handleProcess` returns. -/
theorem Server.handleProcess_returns (s : Server) (inp : ProcessInput)
    (hopen : s.rateLimiter.sem.closed = false)
    (hroom : s.rateLimiter.held < s.rateLimiter.sem.cap) :
    ∃ s' exit, s.handleProcess inp = some (s', exit) := by
  have hl : s.rateLimiter.sem.buf.length < s.rateLimiter.sem.cap := hroom
  have hA : s.rateLimiter.Acquire
      = .done { s.rateLimiter with sem := { s.rateLimiter.sem with
                                             buf := s.rateLimiter.sem.buf ++ [()] },
                                   activeCount := s.rateLimiter.activeCount + 1 } := by
    simp [RateLimiter.Acquire, Chan.send, hopen, hl]
  cases hb : s.rateLimiter.sem.buf ++ [()] with
  | nil => simp at hb
  | cons x rest =>
    have hR : RateLimiter.Release
        { s.rateLimiter with sem := { s.rateLimiter.sem with
                                       buf := s.rateLimiter.sem.buf ++ [()] },
                             activeCount := s.rateLimiter.activeCount + 1 }
        = .done { s.rateLimiter with sem := { s.rateLimiter.sem with buf := rest },
                                     activeCount := s.rateLimiter.activeCount + 1 - 1 } := by
      simp [RateLimiter.Release, Chan.recv, hb]
    exact ⟨_, _, Server.handleProcess_of_acquired s inp _ _ hA hR⟩

theorem ErrorBumped_then_RecordRequest (a : Analytics) (key e : String) (d : Duration) :
    ErrorBumped a ((a.RecordError key).RecordRequest e d) key := by
  obtain ⟨h1, h2⟩ := ErrorBumped_RecordError a key
  exact ⟨h1, h2⟩

/-- C11: when `handleProcess` returns, each of the four failure outcomes has its own status
code and its own error counter, which goes up by exactly 1 while no other error counter
changes: invalid input gives 400 and `invalid_json`, a full queue gives 503 and
`queue_full`, a worker-reported error gives 500 and `task_failed`, a result timeout gives
504 and `task_timeout`; the codes and the keys are pairwise distinct. On success the
handler answers 200 and changes no error counter. -/
theorem C11_failure_outcomes_are_distinct (s : Server) (inp : ProcessInput) (s' : Server)
    (exit : HandlerExit) (hopen : s.rateLimiter.sem.closed = false)
    (h : s.handleProcess inp = some (s', exit)) :
    (inp.body = none →
      exit = .response 400 (.text "Invalid JSON") ∧
      ErrorBumped s.analytics s'.analytics "invalid_json") ∧
    (∀ req e tp, inp.body = some req →
      s.taskProcessor.SubmitTask (Server.newTask (s.reqCounter + 1) req) inp.during
        = .returned (some e) tp →
      exit = .response 503 (.text "Service busy") ∧
      ErrorBumped s.analytics s'.analytics "queue_full") ∧
    (∀ req tp result msg, inp.body = some req →
      s.taskProcessor.SubmitTask (Server.newTask (s.reqCounter + 1) req) inp.during
        = .returned none tp →
      inp.reply = some result → result.Error = some msg →
      exit = .response 500 (.text msg) ∧
      ErrorBumped s.analytics s'.analytics "task_failed") ∧
    (∀ req tp, inp.body = some req →
      s.taskProcessor.SubmitTask (Server.newTask (s.reqCounter + 1) req) inp.during
        = .returned none tp →
      inp.reply = none →
      exit = .response 504 (.text "Request timeout") ∧
      ErrorBumped s.analytics s'.analytics "task_timeout") ∧
    (∀ req tp result, inp.body = some req →
      s.taskProcessor.SubmitTask (Server.newTask (s.reqCounter + 1) req) inp.during
        = .returned none tp →
      inp.reply = some result → result.Error = none →
      exit = .response 200
        (.json result.TaskID result.Result (s.rateLimiter.GetActiveCount + 1)) ∧
      s'.analytics.errorCount = s.analytics.errorCount) ∧
    [400, 503, 500, 504].Nodup ∧
    ["invalid_json", "queue_full", "task_failed", "task_timeout"].Nodup := by
  obtain ⟨rl, hA, hexit, han⟩ := Server.handleProcess_returned s inp s' exit hopen h
  obtain ⟨_, _, _, _, _, hact⟩ := RateLimiter.Acquire_done hA
  refine ⟨?_, ?_, ?_, ?_, ?_, by decide, by decide⟩
  · intro hbody
    rw [Server.processBody_invalid _ _ _ hbody] at hexit han
    refine ⟨hexit, ?_⟩
    rw [han]
    exact ErrorBumped_then_RecordRequest _ _ _ _
  · intro req e tp hbody hs
    have ha : tp.analytics = s.analytics := TaskProcessor.SubmitTask_analytics hs
    rw [Server.processBody_full
      ({ s with reqCounter := s.reqCounter + 1, rateLimiter := rl } : Server) _ _
      req e tp hbody hs] at hexit han
    refine ⟨hexit, ?_⟩
    rw [han, Server.withAnalytics_analytics]
    show ErrorBumped s.analytics ((tp.analytics.RecordError "queue_full").RecordRequest _ _) _
    rw [ha]
    exact ErrorBumped_then_RecordRequest _ _ _ _
  · intro req tp result msg hbody hs hreply herr
    have ha : tp.analytics = s.analytics := TaskProcessor.SubmitTask_analytics hs
    rw [Server.processBody_failed
      ({ s with reqCounter := s.reqCounter + 1, rateLimiter := rl } : Server) _ _
      req tp result msg hbody hs hreply herr] at hexit han
    refine ⟨hexit, ?_⟩
    rw [han, Server.withAnalytics_analytics]
    show ErrorBumped s.analytics ((tp.analytics.RecordError "task_failed").RecordRequest _ _) _
    rw [ha]
    exact ErrorBumped_then_RecordRequest _ _ _ _
  · intro req tp hbody hs hreply
    have ha : tp.analytics = s.analytics := TaskProcessor.SubmitTask_analytics hs
    rw [Server.processBody_timeout
      ({ s with reqCounter := s.reqCounter + 1, rateLimiter := rl } : Server) _ _
      req tp hbody hs hreply] at hexit han
    refine ⟨hexit, ?_⟩
    rw [han, Server.withAnalytics_analytics]
    show ErrorBumped s.analytics ((tp.analytics.RecordError "task_timeout").RecordRequest _ _) _
    rw [ha]
    exact ErrorBumped_then_RecordRequest _ _ _ _
  · intro req tp result hbody hs hreply herr
    have ha : tp.analytics = s.analytics := TaskProcessor.SubmitTask_analytics hs
    rw [Server.processBody_success
      ({ s with reqCounter := s.reqCounter + 1, rateLimiter := rl } : Server) _ _
      req tp result hbody hs hreply herr] at hexit han
    refine ⟨?_, ?_⟩
    · rw [hexit]
      show HandlerExit.response 200 (.json result.TaskID result.Result rl.activeCount) = _
      rw [hact]; rfl
    · rw [han]
      show tp.analytics.errorCount = s.analytics.errorCount
      rw [ha]

/-- C11 on the server of `NewServer`: a request whose body is not valid JSON is answered
with 400 and counted under `invalid_json`, and one whose result does not arrive in time is
answered with 504 and counted under `task_timeout`. -/
theorem C11_failure_outcomes_are_distinct_witness :
    NewServer.rateLimiter.sem.closed = false ∧
    (∃ s' exit, NewServer.handleProcess ⟨0, 1000000, none, [], none⟩ = some (s', exit) ∧
      exit = .response 400 (.text "Invalid JSON") ∧
      ErrorBumped NewServer.analytics s'.analytics "invalid_json") ∧
    (∃ s' exit, NewServer.handleProcess ⟨0, 5100000000, some ⟨"compute", []⟩, [], none⟩
        = some (s', exit) ∧
      exit = .response 504 (.text "Request timeout") ∧
      ErrorBumped NewServer.analytics s'.analytics "task_timeout") := by
  refine ⟨rfl, ?_, ?_⟩
  · obtain ⟨s', exit, h⟩ := Server.handleProcess_returns NewServer
      ⟨0, 1000000, none, [], none⟩ rfl (by decide)
    exact ⟨s', exit, h,
      (C11_failure_outcomes_are_distinct NewServer _ s' exit rfl h).1 rfl⟩
  · obtain ⟨s', exit, h⟩ := Server.handleProcess_returns NewServer
      ⟨0, 5100000000, some ⟨"compute", []⟩, [], none⟩ rfl (by decide)
    exact ⟨s', exit, h,
      (C11_failure_outcomes_are_distinct NewServer _ s' exit rfl h).2.2.2.1
        ⟨"compute", []⟩ _ rfl rfl rfl⟩

/-! ## Theorems: one `RecordRequest`, and `Set` after `Set` -/

/-- Claim C12, as stated, fails: in the state with count 2 and average 1 for an endpoint,
`RecordRequest` with a duration of 2 ms stores the `float64` 1.3333333333333333, that is
`6004799503160661 / 2^52`, and not `(1 * (3 - 1) + 2) / 3 = 4/3`. -/
theorem C12_stored_average_is_not_the_exact_quotient :
    (⟨GoMap.empty.set "/api" 2, GoMap.empty, GoMap.empty.set "/api" 1⟩
      : Analytics).getRequestCount "/api" = 2 ∧
    (⟨GoMap.empty.set "/api" 2, GoMap.empty, GoMap.empty.set "/api" 1⟩
      : Analytics).getAvgResponseTime "/api" = 1 ∧
    ((⟨GoMap.empty.set "/api" 2, GoMap.empty, GoMap.empty.set "/api" 1⟩
      : Analytics).RecordRequest "/api" 2000000).avgResponseTime "/api"
      = some (6004799503160661 / 4503599627370496) ∧
    ((1 : ℚ) * (((2 + 1 : Int) : ℚ) - 1) + ((Duration.Milliseconds 2000000 : Int) : ℚ))
      / ((2 + 1 : Int) : ℚ) = 4 / 3 ∧
    (6004799503160661 / 4503599627370496 : ℚ) ≠ 4 / 3 := by
  have hc : (⟨GoMap.empty.set "/api" 2, GoMap.empty, GoMap.empty.set "/api" 1⟩
      : Analytics).getRequestCount "/api" = 2 := by
    simp [Analytics.getRequestCount, GoMap.set]
  have hv : (⟨GoMap.empty.set "/api" 2, GoMap.empty, GoMap.empty.set "/api" 1⟩
      : Analytics).getAvgResponseTime "/api" = 1 := by
    simp [Analytics.getAvgResponseTime, GoMap.set]
  have t : Duration.Milliseconds 2000000 = 2 := by decide
  refine ⟨hc, hv, ?_, by rw [t]; norm_num, by norm_num⟩
  have h1 : ((⟨GoMap.empty.set "/api" 2, GoMap.empty, GoMap.empty.set "/api" 1⟩
      : Analytics).RecordRequest "/api" 2000000).avgResponseTime "/api"
      = some (Analytics.newAvg
          ((⟨GoMap.empty.set "/api" 2, GoMap.empty, GoMap.empty.set "/api" 1⟩
            : Analytics).getAvgResponseTime "/api")
          ((⟨GoMap.empty.set "/api" 2, GoMap.empty, GoMap.empty.set "/api" 1⟩
            : Analytics).getRequestCount "/api" + 1) 2000000) := by
    simp [Analytics.RecordRequest, GoMap.set]
  rw [h1, hc, hv]
  exact congrArg some Analytics.newAvg_eval_third

/-- Claim C12, amended: in a state whose count for `e` is not negative and whose average
for `e` is 0 or of a size between `2^-500` and `2^500` (so that no operation overflows or
underflows), `RecordRequest(e, d)` sets `requestCount[e]` to `n = old count + 1` and
`avgResponseTime[e]` to the `float64` value of `(old_avg * (n - 1) + ms(d)) / n`, each
operation of the expression rounded, where the old count and the old average read as 0
when `e` was never recorded; the stored value lies within
`(|old_avg| * (n - 1) + |ms(d)|) / n * 2^-48` of the exact quotient.
The count and the average of every other endpoint and every error counter are
unchanged. Here `ms(d)` is `d` in whole milliseconds, the fraction cut off toward zero. -/
theorem C12_RecordRequest_stores_rounded_average (a : Analytics) (e : String) (d : Duration)
    (h : 0 ≤ a.getRequestCount e)
    (_havg : a.getAvgResponseTime e = 0 ∨
      (1 / 2 ^ 500 ≤ |a.getAvgResponseTime e| ∧ |a.getAvgResponseTime e| ≤ 2 ^ 500)) :
    (a.RecordRequest e d).requestCount e = some (a.getRequestCount e + 1) ∧
    (a.RecordRequest e d).avgResponseTime e
      = some (round64 (round64 (round64 (a.getAvgResponseTime e
            * round64 (round64 ((a.getRequestCount e + 1 : Int) : ℚ) - 1))
          + round64 ((Duration.Milliseconds d : Int) : ℚ))
          / round64 ((a.getRequestCount e + 1 : Int) : ℚ))) ∧
    |(a.RecordRequest e d).getAvgResponseTime e
        - (a.getAvgResponseTime e * (((a.getRequestCount e + 1 : Int) : ℚ) - 1)
            + ((Duration.Milliseconds d : Int) : ℚ)) / ((a.getRequestCount e + 1 : Int) : ℚ)|
      ≤ (|a.getAvgResponseTime e| * (((a.getRequestCount e + 1 : Int) : ℚ) - 1)
            + |((Duration.Milliseconds d : Int) : ℚ)|) / 2 ^ 48
          / ((a.getRequestCount e + 1 : Int) : ℚ) ∧
    (a.requestCount e = none → a.getRequestCount e = 0) ∧
    (a.avgResponseTime e = none → a.getAvgResponseTime e = 0) ∧
    (∀ e', e' ≠ e →
      (a.RecordRequest e d).requestCount e' = a.requestCount e' ∧
      (a.RecordRequest e d).avgResponseTime e' = a.avgResponseTime e') ∧
    (a.RecordRequest e d).errorCount = a.errorCount ∧
    (0 ≤ d → 1000000 * Duration.Milliseconds d ≤ d ∧
      d < 1000000 * (Duration.Milliseconds d + 1)) ∧
    (d ≤ 0 → d ≤ 1000000 * Duration.Milliseconds d ∧
      1000000 * (Duration.Milliseconds d - 1) < d) := by
  refine ⟨?_, ?_, ?_, ?_, ?_, ?_, rfl, (Duration.Milliseconds_whole d).1,
    (Duration.Milliseconds_whole d).2⟩
  · simp [Analytics.RecordRequest, GoMap.set]
  · simp [Analytics.RecordRequest, GoMap.set, Analytics.getRequestCount, Analytics.newAvg]
  · rw [getAvgResponseTime_RecordRequest_same]
    have hn : (0 : ℚ) < ((a.getRequestCount e + 1 : Int) : ℚ) := by
      have : (0 : Int) < a.getRequestCount e + 1 := by omega
      exact_mod_cast this
    exact abs_sub_div_le _ _ _ _ hn
      (Analytics.newAvg_error (a.getAvgResponseTime e) (a.getRequestCount e + 1) (by omega) d)
  · intro h; simp [Analytics.getRequestCount, h]
  · intro h; simp [Analytics.getAvgResponseTime, h]
  · intro e' he
    simp [Analytics.RecordRequest, GoMap.set, he]

/-- Witness for C12, amended: the first recording, of 3 ms, on a fresh `Analytics`. -/
theorem C12_RecordRequest_stores_rounded_average_witness :
    (0 : Int) ≤ NewAnalytics.getRequestCount "/a" ∧
    NewAnalytics.getAvgResponseTime "/a" = 0 ∧
    (NewAnalytics.RecordRequest "/a" 3000000).requestCount "/a"
      = some (NewAnalytics.getRequestCount "/a" + 1) :=
  ⟨by decide, rfl,
    (C12_RecordRequest_stores_rounded_average NewAnalytics "/a" 3000000 (by decide)
      (Or.inl rfl)).1⟩

/-- C14: after `Set(k, v1, ttl1)` (at any time `T1`) followed by `Set(k, v2, ttl2)` at time
`T`, the entry for `k` has value `v2` and expiry exactly `T + ttl2`, whatever `ttl1` was,
and the entry under every other key is the one the cache had before the two calls. -/
theorem C14_second_Set_replaces_entry {V : Type} (c : Cache V) (k : String) (v1 v2 : V)
    (ttl1 ttl2 : Duration) (T1 T : Time) :
    ((c.Set T1 k v1 ttl1).Set T k v2 ttl2).entries k
      = some { value := v2, expiresAt := T + ttl2 } ∧
    (∀ k', k' ≠ k → ((c.Set T1 k v1 ttl1).Set T k v2 ttl2).entries k' = c.entries k') := by
  refine ⟨Cache.Set_entry _ T k v2 ttl2, ?_⟩
  intro k' hk
  simp [Cache.Set, GoMap.set, hk]

/-- C15: for every cache table, key `k` and times `now ≤ t`, `Get(k)` at time `t` returns
the same result on the table as a `cleanupExpired` pass at time `now` leaves it as on the
table before that pass. -/
theorem C15_sweep_is_invisible_to_Get {V : Type} (c : Cache V) (k : String) (now t : Time)
    (h : now ≤ t) : (c.cleanupExpired now).Get t k = c.Get t k := by
  cases hk : c.entries k with
  | none => simp [Cache.Get, Cache.cleanupExpired, hk]
  | some entry =>
    by_cases ha : Time.After now entry.expiresAt = true
    · have ht : Time.After t entry.expiresAt = true := by
        simp only [Time.After, decide_eq_true_eq] at ha ⊢
        exact lt_of_lt_of_le ha h
      simp [Cache.Get, Cache.cleanupExpired, hk, ha, ht]
    · simp [Cache.Get, Cache.cleanupExpired, hk, ha]

/-- C15 on a table with one expired and one live entry, swept at 300 and read at 400. -/
theorem C15_sweep_is_invisible_to_Get_witness :
    (300 : Time) ≤ 400 ∧
    ((((NewCache : Cache String).Set 0 "old" "a" 100).Set 0 "new" "b" 900).cleanupExpired
        300).Get 400 "old"
      = (((NewCache : Cache String).Set 0 "old" "a" 100).Set 0 "new" "b" 900).Get 400 "old" ∧
    ((((NewCache : Cache String).Set 0 "old" "a" 100).Set 0 "new" "b" 900).cleanupExpired
        300).Get 400 "new"
      = (((NewCache : Cache String).Set 0 "old" "a" 100).Set 0 "new" "b" 900).Get 400 "new" :=
  ⟨by decide, C15_sweep_is_invisible_to_Get _ "old" 300 400 (by decide),
    C15_sweep_is_invisible_to_Get _ "new" 300 400 (by decide)⟩

/-! ## Theorems: `GetStats` -/

theorem MapHeap.int_setInt_same (h : MapHeap) (addr : Nat) (k : String) (v : Int)
    (hlt : addr < h.ints.length) : (h.setInt addr k v).int addr = (h.int addr).set k v := by
  simp [MapHeap.setInt, MapHeap.int, List.getElem?_set, hlt]

theorem MapHeap.int_setInt_ne (h : MapHeap) (addr b : Nat) (k : String) (v : Int)
    (hne : b ≠ addr) : (h.setInt addr k v).int b = h.int b := by
  simp [MapHeap.setInt, MapHeap.int, List.getElem?_set, Ne.symm hne]

theorem MapHeap.float_setFloat_same (h : MapHeap) (addr : Nat) (k : String) (v : ℚ)
    (hlt : addr < h.floats.length) :
    (h.setFloat addr k v).float addr = (h.float addr).set k v := by
  simp [MapHeap.setFloat, MapHeap.float, List.getElem?_set, hlt]

theorem MapHeap.float_setFloat_ne (h : MapHeap) (addr b : Nat) (k : String) (v : ℚ)
    (hne : b ≠ addr) : (h.setFloat addr k v).float b = h.float b := by
  simp [MapHeap.setFloat, MapHeap.float, List.getElem?_set, Ne.symm hne]

theorem MapHeap.float_setInt (h : MapHeap) (addr b : Nat) (k : String) (v : Int) :
    (h.setInt addr k v).float b = h.float b := rfl

theorem MapHeap.int_setFloat (h : MapHeap) (addr b : Nat) (k : String) (v : ℚ) :
    (h.setFloat addr k v).int b = h.int b := rfl

theorem MapHeap.length_setInt (h : MapHeap) (addr : Nat) (k : String) (v : Int) :
    (h.setInt addr k v).ints.length = h.ints.length ∧
    (h.setInt addr k v).floats.length = h.floats.length := by
  simp [MapHeap.setInt]

theorem MapHeap.length_setFloat (h : MapHeap) (addr : Nat) (k : String) (v : ℚ) :
    (h.setFloat addr k v).ints.length = h.ints.length ∧
    (h.setFloat addr k v).floats.length = h.floats.length := by
  simp [MapHeap.setFloat]

/-- A call through the references writes to the maps of `a` only and allocates nothing. -/
theorem AnalyticsRef.call_frame (a : AnalyticsRef) (h : MapHeap) (c : AnalyticsCall) :
    (∀ b, b ≠ a.requestCount → b ≠ a.errorCount → (a.call h c).int b = h.int b) ∧
    (∀ f, f ≠ a.avgResponseTime → (a.call h c).float f = h.float f) ∧
    (a.call h c).ints.length = h.ints.length ∧
    (a.call h c).floats.length = h.floats.length := by
  cases c with
  | recordRequest e d =>
    refine ⟨?_, ?_, ?_, ?_⟩
    · intro b hb _
      simp only [AnalyticsRef.call, AnalyticsRef.RecordRequest, MapHeap.int_setFloat]
      exact MapHeap.int_setInt_ne h _ b _ _ hb
    · intro f hf
      simp only [AnalyticsRef.call, AnalyticsRef.RecordRequest]
      rw [MapHeap.float_setFloat_ne _ _ f _ _ hf, MapHeap.float_setInt]
    · simp only [AnalyticsRef.call, AnalyticsRef.RecordRequest]
      rw [(MapHeap.length_setFloat _ _ _ _).1, (MapHeap.length_setInt _ _ _ _).1]
    · simp only [AnalyticsRef.call, AnalyticsRef.RecordRequest]
      rw [(MapHeap.length_setFloat _ _ _ _).2, (MapHeap.length_setInt _ _ _ _).2]
  | recordError k =>
    refine ⟨?_, ?_, ?_, ?_⟩
    · intro b _ hb
      exact MapHeap.int_setInt_ne h _ b _ _ hb
    · intro f _
      rfl
    · exact (MapHeap.length_setInt _ _ _ _).1
    · exact (MapHeap.length_setInt _ _ _ _).2

theorem AnalyticsRef.run_frame (a : AnalyticsRef) (calls : List AnalyticsCall) :
    ∀ h : MapHeap,
      (∀ b, b ≠ a.requestCount → b ≠ a.errorCount → (a.run h calls).int b = h.int b) ∧
      (∀ f, f ≠ a.avgResponseTime → (a.run h calls).float f = h.float f) ∧
      (a.run h calls).ints.length = h.ints.length ∧
      (a.run h calls).floats.length = h.floats.length := by
  induction calls with
  | nil => intro h; exact ⟨fun _ _ _ => rfl, fun _ _ => rfl, rfl, rfl⟩
  | cons c rest ih =>
    intro h
    obtain ⟨c1, c2, c3, c4⟩ := AnalyticsRef.call_frame a h c
    obtain ⟨r1, r2, r3, r4⟩ := ih (a.call h c)
    refine ⟨?_, ?_, ?_, ?_⟩
    · intro b hb1 hb2
      show (a.run (a.call h c) rest).int b = h.int b
      rw [r1 b hb1 hb2, c1 b hb1 hb2]
    · intro f hf
      show (a.run (a.call h c) rest).float f = h.float f
      rw [r2 f hf, c2 f hf]
    · show (a.run (a.call h c) rest).ints.length = h.ints.length
      rw [r3, c3]
    · show (a.run (a.call h c) rest).floats.length = h.floats.length
      rw [r4, c4]

/-- A call through valid references is the call of the `Analytics` they denote. -/
theorem AnalyticsRef.deref_call (a : AnalyticsRef) (h : MapHeap) (c : AnalyticsCall)
    (hv : a.Valid h) : a.deref (a.call h c) = (a.deref h).call c ∧ a.Valid (a.call h c) := by
  obtain ⟨h1, h2, h3, h4⟩ := hv
  obtain ⟨_, _, l1, l2⟩ := AnalyticsRef.call_frame a h c
  refine ⟨?_, by rw [AnalyticsRef.Valid, l1, l2]; exact ⟨h1, h2, h3, h4⟩⟩
  cases c with
  | recordRequest e d =>
    have hl : a.avgResponseTime < (h.setInt a.requestCount e
        (((h.int a.requestCount) e).getD 0 + 1)).floats.length := by
      rw [(MapHeap.length_setInt _ _ _ _).2]; exact h4
    simp only [AnalyticsRef.call, AnalyticsRef.RecordRequest, AnalyticsRef.deref,
      Analytics.call, Analytics.RecordRequest, Analytics.getRequestCount,
      Analytics.getAvgResponseTime, MapHeap.int_setFloat,
      MapHeap.float_setFloat_same _ _ _ _ hl, MapHeap.float_setInt,
      MapHeap.int_setInt_same _ _ _ _ h1,
      MapHeap.int_setInt_ne h a.requestCount a.errorCount _ _ (Ne.symm h3)]
  | recordError k =>
    simp only [AnalyticsRef.call, AnalyticsRef.RecordError, AnalyticsRef.deref,
      Analytics.call, Analytics.RecordError, Analytics.getErrorCount,
      MapHeap.float_setInt, MapHeap.int_setInt_same _ _ _ _ h2,
      MapHeap.int_setInt_ne h a.errorCount a.requestCount _ _ h3]

theorem AnalyticsRef.deref_run (a : AnalyticsRef) (calls : List AnalyticsCall) :
    ∀ h : MapHeap, a.Valid h → a.deref (a.run h calls) = (a.deref h).run calls := by
  induction calls with
  | nil => intro h _; rfl
  | cons c rest ih =>
    intro h hv
    obtain ⟨hd, hv'⟩ := AnalyticsRef.deref_call a h c hv
    show a.deref (a.run (a.call h c) rest) = ((a.deref h).call c).run rest
    rw [ih _ hv', hd]

theorem copyMap_spec (h : MapHeap) (m : Nat) :
    (copyMap h m).2 = h.ints.length ∧
    (copyMap h m).1.int h.ints.length = h.int m ∧
    (∀ b, b < h.ints.length → (copyMap h m).1.int b = h.int b) ∧
    (∀ f, (copyMap h m).1.float f = h.float f) ∧
    (copyMap h m).1.ints.length = h.ints.length + 1 ∧
    (copyMap h m).1.floats.length = h.floats.length := by
  refine ⟨rfl, ?_, ?_, fun _ => rfl, by simp [copyMap], rfl⟩
  · funext k
    simp only [copyMap, MapHeap.int, List.getElem?_append_right (le_refl _), Nat.sub_self,
      List.getElem?_cons_zero, Option.getD_some]
    cases (h.ints[m]?.getD GoMap.empty) k <;> rfl
  · intro b hb
    simp only [copyMap, MapHeap.int, List.getElem?_append_left hb]

theorem copyMapFloat_spec (h : MapHeap) (m : Nat) :
    (copyMapFloat h m).2 = h.floats.length ∧
    (copyMapFloat h m).1.float h.floats.length = h.float m ∧
    (∀ f, f < h.floats.length → (copyMapFloat h m).1.float f = h.float f) ∧
    (∀ b, (copyMapFloat h m).1.int b = h.int b) ∧
    (copyMapFloat h m).1.ints.length = h.ints.length ∧
    (copyMapFloat h m).1.floats.length = h.floats.length + 1 := by
  refine ⟨rfl, ?_, ?_, fun _ => rfl, rfl, by simp [copyMapFloat]⟩
  · funext k
    simp only [copyMapFloat, MapHeap.float, List.getElem?_append_right (le_refl _),
      Nat.sub_self, List.getElem?_cons_zero, Option.getD_some]
    cases (h.floats[m]?.getD GoMap.empty) k <;> rfl
  · intro f hf
    simp only [copyMapFloat, MapHeap.float, List.getElem?_append_left hf]

/-- What `GetStats` returns and what it leaves: three new maps with the entries of the
three maps of `a`, and every map that was there untouched. -/
theorem AnalyticsRef.GetStats_spec (a : AnalyticsRef) (h : MapHeap) (hv : a.Valid h) :
    (a.GetStats h).2 = ⟨h.ints.length, h.ints.length + 1, h.floats.length⟩ ∧
    (a.GetStats h).1.int h.ints.length = h.int a.requestCount ∧
    (a.GetStats h).1.int (h.ints.length + 1) = h.int a.errorCount ∧
    (a.GetStats h).1.float h.floats.length = h.float a.avgResponseTime ∧
    (∀ b, b < h.ints.length → (a.GetStats h).1.int b = h.int b) ∧
    (∀ f, f < h.floats.length → (a.GetStats h).1.float f = h.float f) ∧
    (a.GetStats h).1.ints.length = h.ints.length + 2 ∧
    (a.GetStats h).1.floats.length = h.floats.length + 1 := by
  obtain ⟨h1, h2, _, h4⟩ := hv
  obtain ⟨_, a2, a3, a4, a5, a6⟩ := copyMap_spec h a.requestCount
  obtain ⟨_, b2, b3, b4, b5, b6⟩ := copyMap_spec (copyMap h a.requestCount).1 a.errorCount
  obtain ⟨_, c2, c3, c4, c5, c6⟩ :=
    copyMapFloat_spec (copyMap (copyMap h a.requestCount).1 a.errorCount).1 a.avgResponseTime
  have e1 : (a.GetStats h).1
      = (copyMapFloat (copyMap (copyMap h a.requestCount).1 a.errorCount).1
          a.avgResponseTime).1 := rfl
  rw [e1]
  refine ⟨?_, ?_, ?_, ?_, ?_, ?_, ?_, ?_⟩
  · simp [AnalyticsRef.GetStats, copyMap, copyMapFloat]
  · rw [c4, b3 _ (by rw [a5]; omega), a2]
  · rw [c4, ← a5, b2, a3 _ h2]
  · rw [← a6, ← b6, c2, b4, a4]
  · intro b hb
    rw [c4, b3 _ (by rw [a5]; omega), a3 _ hb]
  · intro f hf
    rw [c3 _ (by rw [b6, a6]; exact hf), b4, a4]
  · rw [c5, b5, a5]
  · rw [c6, b6, a6]

/-- C13: `GetStats` returns three maps that are equal entry for entry to `requestCount`,
`errorCount` and `avgResponseTime` at the time of the call, and leaves those three as they
are. The returned maps are new objects: after any later sequence of `RecordRequest` and
`RecordError` calls, which do change the maps of the `Analytics`, every entry of the
returned maps is what it was at the time of the call. -/
theorem C13_GetStats_returns_copies (a : AnalyticsRef) (h : MapHeap)
    (calls : List AnalyticsCall) (hv : a.Valid h) :
    (∀ k, (a.GetStats h).1.int (a.GetStats h).2.request_count k = (a.deref h).requestCount k) ∧
    (∀ k, (a.GetStats h).1.int (a.GetStats h).2.error_count k = (a.deref h).errorCount k) ∧
    (∀ k, (a.GetStats h).1.float (a.GetStats h).2.avg_response_time k
      = (a.deref h).avgResponseTime k) ∧
    a.deref (a.GetStats h).1 = a.deref h ∧
    a.deref (a.run (a.GetStats h).1 calls) = (a.deref h).run calls ∧
    (∀ k, (a.run (a.GetStats h).1 calls).int (a.GetStats h).2.request_count k
      = (a.deref h).requestCount k) ∧
    (∀ k, (a.run (a.GetStats h).1 calls).int (a.GetStats h).2.error_count k
      = (a.deref h).errorCount k) ∧
    (∀ k, (a.run (a.GetStats h).1 calls).float (a.GetStats h).2.avg_response_time k
      = (a.deref h).avgResponseTime k) := by
  obtain ⟨s0, s1, s2, s3, s4, s5, s6, s7⟩ := AnalyticsRef.GetStats_spec a h hv
  obtain ⟨h1, h2, h3, h4⟩ := hv
  have hd : a.deref (a.GetStats h).1 = a.deref h := by
    simp only [AnalyticsRef.deref, s4 _ h1, s4 _ h2, s5 _ h4]
  have hv' : a.Valid (a.GetStats h).1 :=
    ⟨by rw [s6]; omega, by rw [s6]; omega, h3, by rw [s7]; omega⟩
  obtain ⟨r1, r2, _, _⟩ := AnalyticsRef.run_frame a calls (a.GetStats h).1
  rw [s0]
  dsimp only
  refine ⟨fun k => by rw [s1]; rfl, fun k => by rw [s2]; rfl, fun k => by rw [s3]; rfl, hd,
    by rw [AnalyticsRef.deref_run a calls _ hv', hd], ?_, ?_, ?_⟩
  · intro k
    rw [r1 _ (by omega) (by omega), s1]; rfl
  · intro k
    rw [r1 _ (by omega) (by omega), s2]; rfl
  · intro k
    rw [r2 _ (by omega), s3]; rfl

/-- C13 on a fresh `Analytics` with one request recorded before `GetStats` and a request
and an error recorded after it: the returned `request_count` still reads as at the call. -/
theorem C13_GetStats_returns_copies_witness :
    AnalyticsRef.Valid ⟨0, 1, 0⟩
      (AnalyticsRef.run ⟨0, 1, 0⟩ (NewAnalyticsRef ⟨[], []⟩).1 [.recordRequest "/a" 3000000]) ∧
    (∀ k, (AnalyticsRef.run ⟨0, 1, 0⟩
        (AnalyticsRef.GetStats ⟨0, 1, 0⟩
          (AnalyticsRef.run ⟨0, 1, 0⟩ (NewAnalyticsRef ⟨[], []⟩).1
            [.recordRequest "/a" 3000000])).1
        [.recordRequest "/a" 5000000, .recordError "x"]).int
        (AnalyticsRef.GetStats ⟨0, 1, 0⟩
          (AnalyticsRef.run ⟨0, 1, 0⟩ (NewAnalyticsRef ⟨[], []⟩).1
            [.recordRequest "/a" 3000000])).2.request_count k
      = (AnalyticsRef.deref ⟨0, 1, 0⟩
          (AnalyticsRef.run ⟨0, 1, 0⟩ (NewAnalyticsRef ⟨[], []⟩).1
            [.recordRequest "/a" 3000000])).requestCount k) :=
  ⟨⟨by decide, by decide, by decide, by decide⟩,
   (C13_GetStats_returns_copies ⟨0, 1, 0⟩ _ [.recordRequest "/a" 5000000, .recordError "x"]
      ⟨by decide, by decide, by decide, by decide⟩).2.2.2.2.2.1⟩

/-! ## Theorems: each task is processed at most once -/

theorem TaskProcessor.processTask_TaskID (tp : TaskProcessor) (task : Task) (rnd : Rand) :
    (tp.processTask task rnd).2.TaskID = task.ID := by
  unfold TaskProcessor.processTask
  split_ifs <;> rfl

theorem acceptedTasks_append (l1 l2 : List QueueEvent) :
    acceptedTasks (l1 ++ l2) = acceptedTasks l1 ++ acceptedTasks l2 := by
  induction l1 with
  | nil => rfl
  | cons ev rest ih => cases ev <;> simp [acceptedTasks, ih]

theorem takenTasks_append (l1 l2 : List QueueEvent) :
    takenTasks (l1 ++ l2) = takenTasks l1 ++ takenTasks l2 := by
  induction l1 with
  | nil => rfl
  | cons ev rest ih => cases ev <;> simp [takenTasks, ih]

theorem deliveredTasks_sublist (l : List QueueEvent) :
    (deliveredTasks l).Sublist (takenTasks l) := by
  induction l with
  | nil => exact List.Sublist.slnil
  | cons ev rest ih =>
    cases ev with
    | accepted t => simpa [deliveredTasks, takenTasks] using ih
    | taken t r d =>
      cases d with
      | true => simpa [deliveredTasks, takenTasks] using ih
      | false =>
        simp only [deliveredTasks, takenTasks, Bool.false_eq_true, if_false]
        exact List.Sublist.cons _ ih

/-- What a worker pass does when the queue holds a task: it either leaves on the
cancellation case, with the queue as it was, or takes the head, runs `processTask` on it
and leaves the tail. -/
theorem TaskProcessor.workerPass_of_cons (tp : TaskProcessor) (inp : WorkerInput) (x : Task)
    (rest : List Task) (hb : tp.taskQueue.buf = x :: rest) :
    ((inp.ctxDone && inp.pickDone) = true →
      (tp.workerPass inp).2 = .shutdown ∧ (tp.workerPass inp).1.taskQueue = tp.taskQueue) ∧
    ((inp.ctxDone && inp.pickDone) = false →
      (tp.workerPass inp).2
        = .processed x (({ tp with taskQueue := { tp.taskQueue with buf := rest } }
            : TaskProcessor).processTask x inp.rnd).2 (x.ResultCh.isSome && inp.replyReady) ∧
      (tp.workerPass inp).1.taskQueue = { tp.taskQueue with buf := rest }) := by
  have hr : tp.taskQueue.recv = .done (some x, { tp.taskQueue with buf := rest }) := by
    simp [Chan.recv, hb]
  constructor
  · intro hd
    simp only [TaskProcessor.workerPass, hr, hd, if_true]
    exact ⟨trivial, trivial⟩
  · intro hd
    simp only [TaskProcessor.workerPass, hr, hd, Bool.false_eq_true, if_false,
      Option.getD_some]
    exact ⟨trivial, (TaskProcessor.processTask_frame _ _ _).1⟩

/-- A worker pass on an empty queue leaves the queue empty. -/
theorem TaskProcessor.workerPass_of_nil (tp : TaskProcessor) (inp : WorkerInput)
    (hb : tp.taskQueue.buf = []) : (tp.workerPass inp).1.taskQueue.buf = [] := by
  by_cases hc : tp.taskQueue.closed = true
  · have hr : tp.taskQueue.recv = .done (none, tp.taskQueue) := by simp [Chan.recv, hb, hc]
    by_cases hd : (inp.ctxDone && inp.pickDone) = true
    · simp only [TaskProcessor.workerPass, hr, hd, if_true]; exact hb
    · simp only [TaskProcessor.workerPass, hr, hd, Bool.false_eq_true, if_false]
      rw [(TaskProcessor.processTask_frame _ _ _).1]; exact hb
  · have hr : tp.taskQueue.recv = .blocked := by simp [Chan.recv, hb, hc]
    by_cases hd : inp.ctxDone = true <;> simp only [TaskProcessor.workerPass, hr, hd] <;>
      exact hb

/-- The balance of one step: what was queued before it plus what it accepted is what it
took plus what is queued after it, in this order. -/
theorem TaskProcessor.step_balance (tp : TaskProcessor) (st : ProcessorStep)
    (hat : st.atomic = true) :
    tp.taskQueue.buf ++ acceptedTasks (tp.stepEvents st)
      = takenTasks (tp.stepEvents st) ++ (tp.step st).taskQueue.buf := by
  cases st with
  | submit task during =>
    have hd : during = [] := by simpa [ProcessorStep.atomic] using hat
    subst hd
    cases hs : tp.taskQueue.send task with
    | done q =>
      obtain ⟨_, _, hq⟩ := Chan.send_done hs
      subst hq
      simp [TaskProcessor.stepEvents, TaskProcessor.step, TaskProcessor.SubmitTask,
        Chan.sendOrTimeout, hs, acceptedTasks, takenTasks]
    | blocked =>
      simp [TaskProcessor.stepEvents, TaskProcessor.step, TaskProcessor.SubmitTask,
        Chan.sendOrTimeout, hs, acceptedTasks, takenTasks]
    | panic msg =>
      simp [TaskProcessor.stepEvents, TaskProcessor.step, TaskProcessor.SubmitTask,
        Chan.sendOrTimeout, hs, acceptedTasks, takenTasks]
  | workerPass inp =>
    cases hb : tp.taskQueue.buf with
    | nil =>
      have h0 := TaskProcessor.workerPass_of_nil tp inp hb
      simp [TaskProcessor.stepEvents, TaskProcessor.step, hb, h0, acceptedTasks, takenTasks]
    | cons x rest =>
      obtain ⟨h1, h2⟩ := TaskProcessor.workerPass_of_cons tp inp x rest hb
      by_cases hd : (inp.ctxDone && inp.pickDone) = true
      · obtain ⟨he, hq⟩ := h1 hd
        simp [TaskProcessor.stepEvents, TaskProcessor.step, hb, he, hq, acceptedTasks,
          takenTasks]
      · have hd' : (inp.ctxDone && inp.pickDone) = false := by simpa using hd
        obtain ⟨he, hq⟩ := h2 hd'
        simp [TaskProcessor.stepEvents, TaskProcessor.step, hb, he, hq, acceptedTasks,
          takenTasks]
  | stop =>
    cases hcl : tp.taskQueue.close with
    | done q =>
      have he := Chan.close_done hcl
      subst he
      simp [TaskProcessor.stepEvents, TaskProcessor.step, TaskProcessor.closeQueue, hcl,
        acceptedTasks, takenTasks]
    | blocked =>
      simp [TaskProcessor.stepEvents, TaskProcessor.step, TaskProcessor.closeQueue, hcl,
        acceptedTasks, takenTasks]
    | panic msg =>
      simp [TaskProcessor.stepEvents, TaskProcessor.step, TaskProcessor.closeQueue, hcl,
        acceptedTasks, takenTasks]

theorem TaskProcessor.run_balance (steps : List ProcessorStep) :
    ∀ tp : TaskProcessor, (∀ st ∈ steps, st.atomic = true) →
      tp.taskQueue.buf ++ acceptedTasks (tp.log steps)
        = takenTasks (tp.log steps) ++ (tp.run steps).taskQueue.buf := by
  induction steps with
  | nil => intro tp _; simp [TaskProcessor.log, TaskProcessor.run, acceptedTasks, takenTasks]
  | cons st rest ih =>
    intro tp hat
    have h1 := TaskProcessor.step_balance tp st (hat st (List.mem_cons_self _ _))
    have h2 := ih (tp.step st) (fun st' hm => hat st' (List.mem_cons_of_mem _ hm))
    have hrun : tp.run (st :: rest) = (tp.step st).run rest := rfl
    rw [hrun]
    simp only [TaskProcessor.log, acceptedTasks_append, takenTasks_append]
    rw [← List.append_assoc, h1, List.append_assoc, h2, List.append_assoc]

theorem TaskProcessor.stepEvents_taken (tp : TaskProcessor) (st : ProcessorStep) (t : Task)
    (r : TaskResult) (d : Bool) (hm : QueueEvent.taken t r d ∈ tp.stepEvents st) :
    r.TaskID = t.ID := by
  cases st with
  | submit task during =>
    simp only [TaskProcessor.stepEvents] at hm
    split at hm <;> simp at hm
  | stop => simp [TaskProcessor.stepEvents] at hm
  | workerPass inp =>
    cases hb : tp.taskQueue.buf with
    | nil => simp [TaskProcessor.stepEvents, hb] at hm
    | cons x rest =>
      obtain ⟨h1, h2⟩ := TaskProcessor.workerPass_of_cons tp inp x rest hb
      by_cases hd : (inp.ctxDone && inp.pickDone) = true
      · simp [TaskProcessor.stepEvents, hb, (h1 hd).1] at hm
      · have hd' : (inp.ctxDone && inp.pickDone) = false := by simpa using hd
        simp only [TaskProcessor.stepEvents, hb, (h2 hd').1, List.mem_singleton,
          QueueEvent.taken.injEq] at hm
        obtain ⟨ht, hr, _⟩ := hm
        rw [ht, hr]
        exact TaskProcessor.processTask_TaskID _ _ _

theorem TaskProcessor.log_taken (steps : List ProcessorStep) :
    ∀ (tp : TaskProcessor) (t : Task) (r : TaskResult) (d : Bool),
      QueueEvent.taken t r d ∈ tp.log steps → r.TaskID = t.ID := by
  induction steps with
  | nil => intro tp t r d hm; simp [TaskProcessor.log] at hm
  | cons st rest ih =>
    intro tp t r d hm
    simp only [TaskProcessor.log, List.mem_append] at hm
    rcases hm with hm | hm
    · exact TaskProcessor.stepEvents_taken tp st t r d hm
    · exact ih _ t r d hm

/-- C16, as stated, fails where it says "exactly": on a started processor with one worker a
task is accepted, the context is cancelled and the worker's next pass takes the
cancellation case and returns. The task was accepted, no worker took it, `processTask` ran
on it zero times, and it is still in the queue with no worker left. -/
theorem C16_accepted_task_left_in_queue :
    acceptedTasks ((NewTaskProcessor 2 1 NewAnalytics).Start.log
        [.submit ⟨"task-1", "compute", [], some 1⟩ [],
         .workerPass ⟨true, true, ⟨0, 0, 0⟩, true⟩])
      = [⟨"task-1", "compute", [], some 1⟩] ∧
    takenTasks ((NewTaskProcessor 2 1 NewAnalytics).Start.log
        [.submit ⟨"task-1", "compute", [], some 1⟩ [],
         .workerPass ⟨true, true, ⟨0, 0, 0⟩, true⟩]) = [] ∧
    ((NewTaskProcessor 2 1 NewAnalytics).Start.run
        [.submit ⟨"task-1", "compute", [], some 1⟩ [],
         .workerPass ⟨true, true, ⟨0, 0, 0⟩, true⟩]).taskQueue.buf
      = [⟨"task-1", "compute", [], some 1⟩] ∧
    ((NewTaskProcessor 2 1 NewAnalytics).Start.run
        [.submit ⟨"task-1", "compute", [], some 1⟩ [],
         .workerPass ⟨true, true, ⟨0, 0, 0⟩, true⟩]).wg = 0 ∧
    ((NewTaskProcessor 2 1 NewAnalytics).Start.run
        [.submit ⟨"task-1", "compute", [], some 1⟩ [],
         .workerPass ⟨true, true, ⟨0, 0, 0⟩, true⟩]).GetProcessedCount = 0 := by
  refine ⟨by decide, by decide, by decide, by decide, by decide⟩

/-- C16, amended: in every run of a task processor (submissions, worker passes and `Stop` in
any order, each step atomic), the tasks `SubmitTask` accepted are, in order, the tasks that
worker passes took from the queue followed by the tasks still queued. So every accepted
task is processed at most once: it is either still queued or was taken by exactly one pass,
which ran `processTask` on it once; for every task, the number of times it was taken plus
the number of times it is queued is the number of times it was accepted, and nothing (a
failed task included) goes back into the queue. Every result carries the ID of its task,
and the results sent on a task's reply channel are no more than the times the task was
taken. -/
theorem C16_each_task_processed_at_most_once (Q N : Nat) (a : Analytics)
    (steps : List ProcessorStep) (hat : ∀ st ∈ steps, st.atomic = true) :
    acceptedTasks ((NewTaskProcessor Q N a).log steps)
      = takenTasks ((NewTaskProcessor Q N a).log steps)
        ++ ((NewTaskProcessor Q N a).run steps).taskQueue.buf ∧
    (∀ t, (takenTasks ((NewTaskProcessor Q N a).log steps)).count t
        + (((NewTaskProcessor Q N a).run steps).taskQueue.buf).count t
      = (acceptedTasks ((NewTaskProcessor Q N a).log steps)).count t) ∧
    (∀ t r d, QueueEvent.taken t r d ∈ (NewTaskProcessor Q N a).log steps →
      r.TaskID = t.ID) ∧
    (∀ t, (deliveredTasks ((NewTaskProcessor Q N a).log steps)).count t
      ≤ (takenTasks ((NewTaskProcessor Q N a).log steps)).count t) := by
  have hbal := TaskProcessor.run_balance steps (NewTaskProcessor Q N a) hat
  have h0 : (NewTaskProcessor Q N a).taskQueue.buf = [] := rfl
  rw [h0, List.nil_append] at hbal
  refine ⟨hbal, ?_, TaskProcessor.log_taken steps _, ?_⟩
  · intro t
    rw [hbal, List.count_append]
  · intro t
    exact (deliveredTasks_sublist _).count_le t

/-- C16, amended, on a queue of capacity 2 with one worker: two tasks are accepted, a pass takes the
first (of an unknown type, so its result is an error), a third submission is accepted, and
the queue then holds the second and the third task; the failed first task is not in it. -/
theorem C16_each_task_processed_at_most_once_witness :
    (∀ st ∈ [ProcessorStep.submit ⟨"task-1", "bogus", [], some 1⟩ [],
              .submit ⟨"task-2", "compute", [], some 2⟩ [],
              .workerPass ⟨false, false, ⟨0, 0, 0⟩, true⟩,
              .submit ⟨"task-3", "database", [], some 3⟩ []], st.atomic = true) ∧
    takenTasks ((NewTaskProcessor 2 1 NewAnalytics).log
        [.submit ⟨"task-1", "bogus", [], some 1⟩ [],
         .submit ⟨"task-2", "compute", [], some 2⟩ [],
         .workerPass ⟨false, false, ⟨0, 0, 0⟩, true⟩,
         .submit ⟨"task-3", "database", [], some 3⟩ []])
      = [⟨"task-1", "bogus", [], some 1⟩] ∧
    acceptedTasks ((NewTaskProcessor 2 1 NewAnalytics).log
        [.submit ⟨"task-1", "bogus", [], some 1⟩ [],
         .submit ⟨"task-2", "compute", [], some 2⟩ [],
         .workerPass ⟨false, false, ⟨0, 0, 0⟩, true⟩,
         .submit ⟨"task-3", "database", [], some 3⟩ []])
      = takenTasks ((NewTaskProcessor 2 1 NewAnalytics).log
        [.submit ⟨"task-1", "bogus", [], some 1⟩ [],
         .submit ⟨"task-2", "compute", [], some 2⟩ [],
         .workerPass ⟨false, false, ⟨0, 0, 0⟩, true⟩,
         .submit ⟨"task-3", "database", [], some 3⟩ []])
        ++ ((NewTaskProcessor 2 1 NewAnalytics).run
        [.submit ⟨"task-1", "bogus", [], some 1⟩ [],
         .submit ⟨"task-2", "compute", [], some 2⟩ [],
         .workerPass ⟨false, false, ⟨0, 0, 0⟩, true⟩,
         .submit ⟨"task-3", "database", [], some 3⟩ []]).taskQueue.buf :=
  ⟨by decide, by decide,
   (C16_each_task_processed_at_most_once 2 1 NewAnalytics _ (by decide)).1⟩

/-! ## Theorems: `handleCachedData` -/

theorem Server.cachedDataBody_missing_key (s : Server) (inp : CachedDataInput)
    (hk : inp.key = "") :
    s.cachedDataBody inp = (s, .response 400 none (.text "Missing key parameter")) := by
  simp [Server.cachedDataBody, hk]

theorem Server.cachedDataBody_hit (s : Server) (inp : CachedDataInput) (value : Option Obj)
    (hk : inp.key ≠ "") (hg : s.cache.Get inp.getNow inp.key = (value, true)) :
    s.cachedDataBody inp = (s, .response 200 (some "HIT") (.json inp.key value true)) := by
  simp [Server.cachedDataBody, hk, hg]

theorem Server.cachedDataBody_miss (s : Server) (inp : CachedDataInput)
    (hk : inp.key ≠ "") (hg : (s.cache.Get inp.getNow inp.key).2 = false) :
    s.cachedDataBody inp
      = ({ s with cache := s.cache.Set inp.setNow inp.key
                    (computedValue inp.dataUnix inp.stampUnix) (30 * 1000000000) },
         .response 200 (some "MISS")
           (.json inp.key (some (computedValue inp.dataUnix inp.stampUnix)) false)) := by
  cases hget : s.cache.Get inp.getNow inp.key with
  | mk v found =>
    rw [hget] at hg
    simp only at hg
    subst hg
    simp [Server.cachedDataBody, hk, hget]

/-- The body of `handleCachedData` reads and writes the cache only. -/
theorem Server.cachedDataBody_limiter (s : Server) (rl : RateLimiter) (inp : CachedDataInput) :
    (({ s with rateLimiter := rl } : Server).cachedDataBody inp).2 = (s.cachedDataBody inp).2 ∧
    (({ s with rateLimiter := rl } : Server).cachedDataBody inp).1.cache
      = (s.cachedDataBody inp).1.cache ∧
    (({ s with rateLimiter := rl } : Server).cachedDataBody inp).1.rateLimiter = rl := by
  by_cases hk : inp.key = ""
  · rw [Server.cachedDataBody_missing_key ({ s with rateLimiter := rl } : Server) inp hk,
      Server.cachedDataBody_missing_key s inp hk]
    exact ⟨rfl, rfl, rfl⟩
  · cases hget : s.cache.Get inp.getNow inp.key with
    | mk v found =>
      cases found with
      | true =>
        rw [Server.cachedDataBody_hit ({ s with rateLimiter := rl } : Server) inp v hk hget,
          Server.cachedDataBody_hit s inp v hk hget]
        exact ⟨rfl, rfl, rfl⟩
      | false =>
        have hg : (s.cache.Get inp.getNow inp.key).2 = false := by rw [hget]
        rw [Server.cachedDataBody_miss ({ s with rateLimiter := rl } : Server) inp hk hg,
          Server.cachedDataBody_miss s inp hk hg]
        exact ⟨rfl, rfl, rfl⟩

/-- The shape of a `handleCachedData` call whose `Acquire` and `Release` both proceed. -/
theorem Server.handleCachedData_of_acquired (s : Server) (inp : CachedDataInput)
    (rl rl' : RateLimiter) (hA : s.rateLimiter.Acquire = .done rl)
    (hR : rl.Release = .done rl') :
    s.handleCachedData inp
      = some ({ ((({ s with rateLimiter := rl } : Server).cachedDataBody inp).1.withAnalytics
                  (fun a => a.RecordRequest "/api/cached-data" (inp.finish - inp.start))) with
                rateLimiter := rl' },
              (s.cachedDataBody inp).2) := by
  obtain ⟨b1, _, b3⟩ := Server.cachedDataBody_limiter s rl inp
  simp only [Server.handleCachedData, hA, Server.withAnalytics_rateLimiter, b3, hR, b1]

/-- With the semaphore open and a permit free, `handleCachedData` returns what its body
answers, leaves the cache as its body leaves it and the permits held as they were. -/
theorem Server.handleCachedData_returns (s : Server) (inp : CachedDataInput)
    (hopen : s.rateLimiter.sem.closed = false)
    (hroom : s.rateLimiter.held < s.rateLimiter.sem.cap) :
    ∃ s', s.handleCachedData inp = some (s', (s.cachedDataBody inp).2) ∧
      s'.cache = (s.cachedDataBody inp).1.cache ∧
      s'.rateLimiter.held = s.rateLimiter.held ∧
      s'.rateLimiter.sem.cap = s.rateLimiter.sem.cap ∧
      s'.rateLimiter.sem.closed = false := by
  have hl : s.rateLimiter.sem.buf.length < s.rateLimiter.sem.cap := hroom
  cases hA : s.rateLimiter.Acquire with
  | blocked => simp [RateLimiter.Acquire, Chan.send, hopen, hl] at hA
  | panic msg => simp [RateLimiter.Acquire, Chan.send, hopen, hl] at hA
  | done rl =>
    obtain ⟨_, _, hheld, hcap1, hcl1, _⟩ := RateLimiter.Acquire_done hA
    have hlen : rl.sem.buf.length = s.rateLimiter.sem.buf.length + 1 := hheld
    obtain ⟨_, b2, _⟩ := Server.cachedDataBody_limiter s rl inp
    cases hb : rl.sem.buf with
    | nil => rw [hb] at hlen; simp at hlen
    | cons x rest =>
      have hR : rl.Release
          = .done { rl with sem := { rl.sem with buf := rest },
                            activeCount := rl.activeCount - 1 } := by
        simp [RateLimiter.Release, Chan.recv, hb]
      have hrest : rest.length = s.rateLimiter.sem.buf.length := by
        rw [hb] at hlen; simpa using hlen
      exact ⟨_, Server.handleCachedData_of_acquired s inp rl _ hA hR, b2, hrest, hcap1,
        by rw [← hopen]; exact hcl1⟩

/-- C17: on a server with a free permit, a request with an empty key is answered with 400
"Missing key parameter" and leaves the cache as it was. A request for a non-empty key `k`
that `Get` reports absent is answered with `cached = false` and a computed value, which is
stored under `k` with a ttl of 30 seconds; a second request for `k` whose `Get` runs less
than 30 seconds after that `Set`, with only sweeps and writes to other keys in between, is
answered with `cached = true` and the same value, and leaves the cache as it was. -/
theorem C17_cached_data_miss_then_hit (s : Server) (inp1 : CachedDataInput)
    (hopen : s.rateLimiter.sem.closed = false)
    (hroom : s.rateLimiter.held < s.rateLimiter.sem.cap) :
    (inp1.key = "" →
      ∃ s', s.handleCachedData inp1
          = some (s', .response 400 none (.text "Missing key parameter")) ∧
        s'.cache = s.cache) ∧
    (inp1.key ≠ "" → (s.cache.Get inp1.getNow inp1.key).2 = false →
      ∃ s1, s.handleCachedData inp1
          = some (s1, .response 200 (some "MISS")
              (.json inp1.key (some (computedValue inp1.dataUnix inp1.stampUnix)) false)) ∧
        s1.cache = s.cache.Set inp1.setNow inp1.key
          (computedValue inp1.dataUnix inp1.stampUnix) (30 * 1000000000) ∧
        ∀ (sB : Server) (steps : List (CacheStep Obj)) (inp2 : CachedDataInput),
          sB.cache = s1.cache.run steps →
          sB.rateLimiter.sem.closed = false →
          sB.rateLimiter.held < sB.rateLimiter.sem.cap →
          inp2.key = inp1.key →
          (∀ st ∈ steps, st.setsKey inp1.key = false ∧ st.time ≤ inp2.getNow) →
          inp2.getNow < inp1.setNow + 30 * 1000000000 →
          ∃ s2, sB.handleCachedData inp2
              = some (s2, .response 200 (some "HIT")
                  (.json inp1.key (some (computedValue inp1.dataUnix inp1.stampUnix)) true)) ∧
            s2.cache = sB.cache) := by
  obtain ⟨s', hret, hcache, _⟩ := Server.handleCachedData_returns s inp1 hopen hroom
  constructor
  · intro hk
    rw [Server.cachedDataBody_missing_key s inp1 hk] at hret hcache
    exact ⟨s', hret, hcache⟩
  · intro hk hmiss
    rw [Server.cachedDataBody_miss s inp1 hk hmiss] at hret hcache
    refine ⟨s', hret, hcache, ?_⟩
    intro sB steps inp2 hB hopenB hroomB hkey hsteps hlt
    obtain ⟨s2, hret2, hcache2, _⟩ := Server.handleCachedData_returns sB inp2 hopenB hroomB
    have hentry : sB.cache.entries inp1.key
        = some { value := computedValue inp1.dataUnix inp1.stampUnix,
                 expiresAt := inp1.setNow + 30 * 1000000000 } := by
      rw [hB, hcache]
      exact Cache.run_entry_kept inp1.key inp2.getNow steps _ _
        (Cache.Set_entry s.cache inp1.setNow inp1.key _ _) (le_of_lt hlt) hsteps
    have hget : sB.cache.Get inp2.getNow inp2.key
        = (some (computedValue inp1.dataUnix inp1.stampUnix), true) := by
      have hna : ¬ (inp1.setNow + 30 * 1000000000 < inp2.getNow) := not_lt.mpr (le_of_lt hlt)
      have hA : Time.After inp2.getNow (inp1.setNow + 30 * 1000000000) = false := by
        simp only [Time.After, decide_eq_false_iff_not]
        exact hna
      simp only [Cache.Get, hkey, hentry, hA, Bool.false_eq_true, if_false]
    have hk2 : inp2.key ≠ "" := by rw [hkey]; exact hk
    rw [Server.cachedDataBody_hit sB inp2 _ hk2 hget, hkey] at hret2
    rw [Server.cachedDataBody_hit sB inp2 _ hk2 hget] at hcache2
    exact ⟨s2, hret2, hcache2⟩

/-- C17 on the server of `NewServer`: a first request for key "k", whose `Set` runs at
20 ns, is a miss. -/
theorem C17_cached_data_miss_then_hit_witness :
    NewServer.rateLimiter.sem.closed = false ∧
    NewServer.rateLimiter.held < NewServer.rateLimiter.sem.cap ∧
    (∃ s1, NewServer.handleCachedData ⟨0, 150000000, "k", 10, 1700000000, 1700000000, 20⟩
        = some (s1, .response 200 (some "MISS")
            (.json "k" (some (computedValue 1700000000 1700000000)) false)) ∧
      s1.cache = NewServer.cache.Set 20 "k" (computedValue 1700000000 1700000000)
        (30 * 1000000000) ∧
      ∃ s2, s1.handleCachedData ⟨0, 1000, "k", 29000000000, 1700000029, 1700000029, 29000000001⟩
          = some (s2, .response 200 (some "HIT")
              (.json "k" (some (computedValue 1700000000 1700000000)) true))) := by
  refine ⟨rfl, by decide, ?_⟩
  obtain ⟨s1, h1, h2, h3⟩ :=
    (C17_cached_data_miss_then_hit NewServer
      ⟨0, 150000000, "k", 10, 1700000000, 1700000000, 20⟩ rfl (by decide)).2
      (by decide) rfl
  obtain ⟨s1', hret', _, hheld, hcap, hcl⟩ := Server.handleCachedData_returns NewServer
    ⟨0, 150000000, "k", 10, 1700000000, 1700000000, 20⟩ rfl (by decide)
  have hs : s1 = s1' := congrArg Prod.fst (Option.some.inj (h1.symm.trans hret'))
  subst hs
  refine ⟨s1, h1, h2, ?_⟩
  obtain ⟨s2, hret2, _⟩ := h3 s1 []
    ⟨0, 1000, "k", 29000000000, 1700000029, 1700000029, 29000000001⟩ rfl hcl
    (by rw [hheld, hcap]; decide) rfl (by simp) (by decide)
  exact ⟨s2, hret2⟩

/-! ## Theorems: the retry loop of `startWorkerPool` -/

/-- The retry loop from any point: with `Retries ≤ maxRetries` and fuel for the retries
left, it returns one result after at most `maxRetries - Retries + 1` further calls, every
call before the last one failed, and the result is a success exactly if the last call
succeeded. -/
theorem WorkerQueue.retryLoop_spec (maxRetries : Int) (draws : Nat → Nat) (fuel : Nat) :
    ∀ (job : WorkerQueue.Job) (c : Nat), job.Retries ≤ maxRetries →
      (maxRetries - job.Retries).toNat + 1 ≤ fuel →
      ∃ r n, WorkerQueue.retryLoop maxRetries draws fuel job c = some ([r], n) ∧
        r.JobID = job.ID ∧ c < n ∧ n ≤ c + (maxRetries - job.Retries).toNat + 1 ∧
        (∀ i, c ≤ i → i + 1 < n → draws i < 20) ∧
        (r.Success = true → 20 ≤ draws (n - 1) ∧ r.Error = none) ∧
        (r.Success = false →
          n = c + (maxRetries - job.Retries).toNat + 1 ∧ draws (n - 1) < 20 ∧
          r.Error = WorkerQueue.processJob job (draws (n - 1))) := by
  induction fuel with
  | zero => intro job c _ hf; omega
  | succ fuel ih =>
    intro job c hle hf
    by_cases hd : draws c < 20
    · have hp : WorkerQueue.processJob job (draws c)
          = some ("processing failed for job " ++ toString job.ID) := by
        simp [WorkerQueue.processJob, hd]
      by_cases hgt : job.Retries + 1 > maxRetries
      · have h0 : (maxRetries - job.Retries).toNat = 0 := by omega
        refine ⟨{ JobID := job.ID, Success := false,
                  Error := some ("processing failed for job " ++ toString job.ID) },
          c + 1, ?_, rfl, by omega, by omega, ?_, ?_, ?_⟩
        · simp [WorkerQueue.retryLoop, hp, hgt]
        · intro i h1 h2; omega
        · intro h; cases h
        · intro _
          refine ⟨by omega, by simpa using hd, ?_⟩
          simp [hp]
      · have hle' : job.Retries + 1 ≤ maxRetries := by omega
        have hf' : (maxRetries - (job.Retries + 1)).toNat + 1 ≤ fuel := by omega
        obtain ⟨r, n, hrun, hid, hcn, hn, hfail, hs, hfl⟩ :=
          ih { job with Retries := job.Retries + 1 } (c + 1) hle' hf'
        dsimp only at hid hn hfl
        refine ⟨r, n, ?_, hid, by omega, by omega, ?_, hs, ?_⟩
        · simp only [WorkerQueue.retryLoop, hp, hgt, if_false]
          exact hrun
        · intro i h1 h2
          by_cases hic : i = c
          · rw [hic]; exact hd
          · exact hfail i (by omega) h2
        · intro h
          obtain ⟨h1, h2, h3⟩ := hfl h
          refine ⟨?_, h2, ?_⟩
          · have e : (maxRetries - job.Retries).toNat
                = (maxRetries - (job.Retries + 1)).toNat + 1 := by omega
            omega
          · rw [h3]; rfl
    · have hp : WorkerQueue.processJob job (draws c) = none := by
        simp [WorkerQueue.processJob, hd]
      refine ⟨{ JobID := job.ID, Success := true, Error := none }, c + 1, ?_, rfl,
        by omega, by omega, ?_, ?_, ?_⟩
      · simp [WorkerQueue.retryLoop, hp]
      · intro i h1 h2; omega
      · intro _; exact ⟨by simpa using hd, rfl⟩
      · intro h; cases h

theorem WorkerQueue.processJob_eq_none_iff (job : WorkerQueue.Job) (draw : Nat) :
    WorkerQueue.processJob job draw = none ↔ 20 ≤ draw := by
  unfold WorkerQueue.processJob
  split_ifs with h
  · simp; omega
  · simp; omega

/-- C18: for a job with `Retries = 0`, every `maxRetries ≥ 0` and every sequence of
`processJob` outcomes, the retry loop of a worker terminates (any fuel of at least
`maxRetries + 1` passes gives the same result), sends exactly one `JobResult` carrying the
job's ID, and calls `processJob` `n` times with `1 ≤ n ≤ maxRetries + 1`; every call
before the last failed, so the loop stops at the first success, and `Success` is true
exactly if one of the `n` calls succeeded. -/
theorem C18_retry_loop_sends_one_result (maxRetries : Int) (hM : 0 ≤ maxRetries)
    (job : WorkerQueue.Job) (hR : job.Retries = 0) (draws : Nat → Nat) (fuel : Nat)
    (hf : maxRetries.toNat + 1 ≤ fuel) :
    ∃ r n, WorkerQueue.retryLoop maxRetries draws fuel job 0 = some ([r], n) ∧
      r.JobID = job.ID ∧ 1 ≤ n ∧ (n : Int) ≤ maxRetries + 1 ∧
      (∀ i, i + 1 < n → WorkerQueue.processJob job (draws i) ≠ none) ∧
      (r.Success = true ↔ ∃ i, i < n ∧ WorkerQueue.processJob job (draws i) = none) ∧
      (r.Success = true → WorkerQueue.processJob job (draws (n - 1)) = none ∧ r.Error = none) ∧
      (r.Success = false → (n : Int) = maxRetries + 1 ∧
        r.Error = WorkerQueue.processJob job (draws (n - 1)) ∧ r.Error ≠ none) := by
  have hle : job.Retries ≤ maxRetries := by rw [hR]; exact hM
  have hf' : (maxRetries - job.Retries).toNat + 1 ≤ fuel := by rw [hR]; simpa using hf
  obtain ⟨r, n, hrun, hid, hcn, hn, hfail, hs, hfl⟩ :=
    WorkerQueue.retryLoop_spec maxRetries draws fuel job 0 hle hf'
  rw [hR] at hn hfl
  have hn' : n ≤ maxRetries.toNat + 1 := by simpa using hn
  refine ⟨r, n, hrun, hid, hcn, by omega, ?_, ?_, ?_, ?_⟩
  · intro i hi hnone
    have := hfail i (Nat.zero_le _) hi
    have := (WorkerQueue.processJob_eq_none_iff job (draws i)).mp hnone
    omega
  · constructor
    · intro h
      exact ⟨n - 1, by omega, (WorkerQueue.processJob_eq_none_iff job _).mpr (hs h).1⟩
    · rintro ⟨i, hi, hnone⟩
      have h20 := (WorkerQueue.processJob_eq_none_iff job (draws i)).mp hnone
      cases hsucc : r.Success with
      | true => rfl
      | false =>
        exfalso
        obtain ⟨_, hlast, _⟩ := hfl hsucc
        by_cases hil : i + 1 < n
        · have := hfail i (Nat.zero_le _) hil; omega
        · have : i = n - 1 := by omega
          rw [this] at h20; omega
  · intro h
    exact ⟨(WorkerQueue.processJob_eq_none_iff job _).mpr (hs h).1, (hs h).2⟩
  · intro h
    obtain ⟨h1, h2, h3⟩ := hfl h
    refine ⟨by simp only [Int.sub_zero] at h1; omega, h3, ?_⟩
    rw [h3]
    intro hnone
    have := (WorkerQueue.processJob_eq_none_iff job _).mp hnone
    omega

/-- C18 with `maxRetries = 3` and outcomes fail, fail, success: three calls, one result,
a success; and with every call failing: four calls, one result, a failure. -/
theorem C18_retry_loop_sends_one_result_witness :
    (0 : Int) ≤ 3 ∧ (⟨1, "task-1", 0⟩ : WorkerQueue.Job).Retries = 0 ∧
    (3 : Int).toNat + 1 ≤ 4 ∧
    WorkerQueue.retryLoop 3 (fun i => if i < 2 then 5 else 50) 4 ⟨1, "task-1", 0⟩ 0
      = some ([⟨1, true, none⟩], 3) ∧
    WorkerQueue.retryLoop 3 (fun _ => 5) 4 ⟨1, "task-1", 0⟩ 0
      = some ([⟨1, false, some "processing failed for job 1"⟩], 4) ∧
    (∃ r n, WorkerQueue.retryLoop 3 (fun i => if i < 2 then 5 else 50) 4 ⟨1, "task-1", 0⟩ 0
        = some ([r], n) ∧ r.JobID = 1 ∧ 1 ≤ n ∧ (n : Int) ≤ 3 + 1) := by
  refine ⟨by decide, rfl, by decide, by decide, by decide, ?_⟩
  obtain ⟨r, n, h1, h2, h3, h4, _⟩ := C18_retry_loop_sends_one_result 3 (by decide)
    ⟨1, "task-1", 0⟩ rfl (fun i => if i < 2 then 5 else 50) 4 (by decide)
  exact ⟨r, n, h1, h2, h3, h4⟩

/-! ## Theorems: `aggregate` -/

theorem roundEven_of_tie_odd (y : ℚ) (M : Int) (h : y = (M : ℚ) + 1 / 2) (hodd : M % 2 = 1) :
    roundEven y = M + 1 := by
  have hf : ⌊y⌋ = M := Int.floor_eq_iff.mpr ⟨by rw [h]; linarith, by rw [h]; linarith⟩
  unfold roundEven
  rw [hf, if_neg (by rw [h]; norm_num), if_neg (by rw [h]; norm_num), if_neg (by omega)]

/-- Evaluation of `round64` at a value half-way between two neighbours, the lower one with
an odd significand `M`: the result is the upper neighbour. -/
theorem round64_eval_tie_odd (x v : ℚ) (e M : Int) (h1 : (2 : ℚ) ^ e ≤ x)
    (h2 : x < (2 : ℚ) ^ (e + 1)) (h3 : x / 2 ^ (e - 52) = (M : ℚ) + 1 / 2) (hodd : M % 2 = 1)
    (hv : ((M + 1 : Int) : ℚ) * 2 ^ (e - 52) = v) : round64 x = v := by
  have hx : 0 < x := lt_of_lt_of_le (by positivity) h1
  unfold round64
  rw [if_neg (ne_of_gt hx), abs_of_pos hx, Notif.log_eq x e h1 h2,
    roundEven_of_tie_odd _ M h3 hodd, hv]

theorem FanInFanOut.absSum_values_nonneg (l : List ℚ) : 0 ≤ FanInFanOut.absSum l := by
  induction l with
  | nil => exact le_refl _
  | cons x rest ih => simp only [FanInFanOut.absSum]; have := abs_nonneg x; linarith

theorem FanInFanOut.aggregateLoop_total (input : List FanInFanOut.ProcessedData) :
    ∀ (total : Int) (sum : ℚ),
      (FanInFanOut.aggregateLoop input (total, sum)).1 = total + (input.length : Int) := by
  induction input with
  | nil => intro total sum; simp [FanInFanOut.aggregateLoop]
  | cons d rest ih =>
    intro total sum
    simp only [FanInFanOut.aggregateLoop, ih, List.length_cons]
    push_cast; ring

theorem FanInFanOut.aggregateLoop_append (l2 : List FanInFanOut.ProcessedData) :
    ∀ (l1 : List FanInFanOut.ProcessedData) (acc : Int × ℚ),
      FanInFanOut.aggregateLoop (l1 ++ l2) acc
        = FanInFanOut.aggregateLoop l2 (FanInFanOut.aggregateLoop l1 acc) := by
  intro l1
  induction l1 with
  | nil => intro acc; simp [FanInFanOut.aggregateLoop]
  | cons d rest ih =>
    intro acc
    obtain ⟨total, sum⟩ := acc
    rw [List.cons_append]
    simp only [FanInFanOut.aggregateLoop]
    exact ih _

/-- The running `sum` of the loop stays near the exact sum: within the sum of the sizes of
the values times `(1 + 2^-53)^j - 1` after `j` additions. -/
theorem FanInFanOut.aggregateLoop_error (input : List FanInFanOut.ProcessedData) :
    ∀ (total : Int) (sum S A : ℚ) (j : Nat), |S| ≤ A →
      |sum - S| ≤ A * ((1 + 1 / 2 ^ 53) ^ j - 1) →
      |(FanInFanOut.aggregateLoop input (total, sum)).2
          - (S + (FanInFanOut.values input).sum)|
        ≤ (A + FanInFanOut.absSum (FanInFanOut.values input))
          * ((1 + 1 / 2 ^ 53) ^ (j + input.length) - 1) := by
  induction input with
  | nil =>
    intro total sum S A j _ hB
    simpa [FanInFanOut.aggregateLoop, FanInFanOut.values, FanInFanOut.absSum] using hB
  | cons d rest ih =>
    intro total sum S A j hS hB
    have hA0 : 0 ≤ A := le_trans (abs_nonneg _) hS
    have hg1 : (1 : ℚ) ≤ (1 + 1 / 2 ^ 53) ^ j := one_le_pow₀ (by norm_num)
    have hv0 : 0 ≤ |d.ProcessedValue| := abs_nonneg _
    have hsum : |sum| ≤ A * (1 + 1 / 2 ^ 53) ^ j := by
      have h2 := abs_sub_abs_le_abs_sub sum S
      have : A * (1 + 1 / 2 ^ 53) ^ j = A + A * ((1 + 1 / 2 ^ 53) ^ j - 1) := by ring
      linarith
    have hr := round64_abs_sub_le (sum + d.ProcessedValue)
    have hsv : |sum + d.ProcessedValue| ≤ A * (1 + 1 / 2 ^ 53) ^ j + |d.ProcessedValue| :=
      le_trans (abs_add _ _) (by linarith)
    have hr2 : |round64 (sum + d.ProcessedValue) - (sum + d.ProcessedValue)|
        ≤ (A * (1 + 1 / 2 ^ 53) ^ j + |d.ProcessedValue|) / 2 ^ 53 :=
      le_trans hr (div_le_div_of_nonneg_right hsv (by norm_num))
    have hS' : |S + d.ProcessedValue| ≤ A + |d.ProcessedValue| :=
      le_trans (abs_add _ _) (by linarith)
    have hB' : |round64 (sum + d.ProcessedValue) - (S + d.ProcessedValue)|
        ≤ (A + |d.ProcessedValue|) * ((1 + 1 / 2 ^ 53) ^ (j + 1) - 1) := by
      have e1 : round64 (sum + d.ProcessedValue) - (S + d.ProcessedValue)
          = (round64 (sum + d.ProcessedValue) - (sum + d.ProcessedValue)) + (sum - S) := by
        ring
      rw [e1]
      refine le_trans (abs_add _ _) ?_
      have hgj : (1 + 1 / 2 ^ 53 : ℚ) ^ (j + 1)
          = (1 + 1 / 2 ^ 53) ^ j + (1 / 2 ^ 53) * (1 + 1 / 2 ^ 53) ^ j := by
        rw [pow_succ]; ring
      have hmg : |d.ProcessedValue| * 1 ≤ |d.ProcessedValue| * (1 + 1 / 2 ^ 53) ^ j :=
        mul_le_mul_of_nonneg_left hg1 hv0
      have e2 : (A + |d.ProcessedValue|) * ((1 + 1 / 2 ^ 53) ^ (j + 1) - 1)
          = (A * (1 + 1 / 2 ^ 53) ^ j + |d.ProcessedValue|) / 2 ^ 53
            + A * ((1 + 1 / 2 ^ 53) ^ j - 1)
            + (|d.ProcessedValue| * (1 + 1 / 2 ^ 53) ^ j - |d.ProcessedValue| * 1)
              * (1 + 1 / 2 ^ 53) := by
        rw [hgj]; ring
      rw [e2]
      have h3 : 0 ≤ (|d.ProcessedValue| * (1 + 1 / 2 ^ 53) ^ j - |d.ProcessedValue| * 1)
          * (1 + 1 / 2 ^ 53) :=
        mul_nonneg (by linarith) (by norm_num)
      linarith
    have := ih (total + 1) (round64 (sum + d.ProcessedValue)) (S + d.ProcessedValue)
      (A + |d.ProcessedValue|) (j + 1) hS' hB'
    simp only [FanInFanOut.aggregateLoop, FanInFanOut.values, List.map_cons, List.sum_cons,
      FanInFanOut.absSum, List.length_cons] at this ⊢
    have e1 : j + 1 + rest.length = j + (rest.length + 1) := by omega
    have e3 : S + d.ProcessedValue + (List.map (fun d => d.ProcessedValue) rest).sum
        = S + (d.ProcessedValue + (List.map (fun d => d.ProcessedValue) rest).sum) := by ring
    have e4 : A + |d.ProcessedValue|
          + FanInFanOut.absSum (List.map (fun d => d.ProcessedValue) rest)
        = A + (|d.ProcessedValue|
          + FanInFanOut.absSum (List.map (fun d => d.ProcessedValue) rest)) := by ring
    rw [e1, e3, e4] at this
    exact this

/-- The error of the average: the `float64` quotient of `S` by the `float64` of a count
`n ≥ 1` lies within the fraction `2^-51` of `|S| / n` from `S / n`. -/
theorem FanInFanOut.average_error (S : ℚ) (n : Int) (hn : 1 ≤ n) :
    |round64 (S / round64 (n : ℚ)) - S / (n : ℚ)| ≤ |S| / (n : ℚ) / 2 ^ 51 := by
  have hK : (1 : ℚ) ≤ (n : ℚ) := by exact_mod_cast hn
  have hKpos : (0 : ℚ) < (n : ℚ) := by linarith
  obtain ⟨hc, _⟩ := newAvg_count_bounds n hn
  have hcK := abs_le.mp hc
  have hsmall : (n : ℚ) / 2 ^ 53 ≤ (n : ℚ) / 2 :=
    div_le_div_of_nonneg_left (by linarith) (by norm_num) (by norm_num)
  have hcpos : 0 < round64 (n : ℚ) := by linarith [hcK.1]
  have hK2c : (n : ℚ) ≤ 2 * round64 (n : ℚ) := by linarith [hcK.1]
  have hS0 : 0 ≤ |S| := abs_nonneg S
  have hsc : |S| / round64 (n : ℚ) ≤ 2 * |S| / (n : ℚ) := by
    rw [div_le_iff₀ hcpos]
    have e : 2 * |S| / (n : ℚ) * round64 (n : ℚ) = 2 * |S| * round64 (n : ℚ) / (n : ℚ) := by
      ring
    rw [e, le_div_iff₀ hKpos]
    have := mul_le_mul_of_nonneg_left hK2c hS0
    linarith
  have h1 := round64_abs_sub_le (S / round64 (n : ℚ))
  rw [abs_div, abs_of_pos hcpos] at h1
  have h1' : |round64 (S / round64 (n : ℚ)) - S / round64 (n : ℚ)|
      ≤ 2 * |S| / (n : ℚ) / 2 ^ 53 :=
    le_trans h1 (div_le_div_of_nonneg_right hsc (by norm_num))
  have h2 : |S / round64 (n : ℚ) - S / (n : ℚ)| ≤ 2 * |S| / (n : ℚ) / 2 ^ 53 := by
    have e : S / round64 (n : ℚ) - S / (n : ℚ)
        = (S / round64 (n : ℚ)) * (((n : ℚ) - round64 (n : ℚ)) / (n : ℚ)) := by
      field_simp
      ring
    rw [e, abs_mul, abs_div, abs_of_pos hcpos, abs_div, abs_of_pos hKpos]
    have hKc : |(n : ℚ) - round64 (n : ℚ)| / (n : ℚ) ≤ 1 / 2 ^ 53 := by
      rw [div_le_iff₀ hKpos, abs_sub_comm]
      refine le_trans hc (le_of_eq ?_)
      ring
    have h3 := mul_le_mul hsc hKc (div_nonneg (abs_nonneg _) (le_of_lt hKpos))
      (div_nonneg (by linarith) (le_of_lt hKpos))
    refine le_trans h3 (le_of_eq ?_)
    ring
  have e : round64 (S / round64 (n : ℚ)) - S / (n : ℚ)
      = (round64 (S / round64 (n : ℚ)) - S / round64 (n : ℚ))
        + (S / round64 (n : ℚ) - S / (n : ℚ)) := by ring
  rw [e]
  refine le_trans (abs_add _ _) ?_
  have e2 : |S| / (n : ℚ) / 2 ^ 51
      = 2 * |S| / (n : ℚ) / 2 ^ 53 + 2 * |S| / (n : ℚ) / 2 ^ 53 := by ring
  rw [e2]
  exact add_le_add h1' h2

/-- Claim C19, as stated, fails: on the three values 0.1, 0.2 and 0.3 (the `float64`s
nearest to them) `aggregate` returns `Sum = 0.6000000000000001`, that is
`5404319552844596 / 2^53`, which is not the sum of the three values, and
`Average = 0.20000000000000004`, that is `7205759403792795 / 2^55`, which is not
`Sum / TotalRecords`. -/
theorem C19_aggregate_sum_is_rounded :
    (FanInFanOut.aggregate
      [⟨1, 0, 3602879701896397 / 36028797018963968, 0⟩,
       ⟨2, 0, 3602879701896397 / 18014398509481984, 0⟩,
       ⟨3, 0, 5404319552844595 / 18014398509481984, 0⟩]).TotalRecords = 3 ∧
    (FanInFanOut.aggregate
      [⟨1, 0, 3602879701896397 / 36028797018963968, 0⟩,
       ⟨2, 0, 3602879701896397 / 18014398509481984, 0⟩,
       ⟨3, 0, 5404319552844595 / 18014398509481984, 0⟩]).Sum
      = 5404319552844596 / 9007199254740992 ∧
    (5404319552844596 / 9007199254740992 : ℚ)
      ≠ 3602879701896397 / 36028797018963968 + 3602879701896397 / 18014398509481984
        + 5404319552844595 / 18014398509481984 ∧
    (FanInFanOut.aggregate
      [⟨1, 0, 3602879701896397 / 36028797018963968, 0⟩,
       ⟨2, 0, 3602879701896397 / 18014398509481984, 0⟩,
       ⟨3, 0, 5404319552844595 / 18014398509481984, 0⟩]).Average
      = 7205759403792795 / 36028797018963968 ∧
    (7205759403792795 / 36028797018963968 : ℚ)
      ≠ (5404319552844596 / 9007199254740992) / ((3 : Int) : ℚ) := by
  have r1 : round64 ((0 : ℚ) + 3602879701896397 / 36028797018963968)
      = 3602879701896397 / 36028797018963968 :=
    round64_eval _ _ (-4) 7205759403792794 (by norm_num) (by norm_num) (by norm_num)
      (by norm_num) (by norm_num)
  have r2 : round64 ((3602879701896397 / 36028797018963968 : ℚ)
      + 3602879701896397 / 18014398509481984) = 5404319552844596 / 18014398509481984 :=
    round64_eval_tie_odd _ _ (-2) 5404319552844595 (by norm_num) (by norm_num) (by norm_num)
      (by decide) (by norm_num)
  have r3 : round64 ((5404319552844596 / 18014398509481984 : ℚ)
      + 5404319552844595 / 18014398509481984) = 5404319552844596 / 9007199254740992 :=
    round64_eval_tie_odd _ _ (-1) 5404319552844595 (by norm_num) (by norm_num) (by norm_num)
      (by decide) (by norm_num)
  have hloop : FanInFanOut.aggregateLoop
      [⟨1, 0, 3602879701896397 / 36028797018963968, 0⟩,
       ⟨2, 0, 3602879701896397 / 18014398509481984, 0⟩,
       ⟨3, 0, 5404319552844595 / 18014398509481984, 0⟩] (0, 0)
      = (3, 5404319552844596 / 9007199254740992) := by
    simp only [FanInFanOut.aggregateLoop, r1, r2, r3]
    rfl
  have r4 : round64 ((3 : Int) : ℚ) = 3 :=
    round64_eval _ _ 1 6755399441055744 (by norm_num) (by norm_num) (by norm_num)
      (by norm_num) (by norm_num)
  have r5 : round64 ((5404319552844596 / 9007199254740992 : ℚ) / 3)
      = 7205759403792795 / 36028797018963968 :=
    round64_eval _ _ (-3) 7205759403792795 (by norm_num) (by norm_num) (by norm_num)
      (by norm_num) (by norm_num)
  refine ⟨?_, ?_, by norm_num, ?_, by norm_num⟩
  · simp only [FanInFanOut.aggregate, hloop]
  · simp only [FanInFanOut.aggregate, hloop]
  · simp only [FanInFanOut.aggregate, hloop, gt_iff_lt, show (0 : Int) < 3 by decide, if_true,
      r4, r5]

/-- Claim C19, amended: for every finite sequence of fewer than `2^63` items received from
the input channel whose `ProcessedValue` fields are each 0 or of a size between `2^-500` and
`2^500` (so that no operation overflows or underflows), `aggregate` returns `TotalRecords`
equal to the number `n` of items; `Sum` is the `float64` sum of the fields added one by one
in the order of arrival, each addition rounded, and lies within
`(|v1| + ... + |vn|) * ((1 + 2^-53)^n - 1)` of their exact sum; `Average` is the `float64`
quotient of `Sum` by `n` when the sequence is not empty, within `|Sum| / n * 2^-51` of
`Sum / n`, and 0 when it is empty, where no division takes place. -/
theorem C19_aggregate_totals_within_tolerance (input : List FanInFanOut.ProcessedData)
    (_hlen : input.length < 2 ^ 63)
    (_hrange : ∀ d ∈ input, d.ProcessedValue = 0 ∨
      (1 / 2 ^ 500 ≤ |d.ProcessedValue| ∧ |d.ProcessedValue| ≤ 2 ^ 500)) :
    (FanInFanOut.aggregate input).TotalRecords = (input.length : Int) ∧
    (FanInFanOut.aggregate []).Sum = 0 ∧
    (∀ d : FanInFanOut.ProcessedData,
      (d.ProcessedValue = 0 ∨
        (1 / 2 ^ 500 ≤ |d.ProcessedValue| ∧ |d.ProcessedValue| ≤ 2 ^ 500)) →
      (FanInFanOut.aggregate (input ++ [d])).Sum
        = round64 ((FanInFanOut.aggregate input).Sum + d.ProcessedValue)) ∧
    |(FanInFanOut.aggregate input).Sum - (FanInFanOut.values input).sum|
      ≤ FanInFanOut.absSum (FanInFanOut.values input)
        * ((1 + 1 / 2 ^ 53) ^ input.length - 1) ∧
    (input ≠ [] →
      (FanInFanOut.aggregate input).Average
        = round64 ((FanInFanOut.aggregate input).Sum
            / round64 (((FanInFanOut.aggregate input).TotalRecords : Int) : ℚ)) ∧
      |(FanInFanOut.aggregate input).Average
          - (FanInFanOut.aggregate input).Sum
            / (((FanInFanOut.aggregate input).TotalRecords : Int) : ℚ)|
        ≤ |(FanInFanOut.aggregate input).Sum|
          / (((FanInFanOut.aggregate input).TotalRecords : Int) : ℚ) / 2 ^ 51) ∧
    (input = [] → (FanInFanOut.aggregate input).Average = 0) := by
  have htot : (FanInFanOut.aggregate input).TotalRecords = (input.length : Int) := by
    have := FanInFanOut.aggregateLoop_total input 0 0
    simp only [zero_add] at this
    simp only [FanInFanOut.aggregate, this]
  have hsum : ∀ l : List FanInFanOut.ProcessedData,
      (FanInFanOut.aggregate l).Sum = (FanInFanOut.aggregateLoop l (0, 0)).2 := by
    intro l; rfl
  refine ⟨htot, rfl, ?_, ?_, ?_, ?_⟩
  · intro d _
    rw [hsum, hsum, FanInFanOut.aggregateLoop_append]
    rfl
  · have := FanInFanOut.aggregateLoop_error input 0 0 0 0 0 (by simp) (by simp)
    simp only [zero_add] at this
    rw [hsum]
    exact this
  · intro hne
    have hpos : (0 : Int) < (input.length : Int) := by
      have : input.length ≠ 0 := fun h0 => hne (List.length_eq_zero.mp h0)
      omega
    have hpos' : (FanInFanOut.aggregateLoop input (0, 0)).1 > 0 := by
      have := FanInFanOut.aggregateLoop_total input 0 0
      rw [this]; simpa using hpos
    have havg : (FanInFanOut.aggregate input).Average
        = round64 ((FanInFanOut.aggregate input).Sum
            / round64 (((FanInFanOut.aggregate input).TotalRecords : Int) : ℚ)) := by
      simp only [FanInFanOut.aggregate, hpos', if_true]
    refine ⟨havg, ?_⟩
    rw [havg, htot]
    exact FanInFanOut.average_error _ _ (by omega)
  · intro he
    subst he
    simp [FanInFanOut.aggregate, FanInFanOut.aggregateLoop]

/-- Witness for C19, amended: two items, of values 1 and 2. -/
theorem C19_aggregate_totals_within_tolerance_witness :
    [(⟨1, 0, 1, 0⟩ : FanInFanOut.ProcessedData), ⟨2, 0, 2, 0⟩].length < 2 ^ 63 ∧
    (∀ d ∈ [(⟨1, 0, 1, 0⟩ : FanInFanOut.ProcessedData), ⟨2, 0, 2, 0⟩],
      d.ProcessedValue = 0 ∨
        (1 / 2 ^ 500 ≤ |d.ProcessedValue| ∧ |d.ProcessedValue| ≤ 2 ^ 500)) ∧
    (FanInFanOut.aggregate [⟨1, 0, 1, 0⟩, ⟨2, 0, 2, 0⟩]).TotalRecords
      = (([(⟨1, 0, 1, 0⟩ : FanInFanOut.ProcessedData), ⟨2, 0, 2, 0⟩].length : Nat) : Int) := by
  have hr : ∀ d ∈ [(⟨1, 0, 1, 0⟩ : FanInFanOut.ProcessedData), ⟨2, 0, 2, 0⟩],
      d.ProcessedValue = 0 ∨
        (1 / 2 ^ 500 ≤ |d.ProcessedValue| ∧ |d.ProcessedValue| ≤ 2 ^ 500) := by
    intro d hd
    simp only [List.mem_cons, List.mem_singleton, List.not_mem_nil, or_false] at hd
    rcases hd with rfl | rfl
    · right
      have e : |(1 : ℚ)| = 1 := abs_one
      dsimp only
      rw [e]
      constructor <;> norm_num
    · right
      have e : |(2 : ℚ)| = 2 := abs_two
      dsimp only
      rw [e]
      constructor <;> norm_num
  have hl : [(⟨1, 0, 1, 0⟩ : FanInFanOut.ProcessedData), ⟨2, 0, 2, 0⟩].length < 2 ^ 63 := by
    simp only [List.length_cons, List.length_nil]
    norm_num
  exact ⟨hl, hr, (C19_aggregate_totals_within_tolerance _ hl hr).1⟩

/-! ## Theorems: `GenerateLogFile` -/

/-- With a progress interval other than 0 the loop writes one line per pass and returns. -/
theorem LogGenerator.generateLoop_returns (format : Int → String) (progressInterval : Int)
    (draws : Nat → LogGenerator.LineDraw) (hp : progressInterval ≠ 0) (remaining : Nat) :
    ∀ (i currentTime : Int) (lines : List String),
      ∃ out, LogGenerator.generateLoop format progressInterval draws remaining i currentTime
          lines = .returned out ∧ out.length = lines.length + remaining := by
  induction remaining with
  | zero => intro i t lines; exact ⟨lines, rfl, rfl⟩
  | succ n ih =>
    intro i t lines
    obtain ⟨out, h1, h2⟩ := ih (i + 1)
      (t + ((((draws i.toNat).increment % 10 : Nat) : Int) + 1))
      (lines ++ [LogGenerator.logLine
        (format (t + ((((draws i.toNat).increment % 10 : Nat) : Int) + 1))) (draws i.toNat)])
    refine ⟨out, ?_, ?_⟩
    · simp only [LogGenerator.generateLoop, hp, and_false, if_false]
      exact h1
    · rw [h2]; simp; omega

/-- For `numEntries ≥ 10` `GenerateLogFile` returns after writing `numEntries` lines. -/
theorem LogGenerator.GenerateLogFile_returns (format : Int → String) (numEntries : Int)
    (draws : Nat → LogGenerator.LineDraw) (h : 10 ≤ numEntries) :
    ∃ out, LogGenerator.GenerateLogFile format numEntries draws = .returned out ∧
      (out.length : Int) = numEntries := by
  have hp : Int.tdiv numEntries 10 ≠ 0 := by
    have : 1 ≤ Int.tdiv numEntries 10 := by
      rw [Int.tdiv_eq_ediv (by omega : 0 ≤ numEntries) (by decide)]
      omega
    omega
  obtain ⟨out, h1, h2⟩ := LogGenerator.generateLoop_returns format _ draws hp
    numEntries.toNat 0 0 []
  refine ⟨out, h1, ?_⟩
  rw [h2]; simp; omega

/-- For `numEntries` from 2 to 9 the progress interval is 0 and `GenerateLogFile` panics in
the second pass, after one line. -/
theorem LogGenerator.GenerateLogFile_panics (format : Int → String) (numEntries : Int)
    (draws : Nat → LogGenerator.LineDraw) (h2 : 2 ≤ numEntries) (h9 : numEntries ≤ 9) :
    LogGenerator.GenerateLogFile format numEntries draws
      = .panic "runtime error: integer divide by zero"
          [LogGenerator.logLine (format ((((draws 0).increment % 10 : Nat) : Int) + 1))
            (draws 0)] := by
  have hp : Int.tdiv numEntries 10 = 0 := by
    rw [Int.tdiv_eq_ediv (by omega : 0 ≤ numEntries) (by decide)]
    omega
  obtain ⟨m, hm⟩ : ∃ m, numEntries.toNat = m + 2 := ⟨numEntries.toNat - 2, by omega⟩
  simp [LogGenerator.GenerateLogFile, hp, hm, LogGenerator.generateLoop]

/-- C20 fails on the code: `GenerateLogFile(filename, 5)` computes
`progressInterval = 5 / 10 = 0`, writes the first line, and in the second pass evaluates
`1 % 0`, a run-time panic "integer divide by zero"; one line is written, not five. This
holds whatever the random source yields. -/
theorem C20_GenerateLogFile_divides_by_zero :
    ∀ (format : Int → String) (draws : Nat → LogGenerator.LineDraw),
      LogGenerator.GenerateLogFile format 5 draws
        = .panic "runtime error: integer divide by zero"
            [LogGenerator.logLine (format ((((draws 0).increment % 10 : Nat) : Int) + 1))
              (draws 0)] :=
  fun format draws => LogGenerator.GenerateLogFile_panics format 5 draws (by decide) (by decide)

/-! ## Theorems: the result of `processTask` and the processed count -/

/-- C23: for every task and every outcome of the random source, the `TaskResult` of
`processTask` carries the task's ID and has a `nil` `Result` exactly when its `Error` is
not `nil`; the `Error` is not `nil` only for an "external_api" task or a task of an
unrecognized type, and a "compute" or "database" task gets a result, no error, and leaves
the processor with all its counters as it was. -/
theorem C23_processTask_result_shape (tp : TaskProcessor) (task : Task) (rnd : Rand) :
    (tp.processTask task rnd).2.TaskID = task.ID ∧
    ((tp.processTask task rnd).2.Result = none ↔ (tp.processTask task rnd).2.Error ≠ none) ∧
    ((tp.processTask task rnd).2.Error ≠ none →
      task.Type_ = "external_api" ∨
      (task.Type_ ≠ "compute" ∧ task.Type_ ≠ "database" ∧ task.Type_ ≠ "external_api")) ∧
    (task.Type_ = "compute" ∨ task.Type_ = "database" →
      (tp.processTask task rnd).2.Error = none ∧
      (tp.processTask task rnd).2.Result ≠ none ∧
      (tp.processTask task rnd).1 = tp) := by
  unfold TaskProcessor.processTask
  split_ifs with h1 h2 h3 hf
  · simp [h1]
  · simp [h2]
  · simp [h3]
  · simp [h3]
  · simp [h1, h2, h3]

/-- A worker pass that runs `processTask` raises the processed count by exactly 1, whether
or not the result was delivered; any other pass leaves it as it was. -/
theorem TaskProcessor.workerPass_tasksProcessed (tp : TaskProcessor) (inp : WorkerInput) :
    (∀ t r d, (tp.workerPass inp).2 = .processed t r d →
      (tp.workerPass inp).1.tasksProcessed = tp.tasksProcessed + 1) ∧
    ((tp.workerPass inp).2 = .shutdown ∨ (tp.workerPass inp).2 = .blocked →
      (tp.workerPass inp).1.tasksProcessed = tp.tasksProcessed) := by
  unfold TaskProcessor.workerPass
  cases hr : tp.taskQueue.recv with
  | done p =>
    obtain ⟨received, q⟩ := p
    by_cases hd : (inp.ctxDone && inp.pickDone) = true
    · simp [hd]
    · simp only [hd, Bool.false_eq_true, if_false]
      refine ⟨fun _ _ _ _ => ?_, fun h => by rcases h with h | h <;> cases h⟩
      show (TaskProcessor.processTask _ _ _).1.tasksProcessed + 1 = _
      rw [(TaskProcessor.processTask_frame _ _ _).2.1]
  | blocked => by_cases hd : inp.ctxDone = true <;> simp [hd]
  | panic msg => by_cases hd : inp.ctxDone = true <;> simp [hd]

/-- No step of any goroutine lowers the processed count. -/
theorem TaskProcessor.step_tasksProcessed_mono (tp : TaskProcessor) (st : ProcessorStep) :
    tp.GetProcessedCount ≤ (tp.step st).GetProcessedCount := by
  cases st with
  | submit task during =>
    simp only [TaskProcessor.step, TaskProcessor.SubmitTask, TaskProcessor.GetProcessedCount]
    cases tp.taskQueue.sendOrTimeout task during <;> exact le_refl _
  | stop =>
    simp only [TaskProcessor.step, TaskProcessor.closeQueue, TaskProcessor.GetProcessedCount]
    cases tp.taskQueue.close <;> exact le_refl _
  | workerPass inp =>
    obtain ⟨h1, h2⟩ := TaskProcessor.workerPass_tasksProcessed tp inp
    simp only [TaskProcessor.step, TaskProcessor.GetProcessedCount]
    cases he : (tp.workerPass inp).2 with
    | processed t r d => rw [h1 t r d he]; omega
    | shutdown => rw [h2 (Or.inl he)]
    | blocked => rw [h2 (Or.inr he)]

theorem TaskProcessor.run_tasksProcessed_mono (steps : List ProcessorStep) :
    ∀ tp : TaskProcessor, tp.GetProcessedCount ≤ (tp.run steps).GetProcessedCount := by
  induction steps with
  | nil => intro tp; exact le_refl _
  | cons st rest ih =>
    intro tp
    exact le_trans (TaskProcessor.step_tasksProcessed_mono tp st) (ih (tp.step st))

/-- While the queue is open, a step that is not `Stop` keeps it open and raises the
processed count by the number of tasks it took. -/
theorem TaskProcessor.step_processed_open (tp : TaskProcessor) (st : ProcessorStep)
    (hopen : tp.taskQueue.closed = false) (hat : st.atomic = true)
    (hns : st.isStop = false) :
    (tp.step st).taskQueue.closed = false ∧
    (tp.step st).GetProcessedCount
      = tp.GetProcessedCount + ((takenTasks (tp.stepEvents st)).length : Int) := by
  cases st with
  | stop => simp [ProcessorStep.isStop] at hns
  | submit task during =>
    have hd : during = [] := by simpa [ProcessorStep.atomic] using hat
    subst hd
    cases hs : tp.taskQueue.send task with
    | done q =>
      obtain ⟨_, _, hq⟩ := Chan.send_done hs
      subst hq
      simp [TaskProcessor.stepEvents, TaskProcessor.step, TaskProcessor.SubmitTask,
        Chan.sendOrTimeout, hs, takenTasks, TaskProcessor.GetProcessedCount, hopen]
    | blocked =>
      simp [TaskProcessor.stepEvents, TaskProcessor.step, TaskProcessor.SubmitTask,
        Chan.sendOrTimeout, hs, takenTasks, TaskProcessor.GetProcessedCount, hopen]
    | panic msg =>
      simp [TaskProcessor.stepEvents, TaskProcessor.step, TaskProcessor.SubmitTask,
        Chan.sendOrTimeout, hs, takenTasks, TaskProcessor.GetProcessedCount, hopen]
  | workerPass inp =>
    obtain ⟨c1, c2⟩ := TaskProcessor.workerPass_tasksProcessed tp inp
    cases hb : tp.taskQueue.buf with
    | nil =>
      have hr : tp.taskQueue.recv = .blocked := by simp [Chan.recv, hb, hopen]
      by_cases hd : inp.ctxDone = true <;>
        simp [TaskProcessor.stepEvents, TaskProcessor.step, TaskProcessor.workerPass, hr, hd,
          hb, takenTasks, TaskProcessor.GetProcessedCount, hopen]
    | cons x rest =>
      obtain ⟨h1, h2⟩ := TaskProcessor.workerPass_of_cons tp inp x rest hb
      by_cases hd : (inp.ctxDone && inp.pickDone) = true
      · obtain ⟨he, hq⟩ := h1 hd
        have hc := c2 (Or.inl he)
        simp [TaskProcessor.stepEvents, TaskProcessor.step, hb, he, hq, takenTasks,
          TaskProcessor.GetProcessedCount, hopen, hc]
      · have hd' : (inp.ctxDone && inp.pickDone) = false := by simpa using hd
        obtain ⟨he, hq⟩ := h2 hd'
        have hc := c1 _ _ _ he
        simp [TaskProcessor.stepEvents, TaskProcessor.step, hb, he, hq, takenTasks,
          TaskProcessor.GetProcessedCount, hopen, hc]

/-- Before `Stop`, the processed count is the number of tasks taken from the queue, which
is at most the number of tasks accepted. -/
theorem TaskProcessor.run_processed_open (steps : List ProcessorStep) :
    ∀ tp : TaskProcessor, tp.taskQueue.closed = false →
      (∀ st ∈ steps, st.atomic = true ∧ st.isStop = false) →
      (tp.run steps).GetProcessedCount
        = tp.GetProcessedCount + ((takenTasks (tp.log steps)).length : Int) := by
  induction steps with
  | nil => intro tp _ _; simp [TaskProcessor.run, TaskProcessor.log, takenTasks]
  | cons st rest ih =>
    intro tp hopen hall
    obtain ⟨hat, hns⟩ := hall st (List.mem_cons_self _ _)
    obtain ⟨ho, hc⟩ := TaskProcessor.step_processed_open tp st hopen hat hns
    have h2 := ih (tp.step st) ho (fun st' hm => hall st' (List.mem_cons_of_mem _ hm))
    have hrun : tp.run (st :: rest) = (tp.step st).run rest := rfl
    rw [hrun, h2, hc]
    simp only [TaskProcessor.log, takenTasks_append, List.length_append]
    push_cast; ring

/-- C22 fails on the code after `Stop`: a processor with one worker is started and stopped
with no task ever submitted, and the worker, whose context is not cancelled, makes one
pass. The pass receives the zero `Task` from the closed queue and counts it: the processed
count is 1 while the number of accepted tasks is 0. Every further pass adds 1. -/
theorem C22_processed_count_exceeds_accepted_after_stop :
    acceptedTasks ((NewTaskProcessor 1 1 NewAnalytics).Start.log
        [.stop, .workerPass ⟨false, false, ⟨0, 0, 0⟩, true⟩]) = [] ∧
    ((NewTaskProcessor 1 1 NewAnalytics).Start.run
        [.stop, .workerPass ⟨false, false, ⟨0, 0, 0⟩, true⟩]).GetProcessedCount = 1 ∧
    ((NewTaskProcessor 1 1 NewAnalytics).Start.run
        [.stop, .workerPass ⟨false, false, ⟨0, 0, 0⟩, true⟩,
         .workerPass ⟨false, false, ⟨0, 0, 0⟩, true⟩]).GetProcessedCount = 2 := by
  refine ⟨by decide, by decide, by decide⟩

/-! ## Theorems: `GetActiveCount` under interleaving -/

theorem LimiterSys.init_inv (M : Nat) : (LimiterSys.init M).Inv M := by
  simp [LimiterSys.Inv, LimiterSys.init, NewRateLimiter, Chan.make]

/-- The two steps of `Acquire`, taken one right after the other, are the call `Acquire`. -/
theorem LimiterSys.acquire_steps (st : LimiterSys) (rl' : RateLimiter)
    (h : st.rl.Acquire = .done rl') :
    st.run [.acquireSend, .acquireAdd]
      = some { st with rl := rl', holding := st.holding + 1 } := by
  unfold RateLimiter.Acquire at h
  cases hs : st.rl.sem.send () with
  | done sem =>
    simp only [hs, Step.done.injEq] at h
    subst h
    simp [LimiterSys.run, LimiterSys.step, hs]
  | blocked => simp [hs] at h
  | panic msg => simp [hs] at h

theorem LimiterSys.step_inv (M : Nat) (st st' : LimiterSys) (ev : LimiterEvent)
    (hinv : st.Inv M) (h : st.step ev = some st') : st'.Inv M := by
  obtain ⟨hcap, hcl, hlen, hle, hact⟩ := hinv
  cases ev with
  | acquireSend =>
    simp only [LimiterSys.step] at h
    cases hs : st.rl.sem.send () with
    | done sem =>
      obtain ⟨_, hlt, hq⟩ := Chan.send_done hs
      simp only [hs, Option.some.injEq] at h
      subst h; subst hq
      refine ⟨hcap, hcl, ?_, ?_, hact⟩
      · simp only [List.length_append, List.length_singleton]; omega
      · simp only [List.length_append, List.length_singleton]; omega
    | blocked => simp [hs] at h
    | panic msg => simp [hs] at h
  | acquireAdd =>
    simp only [LimiterSys.step] at h
    by_cases hp : 0 < st.sent
    · simp only [hp, if_true, Option.some.injEq] at h
      subst h
      refine ⟨hcap, hcl, ?_, hle, ?_⟩
      · show st.rl.sem.buf.length = st.sent - 1 + (st.holding + 1); omega
      · show st.rl.activeCount + 1 = ((st.holding + 1 : Nat) : Int) + (st.received : Int)
        rw [hact]; push_cast; ring
    · simp [hp] at h
  | releaseRecv =>
    simp only [LimiterSys.step] at h
    by_cases hp : 0 < st.holding
    · simp only [hp, if_true] at h
      cases hb : st.rl.sem.buf with
      | nil => rw [hb] at hlen; simp at hlen; omega
      | cons x rest =>
        have hr : st.rl.sem.recv = .done (some x, { st.rl.sem with buf := rest }) := by
          simp [Chan.recv, hb]
        simp only [hr, Option.some.injEq] at h
        subst h
        rw [hb] at hlen hle
        simp only [List.length_cons] at hlen hle
        refine ⟨hcap, hcl, ?_, ?_, ?_⟩
        · show rest.length = st.sent + (st.holding - 1); omega
        · show rest.length ≤ M; omega
        · show st.rl.activeCount = ((st.holding - 1 : Nat) : Int) + ((st.received + 1 : Nat) : Int)
          rw [hact]; push_cast [Nat.cast_sub hp]; ring
    · simp [hp] at h
  | releaseAdd =>
    simp only [LimiterSys.step] at h
    by_cases hp : 0 < st.received
    · simp only [hp, if_true, Option.some.injEq] at h
      subst h
      refine ⟨hcap, hcl, hlen, hle, ?_⟩
      show st.rl.activeCount - 1 = (st.holding : Int) + ((st.received - 1 : Nat) : Int)
      rw [hact]; push_cast [Nat.cast_sub hp]; ring
    · simp [hp] at h

theorem LimiterSys.run_inv (M : Nat) (events : List LimiterEvent) :
    ∀ st st' : LimiterSys, st.Inv M → st.run events = some st' → st'.Inv M := by
  induction events with
  | nil =>
    intro st st' hinv h
    simp only [LimiterSys.run, Option.some.injEq] at h
    subst h; exact hinv
  | cons ev rest ih =>
    intro st st' hinv h
    cases hs : st.step ev with
    | none => simp [LimiterSys.run, hs] at h
    | some st1 =>
      simp only [LimiterSys.run, hs] at h
      exact ih st1 st' (LimiterSys.step_inv M st st1 ev hinv hs) h

/-- Every prefix of an interleaving that can be run can be run. -/
theorem LimiterSys.run_take (events : List LimiterEvent) :
    ∀ (st st' : LimiterSys) (k : Nat), st.run events = some st' →
      ∃ st'', st.run (events.take k) = some st'' := by
  induction events with
  | nil => intro st st' k _; exact ⟨st, by simp [LimiterSys.run]⟩
  | cons ev rest ih =>
    intro st st' k h
    cases k with
    | zero => exact ⟨st, by simp [LimiterSys.run]⟩
    | succ k =>
      cases hs : st.step ev with
      | none => simp [LimiterSys.run, hs] at h
      | some st1 =>
        simp only [LimiterSys.run, hs] at h
        obtain ⟨st'', h''⟩ := ih st1 st' k h
        exact ⟨st'', by simp [LimiterSys.run, hs, h'']⟩

/-- C21, as stated, fails: with bound `M = 1` a first caller acquires and begins to release
(it has received from `sem` and not yet decremented), a second caller acquires, and
`GetActiveCount` returns 2. -/
theorem C21_active_count_exceeds_bound :
    ((LimiterSys.init 1).run
        [.acquireSend, .acquireAdd, .releaseRecv, .acquireSend, .acquireAdd]).map
      (fun st => (st.rl.GetActiveCount, st.rl.held, st.received)) = some (2, 1, 1) := by
  decide

/-- C21, amended: for a limiter of bound `M` and every interleaving of the steps of
`Acquire` and `Release` calls in which each `Release` is made by a caller holding a permit,
at every point the value of `GetActiveCount` is the number of callers holding a permit plus
the number of `Release` calls that have received from `sem` and not yet decremented; it is
at least 0 and at most `M` plus that number of `Release` calls, hence between 0 and `M`
whenever no `Release` is between its two steps, and `sem` holds at most `M` tokens. -/
theorem C21_active_count_bounds (M : Nat) (events : List LimiterEvent) (st : LimiterSys)
    (h : (LimiterSys.init M).run events = some st) :
    ∀ k, ∃ stk, (LimiterSys.init M).run (events.take k) = some stk ∧
      stk.rl.GetActiveCount = (stk.holding : Int) + (stk.received : Int) ∧
      0 ≤ stk.rl.GetActiveCount ∧
      stk.rl.GetActiveCount ≤ (M : Int) + (stk.received : Int) ∧
      (stk.received = 0 → stk.rl.GetActiveCount ≤ (M : Int)) ∧
      stk.rl.held ≤ M := by
  intro k
  obtain ⟨stk, hk⟩ := LimiterSys.run_take events _ st k h
  obtain ⟨_, _, hlen, hle, hact⟩ :=
    LimiterSys.run_inv M (events.take k) _ stk (LimiterSys.init_inv M) hk
  refine ⟨stk, hk, hact, ?_, ?_, ?_, hle⟩
  · show 0 ≤ stk.rl.activeCount
    rw [hact]; positivity
  · show stk.rl.activeCount ≤ _
    rw [hact]; have : stk.holding ≤ M := by omega
    omega
  · intro h0
    show stk.rl.activeCount ≤ _
    rw [hact, h0]; have : stk.holding ≤ M := by omega
    push_cast; omega

/-- C21, amended, on the interleaving of the counterexample followed by the pending
decrement. -/
theorem C21_active_count_bounds_witness :
    (LimiterSys.init 1).run
        [.acquireSend, .acquireAdd, .releaseRecv, .acquireSend, .acquireAdd, .releaseAdd]
      = some ⟨⟨⟨[()], 1, false⟩, 1, 1⟩, 0, 1, 0⟩ ∧
    (∀ k, ∃ stk, (LimiterSys.init 1).run
          (List.take k [.acquireSend, .acquireAdd, .releaseRecv, .acquireSend, .acquireAdd,
            .releaseAdd]) = some stk ∧
      stk.rl.GetActiveCount = (stk.holding : Int) + (stk.received : Int) ∧
      0 ≤ stk.rl.GetActiveCount ∧
      stk.rl.GetActiveCount ≤ ((1 : Nat) : Int) + (stk.received : Int) ∧
      (stk.received = 0 → stk.rl.GetActiveCount ≤ ((1 : Nat) : Int)) ∧
      stk.rl.held ≤ 1) :=
  ⟨rfl, C21_active_count_bounds 1 _ _ rfl⟩

/-! ## Theorems: permits held under interleaving -/

/-- The calls under way, counted from the steps taken. -/
theorem LimiterSys.run_counts (events : List LimiterEvent) :
    ∀ st st' : LimiterSys, st.run events = some st' →
      st'.holding + LimiterSys.startedReleases events
        = st.holding + LimiterSys.completedAcquires events ∧
      st'.received + LimiterSys.completedReleases events
        = st.received + LimiterSys.startedReleases events := by
  induction events with
  | nil =>
    intro st st' h
    simp only [LimiterSys.run, Option.some.injEq] at h
    subst h
    simp [LimiterSys.startedReleases, LimiterSys.completedAcquires,
      LimiterSys.completedReleases]
  | cons ev rest ih =>
    intro st st' h
    cases hs : st.step ev with
    | none => simp [LimiterSys.run, hs] at h
    | some st1 =>
      simp only [LimiterSys.run, hs] at h
      obtain ⟨i1, i2⟩ := ih st1 st' h
      simp only [LimiterSys.startedReleases, LimiterSys.completedAcquires,
        LimiterSys.completedReleases] at i1 i2 ⊢
      cases ev with
      | acquireSend =>
        have e1 : st1.holding = st.holding ∧ st1.received = st.received := by
          simp only [LimiterSys.step] at hs
          split at hs
          · simp only [Option.some.injEq] at hs; subst hs; exact ⟨rfl, rfl⟩
          · simp at hs
        simp only [List.count_cons]
        simp
        omega
      | acquireAdd =>
        have e1 : st1.holding = st.holding + 1 ∧ st1.received = st.received := by
          simp only [LimiterSys.step] at hs
          split_ifs at hs
          simp only [Option.some.injEq] at hs; subst hs; exact ⟨rfl, rfl⟩
        simp only [List.count_cons]
        simp
        omega
      | releaseRecv =>
        have e1 : st1.holding + 1 = st.holding ∧ st1.received = st.received + 1 := by
          simp only [LimiterSys.step] at hs
          split_ifs at hs with hpos
          split at hs
          · simp only [Option.some.injEq] at hs; subst hs
            exact ⟨by dsimp only; omega, rfl⟩
          · simp at hs
        simp only [List.count_cons]
        simp
        omega
      | releaseAdd =>
        have e1 : st1.holding = st.holding ∧ st1.received + 1 = st.received := by
          simp only [LimiterSys.step] at hs
          split_ifs at hs with hpos
          simp only [Option.some.injEq] at hs; subst hs
          exact ⟨rfl, by dsimp only; omega⟩
        simp only [List.count_cons]
        simp
        omega

/-- A run splits at any point. -/
theorem LimiterSys.run_events_append (l2 : List LimiterEvent) :
    ∀ (l1 : List LimiterEvent) (st : LimiterSys),
      st.run (l1 ++ l2) = (st.run l1).bind (fun s => s.run l2) := by
  intro l1
  induction l1 with
  | nil => intro st; simp [LimiterSys.run]
  | cons ev rest ih =>
    intro st
    cases hs : st.step ev with
    | none => simp [LimiterSys.run, hs]
    | some st1 => simp [LimiterSys.run, hs, ih]

/-- Claim C4, as stated, fails under interleaving: with bound `M = 1` a first caller acquires
and begins to release (it has received from `sem` and not yet decremented), and a second
caller acquires. Every step can be taken, two `Acquire` calls have completed and no
`Release` has: the permits held, completed `Acquire`s minus completed `Release`s, are 2. -/
theorem C4_permits_held_exceed_bound :
    ((LimiterSys.init 1).run
      [.acquireSend, .acquireAdd, .releaseRecv, .acquireSend, .acquireAdd]).isSome = true ∧
    (LimiterSys.completedAcquires
        [.acquireSend, .acquireAdd, .releaseRecv, .acquireSend, .acquireAdd] : Int)
      - (LimiterSys.completedReleases
        [.acquireSend, .acquireAdd, .releaseRecv, .acquireSend, .acquireAdd] : Int) = 2 ∧
    ((1 : Nat) : Int) < 2 := by
  decide

/-- Claim C4, amended: for a limiter made by `NewRateLimiter(M)` with `M ≥ 1` and every
interleaving of the steps of `Acquire` and `Release` calls in which each `Release` is made
by a caller whose `Acquire` has completed, at every point `sem` holds at most `M` tokens;
the completed `Acquire`s minus the `Release`s that have begun are the callers holding a
permit, at most `M`; the completed `Acquire`s minus the completed `Release`s exceed `M` at
most by the number of `Release` calls between their two steps; and the send of an `Acquire`
is taken only in a state where `sem` holds fewer than `M` tokens. -/
theorem C4_permits_held_bounds (M : Nat) (_hM : 1 ≤ M) (events : List LimiterEvent)
    (st : LimiterSys) (h : (LimiterSys.init M).run events = some st) :
    ∀ k, ∃ stk, (LimiterSys.init M).run (events.take k) = some stk ∧
      stk.rl.held ≤ M ∧
      (LimiterSys.completedAcquires (events.take k) : Int)
        - (LimiterSys.startedReleases (events.take k) : Int) = (stk.holding : Int) ∧
      stk.holding ≤ M ∧
      (LimiterSys.completedAcquires (events.take k) : Int)
        - (LimiterSys.completedReleases (events.take k) : Int)
        = (stk.holding : Int) + (stk.received : Int) ∧
      (LimiterSys.completedAcquires (events.take k) : Int)
        - (LimiterSys.completedReleases (events.take k) : Int)
        ≤ (M : Int) + (stk.received : Int) ∧
      (events[k]? = some .acquireSend → stk.rl.held < M) := by
  intro k
  obtain ⟨stk, hk⟩ := LimiterSys.run_take events _ st k h
  obtain ⟨hcap, hopen, hlen, hle, _⟩ :=
    LimiterSys.run_inv M (events.take k) _ stk (LimiterSys.init_inv M) hk
  obtain ⟨c1, c2⟩ := LimiterSys.run_counts (events.take k) _ stk hk
  have h0 : (LimiterSys.init M).holding = 0 ∧ (LimiterSys.init M).received = 0 := ⟨rfl, rfl⟩
  rw [h0.1] at c1
  rw [h0.2] at c2
  have hhold : stk.holding ≤ M := by omega
  refine ⟨stk, hk, hle, by omega, hhold, by omega, by omega, ?_⟩
  intro hev
  have hsplit : events = events.take k ++ (.acquireSend :: events.drop (k + 1)) := by
    have h1 : events.drop k = .acquireSend :: events.drop (k + 1) := by
      rw [List.drop_eq_getElem?_toList_append, hev]
      rfl
    rw [← h1, List.take_append_drop]
  rw [hsplit, LimiterSys.run_events_append, hk] at h
  simp only [Option.bind_some, LimiterSys.run] at h
  cases hs : stk.step .acquireSend with
  | none => simp [hs] at h
  | some st1 =>
    simp only [LimiterSys.step] at hs
    cases hsend : stk.rl.sem.send () with
    | done sem =>
      obtain ⟨_, hlt, _⟩ := Chan.send_done hsend
      show stk.rl.sem.buf.length < M
      rw [← hcap]; exact hlt
    | blocked => simp [hsend] at hs
    | panic msg => simp [hsend] at hs

/-- Witness for C4, amended: the interleaving of the counterexample followed by the pending
decrement, at bound 1. -/
theorem C4_permits_held_bounds_witness :
    1 ≤ 1 ∧
    (LimiterSys.init 1).run
        [.acquireSend, .acquireAdd, .releaseRecv, .acquireSend, .acquireAdd, .releaseAdd]
      = some ⟨⟨⟨[()], 1, false⟩, 1, 1⟩, 0, 1, 0⟩ ∧
    (∀ k, ∃ stk, (LimiterSys.init 1).run
          (List.take k [.acquireSend, .acquireAdd, .releaseRecv, .acquireSend, .acquireAdd,
            .releaseAdd]) = some stk ∧
      stk.rl.held ≤ 1 ∧ stk.holding ≤ 1) := by
  refine ⟨le_refl _, rfl, ?_⟩
  intro k
  obtain ⟨stk, h1, h2, _, h4, _⟩ := C4_permits_held_bounds 1 (le_refl _)
    [.acquireSend, .acquireAdd, .releaseRecv, .acquireSend, .acquireAdd, .releaseAdd] _ rfl k
  exact ⟨stk, h1, h2, h4⟩

/-! ## Theorems: the token bucket -/

theorem Notif.wrap64_eq (x : Int) (h1 : -(2 ^ 63) ≤ x) (h2 : x < 2 ^ 63) :
    Notif.wrap64 x = x := by
  unfold Notif.wrap64; omega

theorem Notif.wrap64_range (x : Int) :
    -(2 ^ 63) ≤ Notif.wrap64 x ∧ Notif.wrap64 x < 2 ^ 63 := by
  unfold Notif.wrap64; omega

theorem Notif.wrap64_le (x : Int) (h : -(2 ^ 63) ≤ x) : Notif.wrap64 x ≤ x := by
  unfold Notif.wrap64; omega

theorem Notif.min_le_left (a b : Int) : Notif.min a b ≤ a := by
  unfold Notif.min; split_ifs <;> omega

theorem Notif.min_le_right (a b : Int) : Notif.min a b ≤ b := by
  unfold Notif.min; split_ifs <;> omega

theorem Notif.le_min (a b c : Int) (h1 : c ≤ a) (h2 : c ≤ b) : c ≤ Notif.min a b := by
  unfold Notif.min; split_ifs <;> omega

theorem Notif.toInt_range (conv : ℚ → Int) (x : ℚ) :
    -(2 ^ 63) ≤ Notif.toInt conv x ∧ Notif.toInt conv x < 2 ^ 63 := by
  unfold Notif.toInt
  dsimp only
  split_ifs with hx h h
  · exact h
  · exact Notif.wrap64_range _
  · exact h
  · exact Notif.wrap64_range _

/-- The conversion never rounds a non-negative value up. -/
theorem Notif.toInt_le (conv : ℚ → Int) (x : ℚ) (hx : 0 ≤ x) :
    ((Notif.toInt conv x : Int) : ℚ) ≤ x := by
  unfold Notif.toInt
  simp only [hx, if_true]
  split_ifs with h
  · exact Int.floor_le x
  · have h0 : (0 : Int) ≤ ⌊x⌋ := Int.floor_nonneg.mpr hx
    have hbig : (2 : Int) ^ 63 ≤ ⌊x⌋ := by
      by_contra hlt
      exact h ⟨by omega, by omega⟩
    have hw := (Notif.wrap64_range (conv x)).2
    have : Notif.wrap64 (conv x) ≤ ⌊x⌋ := by omega
    exact le_trans (by exact_mod_cast this) (Int.floor_le x)

/-! ### The refill -/

/-- The refill changes neither `max` nor `rate`. -/
theorem Notif.RateLimiter.refill_frame (r : Notif.RateLimiter) (conv : ℚ → Int) (now : Time) :
    (r.refill conv now).max = r.max ∧ (r.refill conv now).rate = r.rate := by
  unfold Notif.RateLimiter.refill
  dsimp only
  split_ifs <;> exact ⟨rfl, rfl⟩

/-- What `Allow` returns and what it leaves, in terms of the refill step. -/
theorem Notif.RateLimiter.Allow_spec (r : Notif.RateLimiter) (conv : ℚ → Int) (now : Time) :
    ((r.Allow conv now).2 = true ↔ 0 < (r.refill conv now).tokens) ∧
    ((r.Allow conv now).2 = true →
      (r.Allow conv now).1.tokens = (r.refill conv now).tokens - 1) ∧
    ((r.Allow conv now).2 = false →
      (r.Allow conv now).1.tokens = (r.refill conv now).tokens) ∧
    (r.Allow conv now).1.max = r.max ∧ (r.Allow conv now).1.rate = r.rate ∧
    (r.Allow conv now).1.lastTime = (r.refill conv now).lastTime := by
  obtain ⟨f1, f2⟩ := Notif.RateLimiter.refill_frame r conv now
  by_cases h : (r.refill conv now).tokens > 0
  · have hA : r.Allow conv now
        = ({ r.refill conv now with tokens := (r.refill conv now).tokens - 1 }, true) := by
      simp only [Notif.RateLimiter.Allow, h, if_true]
    rw [hA]
    refine ⟨⟨fun _ => h, fun _ => rfl⟩, fun _ => rfl, fun hc => ?_, f1, f2, rfl⟩
    simp at hc
  · have hA : r.Allow conv now = (r.refill conv now, false) := by
      simp only [Notif.RateLimiter.Allow, h, if_false]
    rw [hA]
    refine ⟨⟨fun hc => ?_, fun hc => absurd hc h⟩, fun hc => ?_, fun _ => rfl, f1, f2, rfl⟩
    · simp at hc
    · simp at hc

/-- A refill that does not overflow keeps the token count between 0 and `max`. -/
theorem Notif.RateLimiter.refill_bounds (r : Notif.RateLimiter) (conv : ℚ → Int) (now : Time)
    (h0 : 0 ≤ r.tokens) (hmax : r.tokens ≤ r.max)
    (hfit : r.tokens + r.tokensToAdd conv now < 2 ^ 63) :
    0 ≤ (r.refill conv now).tokens ∧ (r.refill conv now).tokens ≤ r.max := by
  unfold Notif.RateLimiter.refill
  by_cases hadd : r.tokensToAdd conv now > 0
  · simp only [hadd, if_true]
    rw [Notif.wrap64_eq _ (by omega) hfit]
    exact ⟨Notif.le_min _ _ _ (by omega) (by omega), Notif.min_le_left _ _⟩
  · simp only [hadd, if_false]
    exact ⟨h0, hmax⟩

theorem Notif.RateLimiter.Allow_bounds (r : Notif.RateLimiter) (conv : ℚ → Int) (now : Time)
    (h0 : 0 ≤ r.tokens) (hmax : r.tokens ≤ r.max)
    (hfit : r.tokens + r.tokensToAdd conv now < 2 ^ 63) :
    0 ≤ (r.Allow conv now).1.tokens ∧ (r.Allow conv now).1.tokens ≤ (r.Allow conv now).1.max := by
  obtain ⟨b1, b2⟩ := Notif.RateLimiter.refill_bounds r conv now h0 hmax hfit
  obtain ⟨a1, a2, a3, a4, _, _⟩ := Notif.RateLimiter.Allow_spec r conv now
  rw [a4]
  cases hok : (r.Allow conv now).2 with
  | true =>
    have := a1.mp hok
    rw [a2 hok]; omega
  | false => rw [a3 hok]; exact ⟨b1, b2⟩

theorem Notif.RateLimiter.run_allow_cons (r : Notif.RateLimiter) (conv : ℚ → Int) (now : Time)
    (rest : List Time) :
    r.run conv (now :: rest)
      = (((r.Allow conv now).1.run conv rest).1,
         (r.Allow conv now).2 :: ((r.Allow conv now).1.run conv rest).2) := rfl

theorem Notif.RateLimiter.run_bounds (conv : ℚ → Int) (times : List Time) :
    ∀ r : Notif.RateLimiter, 0 ≤ r.tokens → r.tokens ≤ r.max → r.NoOverflow conv times →
      0 ≤ (r.run conv times).1.tokens ∧ (r.run conv times).1.tokens ≤ r.max ∧
      (r.run conv times).1.max = r.max := by
  induction times with
  | nil => intro r h0 hmax _; exact ⟨h0, hmax, rfl⟩
  | cons now rest ih =>
    intro r h0 hmax hfit
    obtain ⟨hf1, hf2⟩ := hfit
    obtain ⟨b1, b2⟩ := Notif.RateLimiter.Allow_bounds r conv now h0 hmax hf1
    have hm := (Notif.RateLimiter.Allow_spec r conv now).2.2.2.1
    obtain ⟨i1, i2, i3⟩ := ih (r.Allow conv now).1 b1 b2 hf2
    rw [Notif.RateLimiter.run_allow_cons]
    exact ⟨i1, by rw [← hm]; exact i2, by rw [i3, hm]⟩

theorem Notif.RateLimiter.NoOverflow_take (conv : ℚ → Int) (times : List Time) :
    ∀ (r : Notif.RateLimiter) (k : Nat), r.NoOverflow conv times →
      r.NoOverflow conv (times.take k) := by
  induction times with
  | nil => intro r k h; simpa using h
  | cons now rest ih =>
    intro r k h
    cases k with
    | zero => simp [Notif.RateLimiter.NoOverflow]
    | succ k => exact ⟨h.1, ih _ k h.2⟩

/-- When the exact product `elapsed * rate` is an integer in range, it is `tokensToAdd`. -/
theorem Notif.RateLimiter.tokensToAdd_of_int (r : Notif.RateLimiter) (conv : ℚ → Int)
    (now : Time) (n : Int)
    (h : round64 (Notif.seconds (Notif.sub now r.lastTime) * round64 (r.rate : ℚ))
      = (n : ℚ))
    (h1 : -(2 ^ 63) ≤ n) (h2 : n < 2 ^ 63) : r.tokensToAdd conv now = n := by
  simp only [Notif.RateLimiter.tokensToAdd, h, Notif.toInt, Int.floor_intCast,
    Int.ceil_intCast, ite_self]
  rw [if_pos ⟨h1, h2⟩]

/-- C24, as stated, fails for large parameters: with `max = rate = 2^62` (both at least 0)
an `Allow` call 1.5 s after creation computes `tokensToAdd = 1.5 * 2^62`, the sum
`tokens + tokensToAdd` leaves the range of `int` and wraps, and the call leaves
`tokens = -6917529027641081856`, below 0. -/
theorem C24_refill_overflow_makes_tokens_negative :
    (0 : Int) ≤ 4611686018427387904 ∧
    (Notif.NewRateLimiter 4611686018427387904 4611686018427387904 0).Allow (fun _ => 0)
        1500000000
      = (⟨-6917529027641081856, 4611686018427387904, 4611686018427387904, 1500000000⟩,
         false) ∧
    ((Notif.NewRateLimiter 4611686018427387904 4611686018427387904 0).Allow (fun _ => 0)
        1500000000).1.tokens < 0 := by
  have hadd : (Notif.NewRateLimiter 4611686018427387904 4611686018427387904 0).tokensToAdd
      (fun _ => 0) 1500000000 = 6917529027641081856 := by
    apply Notif.RateLimiter.tokensToAdd_of_int
    · have h1 : Notif.sub 1500000000
          (Notif.NewRateLimiter 4611686018427387904 4611686018427387904 0).lastTime
          = 1500000000 := by decide
      have t1 : Int.tdiv 1500000000 1000000000 = 1 := by decide
      have t2 : Int.tmod 1500000000 1000000000 = 500000000 := by decide
      have r1 : round64 ((1 : Int) : ℚ) = 1 :=
        round64_eval _ _ 0 4503599627370496 (by norm_num) (by norm_num) (by norm_num)
          (by norm_num) (by norm_num)
      have r2 : round64 ((500000000 : Int) : ℚ) = 500000000 :=
        round64_eval _ _ 28 8388608000000000 (by norm_num) (by norm_num) (by norm_num)
          (by norm_num) (by norm_num)
      have r3 : round64 ((500000000 : ℚ) / 1000000000) = 1 / 2 :=
        round64_eval _ _ (-1) 4503599627370496 (by norm_num) (by norm_num)
          (by norm_num) (by norm_num) (by norm_num)
      have r4 : round64 ((1 : ℚ) + 1 / 2) = 3 / 2 :=
        round64_eval _ _ 0 6755399441055744 (by norm_num) (by norm_num) (by norm_num)
          (by norm_num) (by norm_num)
      have hs : Notif.seconds 1500000000 = 3 / 2 := by
        unfold Notif.seconds
        dsimp only
        rw [t1, t2, r1, r2, r3, r4]
      have r5 : round64
          (((Notif.NewRateLimiter 4611686018427387904 4611686018427387904 0).rate : Int) : ℚ)
          = 4611686018427387904 :=
        round64_eval _ _ 62 4503599627370496 (by norm_num [Notif.NewRateLimiter])
          (by norm_num [Notif.NewRateLimiter]) (by norm_num [Notif.NewRateLimiter])
          (by norm_num [Notif.NewRateLimiter]) (by norm_num)
      rw [h1, hs, r5]
      exact round64_eval _ _ 62 6755399441055744 (by norm_num) (by norm_num)
        (by norm_num) (by norm_num) (by norm_num)
    · decide
    · decide
  have hA : (Notif.NewRateLimiter 4611686018427387904 4611686018427387904 0).Allow
      (fun _ => 0) 1500000000
      = (⟨-6917529027641081856, 4611686018427387904, 4611686018427387904, 1500000000⟩,
         false) := by
    simp only [Notif.RateLimiter.Allow, Notif.RateLimiter.refill, hadd]
    decide
  refine ⟨by decide, hA, ?_⟩
  rw [hA]
  decide

/-- C24, amended: for a token bucket made by `NewRateLimiter(max, rate)` with `max ≥ 0` and
`rate ≥ 0` and every sequence of `Allow` calls, at arbitrary clock readings, in which the
sum `tokens + tokensToAdd` stays in the range of `int`, after each call
`0 ≤ tokens ≤ max` holds. For every limiter and every call, `Allow` returns true exactly
when the token count after the refill step is positive, and then it leaves that count
minus one; otherwise it leaves that count. -/
theorem C24_token_bucket_bounds (max rate : Int) (t0 : Time) (conv : ℚ → Int)
    (times : List Time) (hmax : 0 ≤ max) (_hrate : 0 ≤ rate)
    (hfit : (Notif.NewRateLimiter max rate t0).NoOverflow conv times) :
    (∀ k, 0 ≤ ((Notif.NewRateLimiter max rate t0).run conv (times.take k)).1.tokens ∧
      ((Notif.NewRateLimiter max rate t0).run conv (times.take k)).1.tokens ≤ max) ∧
    (∀ (r : Notif.RateLimiter) (now : Time),
      ((r.Allow conv now).2 = true ↔ 0 < (r.refill conv now).tokens) ∧
      ((r.Allow conv now).2 = true →
        (r.Allow conv now).1.tokens = (r.refill conv now).tokens - 1) ∧
      ((r.Allow conv now).2 = false →
        (r.Allow conv now).1.tokens = (r.refill conv now).tokens)) := by
  constructor
  · intro k
    obtain ⟨h1, h2, _⟩ := Notif.RateLimiter.run_bounds conv (times.take k)
      (Notif.NewRateLimiter max rate t0) hmax (le_refl _)
      (Notif.RateLimiter.NoOverflow_take conv times _ k hfit)
    exact ⟨h1, h2⟩
  · intro r now
    obtain ⟨a1, a2, a3, _⟩ := Notif.RateLimiter.Allow_spec r conv now
    exact ⟨a1, a2, a3⟩

/-- C24, amended, for `NewRateLimiter(2, 10)` with one call at the time of creation and
one a tenth of a second later, which refills one token. -/
theorem C24_token_bucket_bounds_witness :
    (0 : Int) ≤ 2 ∧ (0 : Int) ≤ 10 ∧
    (Notif.NewRateLimiter 2 10 0).NoOverflow (fun _ => 0) [0, 100000000] ∧
    (∀ k, 0 ≤ ((Notif.NewRateLimiter 2 10 0).run (fun _ => 0)
          (List.take k [0, 100000000])).1.tokens ∧
      ((Notif.NewRateLimiter 2 10 0).run (fun _ => 0)
          (List.take k [0, 100000000])).1.tokens ≤ 2) := by
  have hadd0 : (Notif.NewRateLimiter 2 10 0).tokensToAdd (fun _ => 0) 0 = 0 := by
    apply Notif.RateLimiter.tokensToAdd_of_int
    · have h1 : Notif.sub 0 (Notif.NewRateLimiter 2 10 0).lastTime = 0 := by decide
      rw [h1, Notif.seconds_zero, zero_mul, round64_zero, Int.cast_zero]
    · decide
    · decide
  have hA : (Notif.NewRateLimiter 2 10 0).Allow (fun _ => 0) 0 = (⟨1, 2, 10, 0⟩, true) := by
    simp only [Notif.RateLimiter.Allow, Notif.RateLimiter.refill, hadd0]
    decide
  have hadd1 : (⟨1, 2, 10, 0⟩ : Notif.RateLimiter).tokensToAdd (fun _ => 0) 100000000 = 1 := by
    apply Notif.RateLimiter.tokensToAdd_of_int
    · have h1 : Notif.sub 100000000 (⟨1, 2, 10, 0⟩ : Notif.RateLimiter).lastTime
          = 100000000 := by decide
      have t1 : Int.tdiv 100000000 1000000000 = 0 := by decide
      have t2 : Int.tmod 100000000 1000000000 = 100000000 := by decide
      have r2 : round64 ((100000000 : Int) : ℚ) = 100000000 :=
        round64_eval _ _ 26 6710886400000000 (by norm_num) (by norm_num) (by norm_num)
          (by norm_num) (by norm_num)
      have r3 : round64 ((100000000 : ℚ) / 1000000000) = 7205759403792794 / 2 ^ 56 :=
        round64_eval _ _ (-4) 7205759403792794 (by norm_num) (by norm_num)
          (by norm_num) (by norm_num) (by norm_num)
      have r4 : round64 ((0 : ℚ) + 7205759403792794 / 2 ^ 56)
          = 7205759403792794 / 2 ^ 56 :=
        round64_eval _ _ (-4) 7205759403792794 (by norm_num) (by norm_num)
          (by norm_num) (by norm_num) (by norm_num)
      have hs : Notif.seconds 100000000 = 7205759403792794 / 2 ^ 56 := by
        unfold Notif.seconds
        dsimp only
        rw [t1, t2, Int.cast_zero, round64_zero, r2, r3, r4]
      have r5 : round64 (((⟨1, 2, 10, 0⟩ : Notif.RateLimiter).rate : Int) : ℚ) = 10 :=
        round64_eval _ _ 3 5629499534213120 (by norm_num) (by norm_num) (by norm_num)
          (by norm_num) (by norm_num)
      rw [h1, hs, r5]
      exact round64_eval _ _ 0 4503599627370496 (by norm_num) (by norm_num)
        (by norm_num) (by norm_num) (by norm_num)
    · decide
    · decide
  have hfit : (Notif.NewRateLimiter 2 10 0).NoOverflow (fun _ => 0) [0, 100000000] := by
    refine ⟨by rw [hadd0]; decide, ?_⟩
    rw [hA]
    exact ⟨by rw [hadd1]; decide, trivial⟩
  exact ⟨by decide, by decide, hfit,
    (C24_token_bucket_bounds 2 10 0 (fun _ => 0) [0, 100000000] (by decide) (by decide)
      hfit).1⟩

/-- The `float64` product `elapsed * rate` of a call at or after `lastTime` is not negative
and exceeds the rate times the true time gone by at most by five roundings. -/
theorem Notif.elapsed_rate_bounds (r : Notif.RateLimiter) (now : Time)
    (hnow : r.lastTime ≤ now) (hrate : 0 ≤ r.rate) :
    0 ≤ round64 (Notif.seconds (Notif.sub now r.lastTime) * round64 (r.rate : ℚ)) ∧
    round64 (Notif.seconds (Notif.sub now r.lastTime) * round64 (r.rate : ℚ))
      ≤ (r.rate : ℚ) * (1 + 1 / 2 ^ 50) * (((now : ℚ) - (r.lastTime : ℚ)) / 1000000000) := by
  have hd : (0 : Int) ≤ now - r.lastTime := sub_nonneg.mpr hnow
  have hs0 : (0 : Int) ≤ Notif.sub now r.lastTime := by
    unfold Notif.sub
    exact le_max_iff.mpr (Or.inr (le_min_iff.mpr ⟨by norm_num, hd⟩))
  have hs1 : Notif.sub now r.lastTime ≤ now - r.lastTime := by
    unfold Notif.sub
    exact max_le_iff.mpr ⟨le_trans (by norm_num) hd, min_le_iff.mpr (Or.inr le_rfl)⟩
  have hq0 : (0 : ℚ) ≤ ((Notif.sub now r.lastTime : Int) : ℚ) := by exact_mod_cast hs0
  have hq1 : ((Notif.sub now r.lastTime : Int) : ℚ) ≤ (now : ℚ) - (r.lastTime : ℚ) := by
    have : ((Notif.sub now r.lastTime : Int) : ℚ) ≤ ((now - r.lastTime : Int) : ℚ) := by
      exact_mod_cast hs1
    simpa using this
  have hr : (0 : ℚ) ≤ (r.rate : ℚ) := by exact_mod_cast hrate
  have hc0 : (0 : ℚ) ≤ 1 + 1 / 2 ^ 53 := by norm_num
  obtain ⟨hS0, hS⟩ := Notif.seconds_bounds (Notif.sub now r.lastTime) hs0
  have hR0 := round64_nonneg _ hr
  have hR := round64_le _ hr
  have hP0 := round64_nonneg _ (mul_nonneg hS0 hR0)
  have hP := round64_le _ (mul_nonneg hS0 hR0)
  refine ⟨hP0, le_trans hP ?_⟩
  have hd9 : (0 : ℚ) ≤ ((Notif.sub now r.lastTime : Int) : ℚ) / 1000000000 :=
    div_nonneg hq0 (by norm_num)
  have h1 : Notif.seconds (Notif.sub now r.lastTime) * round64 (r.rate : ℚ)
      ≤ (((Notif.sub now r.lastTime : Int) : ℚ) / 1000000000 * (1 + 1 / 2 ^ 53) ^ 3)
        * ((r.rate : ℚ) * (1 + 1 / 2 ^ 53)) :=
    mul_le_mul hS hR hR0 (mul_nonneg hd9 (by positivity))
  have h2 := mul_le_mul_of_nonneg_right h1 hc0
  refine le_trans h2 ?_
  have e : (((Notif.sub now r.lastTime : Int) : ℚ) / 1000000000 * (1 + 1 / 2 ^ 53) ^ 3)
        * ((r.rate : ℚ) * (1 + 1 / 2 ^ 53)) * (1 + 1 / 2 ^ 53)
      = ((r.rate : ℚ) * (((Notif.sub now r.lastTime : Int) : ℚ) / 1000000000))
        * (1 + 1 / 2 ^ 53) ^ 5 := by ring
  rw [e]
  have hc5 : ((1 : ℚ) + 1 / 2 ^ 53) ^ 5 ≤ 1 + 1 / 2 ^ 50 := by norm_num
  have h3 : ((r.rate : ℚ) * (((Notif.sub now r.lastTime : Int) : ℚ) / 1000000000))
        * (1 + 1 / 2 ^ 53) ^ 5
      ≤ ((r.rate : ℚ) * (((Notif.sub now r.lastTime : Int) : ℚ) / 1000000000))
        * (1 + 1 / 2 ^ 50) :=
    mul_le_mul_of_nonneg_left hc5 (mul_nonneg hr hd9)
  refine le_trans h3 ?_
  have h4 : ((Notif.sub now r.lastTime : Int) : ℚ) / 1000000000
      ≤ ((now : ℚ) - (r.lastTime : ℚ)) / 1000000000 :=
    div_le_div_of_nonneg_right hq1 (by norm_num)
  have h5 := mul_le_mul_of_nonneg_left h4 (mul_nonneg hr (by norm_num : (0 : ℚ) ≤ 1 + 1 / 2 ^ 50))
  refine le_trans (le_of_eq ?_) h5
  ring

/-- The refill step does not raise the potential. -/
theorem Notif.RateLimiter.refill_potential (r : Notif.RateLimiter) (conv : ℚ → Int)
    (now : Time) (hnow : r.lastTime ≤ now) (hrate : 0 ≤ r.rate) (hmax : 0 ≤ r.max)
    (htok : -(2 ^ 63) ≤ r.tokens) :
    (r.refill conv now).potential ≤ r.potential ∧
    -(2 ^ 63) ≤ (r.refill conv now).tokens ∧
    ((r.refill conv now).lastTime = r.lastTime ∨ (r.refill conv now).lastTime = now) := by
  by_cases hadd : r.tokensToAdd conv now > 0
  · have hR : r.refill conv now
        = { r with tokens := Notif.min r.max (Notif.wrap64 (r.tokens + r.tokensToAdd conv now)),
                   lastTime := now } := by
      simp only [Notif.RateLimiter.refill, hadd, if_true]
    obtain ⟨hx0, hx1⟩ := Notif.elapsed_rate_bounds r now hnow hrate
    have haddle : ((r.tokensToAdd conv now : Int) : ℚ)
        ≤ (r.rate : ℚ) * (1 + 1 / 2 ^ 50)
          * (((now : ℚ) - (r.lastTime : ℚ)) / 1000000000) :=
      le_trans (Notif.toInt_le conv _ hx0) hx1
    have hw := Notif.wrap64_le (r.tokens + r.tokensToAdd conv now) (by omega)
    have hwr := (Notif.wrap64_range (r.tokens + r.tokensToAdd conv now)).1
    have hm1 := Notif.min_le_right r.max (Notif.wrap64 (r.tokens + r.tokensToAdd conv now))
    have hm2 := Notif.le_min r.max (Notif.wrap64 (r.tokens + r.tokensToAdd conv now))
      (-(2 ^ 63)) (by omega) hwr
    have hpos : Max.max (Notif.min r.max (Notif.wrap64 (r.tokens + r.tokensToAdd conv now))) 0
        ≤ Max.max r.tokens 0 + r.tokensToAdd conv now := by omega
    have hposq : ((Max.max (Notif.min r.max
          (Notif.wrap64 (r.tokens + r.tokensToAdd conv now))) 0 : Int) : ℚ)
        ≤ ((Max.max r.tokens 0 : Int) : ℚ) + ((r.tokensToAdd conv now : Int) : ℚ) := by
      exact_mod_cast hpos
    rw [hR]
    refine ⟨?_, hm2, Or.inr rfl⟩
    simp only [Notif.RateLimiter.potential]
    have e : (r.rate : ℚ) * (1 + 1 / 2 ^ 50) * (((now : ℚ) - (r.lastTime : ℚ)) / 1000000000)
        = (r.rate : ℚ) * (1 + 1 / 2 ^ 50) * ((now : ℚ) / 1000000000)
          - (r.rate : ℚ) * (1 + 1 / 2 ^ 50) * ((r.lastTime : ℚ) / 1000000000) := by ring
    rw [e] at haddle
    linarith
  · have hR : r.refill conv now = r := by
      simp only [Notif.RateLimiter.refill, hadd, if_false]
    rw [hR]
    exact ⟨le_refl _, htok, Or.inl rfl⟩

/-- A call of `Allow` that returns true lowers the potential by at least one; one that
returns false does not raise it. -/
theorem Notif.RateLimiter.Allow_potential (r : Notif.RateLimiter) (conv : ℚ → Int)
    (now : Time) (hnow : r.lastTime ≤ now) (hrate : 0 ≤ r.rate) (hmax : 0 ≤ r.max)
    (htok : -(2 ^ 63) ≤ r.tokens) :
    ((if (r.Allow conv now).2 then 1 else 0 : ℚ) + (r.Allow conv now).1.potential
      ≤ r.potential) ∧
    -(2 ^ 63) ≤ (r.Allow conv now).1.tokens ∧
    ((r.Allow conv now).1.lastTime = r.lastTime ∨ (r.Allow conv now).1.lastTime = now) ∧
    (r.Allow conv now).1.max = r.max ∧ (r.Allow conv now).1.rate = r.rate := by
  obtain ⟨p1, p2, p3⟩ := Notif.RateLimiter.refill_potential r conv now hnow hrate hmax htok
  obtain ⟨a1, a2, a3, a4, a5, a6⟩ := Notif.RateLimiter.Allow_spec r conv now
  obtain ⟨f1, f2⟩ := Notif.RateLimiter.refill_frame r conv now
  refine ⟨?_, ?_, by rw [a6]; exact p3, a4, a5⟩
  · cases hok : (r.Allow conv now).2 with
    | true =>
      have hpos := a1.mp hok
      have ht := a2 hok
      have e : (r.Allow conv now).1.potential = (r.refill conv now).potential - 1 := by
        simp only [Notif.RateLimiter.potential, ht, a5, a6, f2]
        have h1 : Max.max ((r.refill conv now).tokens - 1) 0 = (r.refill conv now).tokens - 1 :=
          max_eq_left (by omega)
        have h2 : Max.max (r.refill conv now).tokens 0 = (r.refill conv now).tokens :=
          max_eq_left (by omega)
        rw [h1, h2]; push_cast; ring
      rw [e]; simp only [if_true]; linarith
    | false =>
      have ht := a3 hok
      have e : (r.Allow conv now).1.potential = (r.refill conv now).potential := by
        simp only [Notif.RateLimiter.potential, ht, a5, a6, f2]
      rw [e]; simp only [Bool.false_eq_true, if_false]; linarith
  · cases hok : (r.Allow conv now).2 with
    | true =>
      have hpos := a1.mp hok
      rw [a2 hok]; omega
    | false => rw [a3 hok]; exact p2

/-- Over a sequence of `Allow` calls at clock readings that do not go back, the number of
calls that return true is paid for by the fall of the potential. -/
theorem Notif.RateLimiter.run_potential (conv : ℚ → Int) (times : List Time) :
    ∀ (r : Notif.RateLimiter) (prev : Time), r.lastTime ≤ prev →
      List.Chain (fun a b : Time => a ≤ b) prev times →
      0 ≤ r.rate → 0 ≤ r.max → -(2 ^ 63) ≤ r.tokens →
      (((r.run conv times).2.count true : Nat) : ℚ) + (r.run conv times).1.potential
        ≤ r.potential ∧
      (r.run conv times).1.rate = r.rate ∧
      ((r.run conv times).1.lastTime = r.lastTime ∨ (r.run conv times).1.lastTime ∈ times) := by
  induction times with
  | nil =>
    intro r prev _ _ _ _ _
    refine ⟨?_, rfl, Or.inl rfl⟩
    simp [Notif.RateLimiter.run]
  | cons now rest ih =>
    intro r prev hprev hchain hrate hmax htok
    obtain ⟨hpn, hrest⟩ := List.chain_cons.mp hchain
    have hnow : r.lastTime ≤ now := le_trans hprev hpn
    obtain ⟨s1, s2, s3, s4, s5⟩ :=
      Notif.RateLimiter.Allow_potential r conv now hnow hrate hmax htok
    have hl1 : (r.Allow conv now).1.lastTime ≤ now := by
      rcases s3 with h | h
      · rw [h]; exact hnow
      · rw [h]
    obtain ⟨i1, i2, i3⟩ := ih (r.Allow conv now).1 now hl1 hrest (by rw [s5]; exact hrate)
      (by rw [s4]; exact hmax) s2
    rw [Notif.RateLimiter.run_allow_cons]
    dsimp only
    refine ⟨?_, by rw [i2, s5], ?_⟩
    · have hc : (((((r.Allow conv now).2 ::
            ((r.Allow conv now).1.run conv rest).2).count true : Nat)) : ℚ)
          = ((((r.Allow conv now).1.run conv rest).2.count true : Nat) : ℚ)
            + (if (r.Allow conv now).2 then 1 else 0 : ℚ) := by
        cases (r.Allow conv now).2 <;> simp
      rw [hc]; linarith
    · rcases i3 with h | h
      · rcases s3 with h3 | h3
        · exact Or.inl (by rw [h, h3])
        · exact Or.inr (by rw [h, h3]; exact List.mem_cons_self _ _)
      · exact Or.inr (List.mem_cons_of_mem _ h)

/-- No time gone by, no token added. -/
theorem Notif.RateLimiter.tokensToAdd_same (r : Notif.RateLimiter) (conv : ℚ → Int) :
    r.tokensToAdd conv r.lastTime = 0 := by
  have hsub : Notif.sub r.lastTime r.lastTime = 0 := by
    unfold Notif.sub
    rw [sub_self]
    decide
  unfold Notif.RateLimiter.tokensToAdd
  dsimp only
  rw [hsub, Notif.seconds_zero, zero_mul, round64_zero]
  unfold Notif.toInt
  simp

/-- A call at the clock reading of the last refill takes a token when there is one. -/
theorem Notif.RateLimiter.Allow_same (r : Notif.RateLimiter) (conv : ℚ → Int)
    (h : 0 < r.tokens) :
    r.Allow conv r.lastTime = ({ r with tokens := r.tokens - 1 }, true) := by
  have hR : r.refill conv r.lastTime = r := by
    simp [Notif.RateLimiter.refill, Notif.RateLimiter.tokensToAdd_same]
  simp only [Notif.RateLimiter.Allow, hR]
  rw [if_pos h]

/-- Calling `Allow` `n` times at the clock reading of the last refill, with at least `n`
tokens in the bucket, returns true each time. -/
theorem Notif.RateLimiter.run_replicate_same (conv : ℚ → Int) :
    ∀ (n : Nat) (r : Notif.RateLimiter), (n : Int) ≤ r.tokens →
      r.run conv (List.replicate n r.lastTime)
        = ({ r with tokens := r.tokens - n }, List.replicate n true) := by
  intro n
  induction n with
  | zero =>
    intro r _
    simp [Notif.RateLimiter.run]
  | succ k ih =>
    intro r h
    have hpos : 0 < r.tokens := by push_cast at h; omega
    have hk : ((k : Nat) : Int) ≤ ({ r with tokens := r.tokens - 1 } : Notif.RateLimiter).tokens := by
      push_cast at h
      dsimp only
      omega
    have h1 := ih { r with tokens := r.tokens - 1 } hk
    dsimp only at h1
    rw [List.replicate_succ, Notif.RateLimiter.run_allow_cons,
      Notif.RateLimiter.Allow_same r conv hpos]
    dsimp only
    rw [h1, List.replicate_succ]
    simp only [Prod.mk.injEq, and_true]
    congr 1
    push_cast
    ring

/-- The calls of a sequence split in two run one part after the other. -/
theorem Notif.RateLimiter.run_append (conv : ℚ → Int) (l2 : List Time) :
    ∀ (l1 : List Time) (r : Notif.RateLimiter),
      r.run conv (l1 ++ l2)
        = (((r.run conv l1).1.run conv l2).1,
           (r.run conv l1).2 ++ ((r.run conv l1).1.run conv l2).2) := by
  intro l1
  induction l1 with
  | nil => intro r; simp [Notif.RateLimiter.run]
  | cons t rest ih =>
    intro r
    rw [List.cons_append, Notif.RateLimiter.run_allow_cons, ih,
      Notif.RateLimiter.run_allow_cons]
    simp

/-- Clock readings that stay at `a` and then stay at `b`, with `a ≤ b`, do not go back. -/
theorem Notif.chain_two_blocks (a b : Time) (hab : a ≤ b) (m : Nat) :
    ∀ n : Nat, List.Chain (fun x y : Time => x ≤ y) a
      (List.replicate n a ++ List.replicate m b) := by
  have hb : ∀ k : Nat, List.Chain (fun x y : Time => x ≤ y) b (List.replicate k b) := by
    intro k
    induction k with
    | zero => exact List.Chain.nil
    | succ k ih => rw [List.replicate_succ]; exact List.Chain.cons (le_refl _) ih
  intro n
  induction n with
  | zero =>
    cases m with
    | zero => exact List.Chain.nil
    | succ k =>
      rw [List.replicate_zero, List.nil_append, List.replicate_succ]
      exact List.Chain.cons hab (hb k)
  | succ n ih =>
    rw [List.replicate_succ, List.cons_append]
    exact List.Chain.cons (le_refl _) ih

/-- A bucket that is emptied by `n` calls at the clock reading of its last refill and then
called `k + 1` times at a reading `t` where the refill adds at least `k + 1` tokens returns
true in all `n + k + 1` calls. -/
theorem Notif.RateLimiter.run_two_blocks (conv : ℚ → Int) (r : Notif.RateLimiter)
    (n k : Nat) (t : Time) (A : Int) (hn : (n : Int) = r.tokens)
    (hA : ({ r with tokens := 0 } : Notif.RateLimiter).tokensToAdd conv t = A) (hpos : 0 < A)
    (hk : ((k : Nat) : Int) + 1 ≤ Notif.min r.max (Notif.wrap64 (0 + A))) :
    (r.run conv (List.replicate n r.lastTime ++ List.replicate (k + 1) t)).2.count true
      = n + (k + 1) := by
  have h1 := Notif.RateLimiter.run_replicate_same conv n r (le_of_eq hn)
  have h0 : r.tokens - (n : Int) = 0 := by omega
  rw [h0] at h1
  have hR : ({ r with tokens := 0 } : Notif.RateLimiter).refill conv t
      = { r with tokens := Notif.min r.max (Notif.wrap64 (0 + A)), lastTime := t } := by
    simp only [Notif.RateLimiter.refill, hA, gt_iff_lt, hpos, if_true]
  have hAl : ({ r with tokens := 0 } : Notif.RateLimiter).Allow conv t
      = ({ r with tokens := Notif.min r.max (Notif.wrap64 (0 + A)) - 1, lastTime := t },
          true) := by
    simp only [Notif.RateLimiter.Allow, hR]
    rw [if_pos (by omega)]
  have h2 := Notif.RateLimiter.run_replicate_same conv k
    { r with tokens := Notif.min r.max (Notif.wrap64 (0 + A)) - 1, lastTime := t }
    (by dsimp only; omega)
  dsimp only at h2
  rw [Notif.RateLimiter.run_append, h1]
  dsimp only
  rw [List.replicate_succ, Notif.RateLimiter.run_allow_cons, hAl]
  dsimp only
  rw [h2]
  dsimp only
  rw [List.count_append, List.count_cons_self, List.count_replicate_self,
    List.count_replicate_self]

/-- Claim C25, as stated, fails by the rounding of `float64`: a bucket made at time 0 by
`NewRateLimiter(1000000000, 1000000001)` is called 1000000000 times at time 0 and 1000000000
times at 0.999999999 s. The refill of the second round computes
`float64(0.999999999) * 1000000001`, which rounds to 1000000000 although the exact product
is 999999999.999999999: all 2000000000 calls return true, more than
`max + rate * T = 1999999999.999999999`. -/
theorem C25_rounding_hands_out_an_extra_token :
    (0 : Int) ≤ 1000000000 ∧ (0 : Int) ≤ 1000000001 ∧
    List.Chain (fun a b : Time => a ≤ b) 0
      (List.replicate 1000000000 0 ++ List.replicate 1000000000 999999999) ∧
    (∀ t : Time,
      t ∈ List.replicate 1000000000 (0 : Time) ++ List.replicate 1000000000 999999999 →
      ((t : Int) : ℚ) ≤ (((0 : Time) : Int) : ℚ) + 999999999 / 1000000000 * 1000000000) ∧
    ((Notif.NewRateLimiter 1000000000 1000000001 0).run (fun _ => 0)
        (List.replicate 1000000000 0 ++ List.replicate 1000000000 999999999)).2.count true
      = 2000000000 ∧
    ((1000000000 : Int) : ℚ) + ((1000000001 : Int) : ℚ) * (999999999 / 1000000000)
      < ((2000000000 : Nat) : ℚ) := by
  have hadd : ({ (Notif.NewRateLimiter 1000000000 1000000001 0) with tokens := 0 }
      : Notif.RateLimiter).tokensToAdd (fun _ => 0) 999999999 = 1000000000 := by
    apply Notif.RateLimiter.tokensToAdd_of_int
    · have h1 : Notif.sub 999999999
          ({ (Notif.NewRateLimiter 1000000000 1000000001 0) with tokens := 0 }
            : Notif.RateLimiter).lastTime = 999999999 := by decide
      have t1 : Int.tdiv 999999999 1000000000 = 0 := by decide
      have t2 : Int.tmod 999999999 1000000000 = 999999999 := by decide
      have r2 : round64 ((999999999 : Int) : ℚ) = 999999999 :=
        round64_eval _ _ 29 8388607991611392 (by norm_num) (by norm_num) (by norm_num)
          (by norm_num) (by norm_num)
      have r3 : round64 ((999999999 : ℚ) / 1000000000) = 9007199245733793 / 2 ^ 53 :=
        round64_eval _ _ (-1) 9007199245733793 (by norm_num) (by norm_num)
          (by norm_num) (by norm_num) (by norm_num)
      have r4 : round64 ((0 : ℚ) + 9007199245733793 / 2 ^ 53)
          = 9007199245733793 / 2 ^ 53 :=
        round64_eval _ _ (-1) 9007199245733793 (by norm_num) (by norm_num)
          (by norm_num) (by norm_num) (by norm_num)
      have hs : Notif.seconds 999999999 = 9007199245733793 / 2 ^ 53 := by
        unfold Notif.seconds
        dsimp only
        rw [t1, t2, Int.cast_zero, round64_zero, r2, r3, r4]
      have r5 : round64
          ((({ (Notif.NewRateLimiter 1000000000 1000000001 0) with tokens := 0 }
            : Notif.RateLimiter).rate : Int) : ℚ) = 1000000001 :=
        round64_eval _ _ 29 8388608008388608 (by norm_num [Notif.NewRateLimiter])
          (by norm_num [Notif.NewRateLimiter]) (by norm_num [Notif.NewRateLimiter])
          (by norm_num [Notif.NewRateLimiter]) (by norm_num)
      rw [h1, hs, r5]
      exact round64_eval _ _ 29 8388608000000000 (by norm_num) (by norm_num)
        (by norm_num) (by norm_num) (by norm_num)
    · decide
    · decide
  refine ⟨by decide, by decide, Notif.chain_two_blocks 0 999999999 (by decide) _ _, ?_, ?_,
    by norm_num⟩
  · intro t ht
    rcases List.mem_append.mp ht with h | h
    · rw [List.eq_of_mem_replicate h]; norm_num
    · rw [List.eq_of_mem_replicate h]; norm_num
  · exact Notif.RateLimiter.run_two_blocks (fun _ => 0)
      (Notif.NewRateLimiter 1000000000 1000000001 0) 1000000000 999999999 999999999
      1000000000 rfl hadd (by decide) (by decide)

/-- Claim C25, amended: a token bucket made at time `t0` by `NewRateLimiter(max, rate)` with
`max >= 0` and `rate >= 0` returns true, over any sequence of `Allow` calls at non-decreasing
clock readings within `T` seconds from `t0`, at most `max + rate * T * (1 + 2^-50)` times:
the bound of the claim with room for the rounding of the five `float64` operations of a
refill. Clock readings are in nanoseconds. -/
theorem C25_allowed_calls_bound_with_rounding (max rate : Int) (t0 : Time) (T : ℚ)
    (conv : ℚ → Int) (times : List Time) (hmax : 0 ≤ max) (hrate : 0 ≤ rate) (hT : 0 ≤ T)
    (hsorted : List.Chain (fun a b : Time => a ≤ b) t0 times)
    (hend : ∀ t ∈ times, (t : ℚ) ≤ (t0 : ℚ) + T * 1000000000) :
    ((((Notif.NewRateLimiter max rate t0).run conv times).2.count true : Nat) : ℚ)
      ≤ (max : ℚ) + (rate : ℚ) * T * (1 + 1 / 2 ^ 50) := by
  obtain ⟨h1, h2, h3⟩ := Notif.RateLimiter.run_potential conv times
    (Notif.NewRateLimiter max rate t0) t0 (le_refl _) hsorted hrate hmax
    (le_trans (by norm_num) hmax)
  have hlast : ((((Notif.NewRateLimiter max rate t0).run conv times).1.lastTime : Int) : ℚ)
      ≤ (t0 : ℚ) + T * 1000000000 := by
    rcases h3 with h | h
    · rw [h]
      simp only [Notif.NewRateLimiter]
      have : (0 : ℚ) ≤ T * 1000000000 := mul_nonneg hT (by norm_num)
      linarith
    · exact hend _ h
  have hr : (0 : ℚ) ≤ (rate : ℚ) * (1 + 1 / 2 ^ 50) :=
    mul_nonneg (by exact_mod_cast hrate) (by norm_num)
  have hm : (0 : Int) ≤ Max.max ((Notif.NewRateLimiter max rate t0).run conv times).1.tokens 0 :=
    le_max_right _ _
  have hmq : (0 : ℚ)
      ≤ ((Max.max ((Notif.NewRateLimiter max rate t0).run conv times).1.tokens 0 : Int) : ℚ) := by
    exact_mod_cast hm
  have h0 : (Notif.NewRateLimiter max rate t0).potential
      = (max : ℚ) - (rate : ℚ) * (1 + 1 / 2 ^ 50) * ((t0 : ℚ) / 1000000000) := by
    simp only [Notif.RateLimiter.potential, Notif.NewRateLimiter]
    rw [max_eq_left hmax]
  have hp : ((Notif.NewRateLimiter max rate t0).run conv times).1.potential
      = ((Max.max ((Notif.NewRateLimiter max rate t0).run conv times).1.tokens 0 : Int) : ℚ)
        - (rate : ℚ) * (1 + 1 / 2 ^ 50)
          * (((((Notif.NewRateLimiter max rate t0).run conv times).1.lastTime : Int) : ℚ)
              / 1000000000) := by
    have h2r : ((Notif.NewRateLimiter max rate t0).run conv times).1.rate = rate := h2
    simp only [Notif.RateLimiter.potential, h2r]
  rw [h0, hp] at h1
  have hk : (rate : ℚ) * (1 + 1 / 2 ^ 50)
      * (((((Notif.NewRateLimiter max rate t0).run conv times).1.lastTime : Int) : ℚ)
          / 1000000000)
      ≤ (rate : ℚ) * (1 + 1 / 2 ^ 50) * (((t0 : ℚ) + T * 1000000000) / 1000000000) :=
    mul_le_mul_of_nonneg_left (div_le_div_of_nonneg_right hlast (by norm_num)) hr
  have e : (rate : ℚ) * (1 + 1 / 2 ^ 50) * (((t0 : ℚ) + T * 1000000000) / 1000000000)
      = (rate : ℚ) * (1 + 1 / 2 ^ 50) * ((t0 : ℚ) / 1000000000)
        + (rate : ℚ) * T * (1 + 1 / 2 ^ 50) := by
    ring
  rw [e] at hk
  linarith

/-- Witness for C25, amended: a bucket of 2 tokens refilled at 10 per second, called at
0 s, 0 s, 0 s and 0.1 s, within T = 1/10 second. -/
theorem C25_allowed_calls_bound_with_rounding_witness :
    (0 : Int) ≤ 2 ∧ (0 : Int) ≤ 10 ∧
    ((((Notif.NewRateLimiter 2 10 0).run (fun _ => 0) [0, 0, 0, 100000000]).2.count true
        : Nat) : ℚ) ≤ ((2 : Int) : ℚ) + ((10 : Int) : ℚ) * (1 / 10) * (1 + 1 / 2 ^ 50) :=
  ⟨by decide, by decide,
    C25_allowed_calls_bound_with_rounding 2 10 0 (1 / 10) (fun _ => 0)
      [0, 0, 0, 100000000] (by decide) (by decide) (by norm_num)
      (by simp [List.chain_cons])
      (by intro t ht; simp at ht; rcases ht with h | h <;> subst h <;> norm_num)⟩

/-- Claim C26, as stated, fails: `process` raises `Attempts` before it calls `scheduleRetry`,
so the delay before the first retry after a failed send is 2 s and not `2^(1-1) = 1` s, and
the third failed send, which leaves `Attempts = 3`, schedules no retry at all. Delays are
in nanoseconds. -/
theorem C26_first_retry_after_failed_send_waits_two_seconds :
    Notif.process ⟨"n1", "email", "hello", 0⟩ (some true) true
      = (⟨"n1", "email", "hello", 1⟩, Notif.ProcessOutcome.retry (2 * 1000000000)) ∧
    Notif.ProcessOutcome.retry (2 * 1000000000) ≠ Notif.ProcessOutcome.retry (1 * 1000000000) ∧
    Notif.process ⟨"n1", "email", "hello", 2⟩ (some true) true
      = (⟨"n1", "email", "hello", 3⟩, Notif.ProcessOutcome.dropped) := by
  refine ⟨rfl, by decide, rfl⟩

/-- Claim C26, amended: for a notification on which `Attempts` sends have been tried,
`0 ≤ Attempts ≤ 2`, `scheduleRetry` waits `2^Attempts` seconds, as its comment
"1s, 2s, 4s" says: 1 s when the rate limit is hit before any send, 2 s after the first
failed send, 4 s after the second. A hit of the rate limit leaves `Attempts` as it is; a
send raises it by one, and a failed send that brings it to 3 schedules no retry. Delays are
in nanoseconds. -/
theorem C26_backoff_doubles_with_attempts (notif : Notif.Notification)
    (h0 : 0 ≤ notif.Attempts) (h2 : notif.Attempts ≤ 2) (failed : Bool) :
    Notif.backoff notif = 2 ^ notif.Attempts.toNat * 1000000000 ∧
    Notif.process notif (some false) failed
      = (notif, Notif.ProcessOutcome.retry (2 ^ notif.Attempts.toNat * 1000000000)) ∧
    (notif.Attempts + 1 < 3 →
      Notif.process notif (some true) true
        = ({ notif with Attempts := notif.Attempts + 1 },
            Notif.ProcessOutcome.retry (2 ^ (notif.Attempts.toNat + 1) * 1000000000))) ∧
    (notif.Attempts + 1 = 3 →
      Notif.process notif (some true) true
        = ({ notif with Attempts := notif.Attempts + 1 }, Notif.ProcessOutcome.dropped)) ∧
    Notif.process notif (some true) false
      = ({ notif with Attempts := notif.Attempts + 1 }, Notif.ProcessOutcome.sent) := by
  obtain ⟨id, ty, msg, a⟩ := notif
  have ha : a = 0 ∨ a = 1 ∨ a = 2 := by
    simp only at h0 h2
    omega
  rcases ha with rfl | rfl | rfl
  · exact ⟨rfl, rfl, fun _ => rfl, fun h => by simp at h, rfl⟩
  · exact ⟨rfl, rfl, fun _ => rfl, fun h => by simp at h, rfl⟩
  · exact ⟨rfl, rfl, fun h => by simp at h, fun _ => rfl, rfl⟩

/-- Witness for C26, amended: a notification whose first send has failed. -/
theorem C26_backoff_doubles_with_attempts_witness :
    Notif.backoff ⟨"n1", "email", "hello", 1⟩ = 2 ^ (1 : Int).toNat * 1000000000 :=
  (C26_backoff_doubles_with_attempts ⟨"n1", "email", "hello", 1⟩ (by decide) (by decide)
    true).1

/-! ## Theorems: log parsing -/

/-- A text without the separator, followed by the separator, is cut right there. -/
theorem LogParsing.cut_append (sep : Char) (rest : List Char) :
    ∀ a : List Char, sep ∉ a →
      LogParsing.cut sep (a ++ sep :: rest) = some (a, rest) := by
  intro a
  induction a with
  | nil => intro _; simp [LogParsing.cut]
  | cons c cs ih =>
    intro h
    have hc : c ≠ sep := fun e => h (by rw [e]; exact List.mem_cons_self _ _)
    have hcs : sep ∉ cs := fun m => h (List.mem_cons_of_mem _ m)
    simp [LogParsing.cut, hc, ih hcs]

/-- Splitting in two at the first separator. -/
theorem LogParsing.splitChars_two (sep : Char) (a rest : List Char) (h : sep ∉ a) :
    LogParsing.splitChars sep 2 (a ++ sep :: rest) = [a, rest] := by
  simp [LogParsing.splitChars, LogParsing.cut_append sep rest a h]

/-- Splitting in four: three fields without the separator, then the remainder. -/
theorem LogParsing.splitChars_four (sep : Char) (a b c rest : List Char)
    (ha : sep ∉ a) (hb : sep ∉ b) (hc : sep ∉ c) :
    LogParsing.splitChars sep 4 (a ++ sep :: (b ++ sep :: (c ++ sep :: rest)))
      = [a, b, c, rest] := by
  simp [LogParsing.splitChars, LogParsing.cut_append sep _ a ha,
    LogParsing.cut_append sep _ b hb, LogParsing.cut_append sep _ c hc]

/-- The characters of a line in the format of the header comment. -/
theorem LogParsing.line_data (date time level application message : String) :
    (date ++ " " ++ time ++ " " ++ level ++ " " ++ application ++ " " ++ message).data
      = date.data ++ ' ' :: (time.data ++ ' ' :: (level.data ++ ' ' ::
          (application.data ++ ' ' :: message.data))) := by
  simp [String.data_append]

/-- Claim C27: on a line "date time level application message" whose first four fields
hold no space, `processLogEntry` returns no error and the entry with
Timestamp = date + " " + time, Level = level, Application = application and
Message = message; joining the four fields of the entry with single spaces gives the
line back. -/
theorem C27_processLogEntry_parses_well_formed_line
    (date time level application message : String)
    (hd : ' ' ∉ date.data) (ht : ' ' ∉ time.data) (hl : ' ' ∉ level.data)
    (ha : ' ' ∉ application.data) :
    ∃ e : LogParsing.LogEntry,
      LogParsing.processLogEntry
          (date ++ " " ++ time ++ " " ++ level ++ " " ++ application ++ " " ++ message)
        = LogParsing.ParseResult.entry e ∧
      e.Timestamp = date ++ " " ++ time ∧ e.Level = level ∧
      e.Application = application ∧ e.Message = message ∧
      e.Timestamp ++ " " ++ e.Level ++ " " ++ e.Application ++ " " ++ e.Message
        = date ++ " " ++ time ++ " " ++ level ++ " " ++ application ++ " " ++ message := by
  have h4 : LogParsing.SplitN
      (date ++ " " ++ time ++ " " ++ level ++ " " ++ application ++ " " ++ message) ' ' 4
      = [date, time, level, String.mk (application.data ++ ' ' :: message.data)] := by
    simp only [LogParsing.SplitN, LogParsing.line_data,
      LogParsing.splitChars_four ' ' _ _ _ _ hd ht hl, List.map]
  have h2 : LogParsing.SplitN (String.mk (application.data ++ ' ' :: message.data)) ' ' 2
      = [application, message] := by
    simp only [LogParsing.SplitN, LogParsing.splitChars_two ' ' _ _ ha, List.map]
  refine ⟨⟨date ++ " " ++ time, level, application, message⟩, ?_, rfl, rfl, rfl, rfl, rfl⟩
  simp [LogParsing.processLogEntry, h4, h2, LogParsing.idx]

/-- Witness for C27: the first sample line of the header comment. -/
theorem C27_processLogEntry_parses_well_formed_line_witness :
    ∃ e : LogParsing.LogEntry,
      LogParsing.processLogEntry
          ("2024-09-29" ++ " " ++ "10:00:07" ++ " " ++ "INFO" ++ " " ++ "order-service" ++ " "
            ++ "Health check passed")
        = LogParsing.ParseResult.entry e ∧
      e.Timestamp = "2024-09-29" ++ " " ++ "10:00:07" ∧ e.Level = "INFO" ∧
      e.Application = "order-service" ∧ e.Message = "Health check passed" ∧
      e.Timestamp ++ " " ++ e.Level ++ " " ++ e.Application ++ " " ++ e.Message
        = "2024-09-29" ++ " " ++ "10:00:07" ++ " " ++ "INFO" ++ " " ++ "order-service" ++ " "
            ++ "Health check passed" :=
  C27_processLogEntry_parses_well_formed_line "2024-09-29" "10:00:07" "INFO" "order-service"
    "Health check passed" (by decide) (by decide) (by decide) (by decide)

/-- Claim C28 (code diverges): the guard `len(parts) > 4` never holds after
`strings.SplitN(line, " ", 4)`, so a line with fewer than four fields reaches the index
expressions and panics with an index out of range: the empty line at `parts[1]`, a line of
two fields at `parts[2]`, a line of three fields at `parts[3]`. Only a line of exactly four
fields gets the error "error reading the log line". -/
theorem C28_processLogEntry_panics_on_short_line :
    LogParsing.processLogEntry "" = LogParsing.ParseResult.indexOutOfRange 1 1 ∧
    LogParsing.processLogEntry "INFO" = LogParsing.ParseResult.indexOutOfRange 1 1 ∧
    LogParsing.processLogEntry "2024-09-29 10:00:07"
      = LogParsing.ParseResult.indexOutOfRange 2 2 ∧
    LogParsing.processLogEntry "2024-09-29 10:00:07 INFO"
      = LogParsing.ParseResult.indexOutOfRange 3 3 ∧
    LogParsing.processLogEntry "2024-09-29 10:00:07 INFO order-service"
      = LogParsing.ParseResult.error "error reading the log line" := by
  refine ⟨?_, ?_, ?_, ?_, ?_⟩ <;> decide

end Prod
